import Mathlib

set_option linter.unusedVariables false
set_option linter.unusedSectionVars false

/-!
Verification of the raster-retrace tracing engine against its specification.

This file contains a shallow embedding, in Lean 4, of the parts of the
program that the specification claims talk about:

* `src/intern/min_heap/mod.rs` — the handle-stable binary min-heap;
* `src/intern/math_vector/mod.rs` — fixed-arity (2-D) vector helpers;
* `src/intern/curve_fit_nd/curve_fit_single.rs` — the single-cubic fitter;
* `src/intern/curve_fit_nd/curve_fit_from_polys.rs` — the incremental knot
  engine (`fit_poly_single` and its three refinement phases);
* `src/polys_simplify_collapse.rs` — the quadric edge-collapse simplifier;
* `src/polys_from_raster_outline.rs` — the outline extractor's
  edge-stamping pass;
* `src/main.rs` — the driver's foreground classification and exit paths.

Modelling conventions:

* Rust `f64` values are modelled as exact rationals (`ℚ`).  The four basic
  arithmetic operations and comparisons are translated exactly; the
  intrinsic functions `sqrt`, `acos`, `sin`, `cos` (whose results are
  generally irrational) are threaded through as an explicit record of
  function parameters (`RealOps`), so every theorem quantifies over them.
  All rationals are finite, so `is_finite` checks are modelled as `true`.
* Rust `usize` is modelled as `Nat`; the sentinel `usize::MAX` is the
  constant `INVALID` below.  `Vec` becomes `List` with `getD`/`set`;
  out-of-range accesses (which would panic in Rust) read a default value,
  and the well-formedness invariants proved below show such accesses do
  not occur in the executions the theorems speak about.
* Stateful code is translated to explicit state passing.  The heap-driven
  refinement loops, whose termination is not structural, take an explicit
  fuel argument and return `Option`; `none` means the fuel ran out.
* Rust `debug_assert!` statements are comments here; `assert!` statements
  that guard data-structure consistency are noted where relevant.
-/

namespace Retrace

/-- Rust `usize::MAX`, used by the program as an invalid-index sentinel. -/
def INVALID : Nat := 2 ^ 64 - 1

/-! ### Min-heap with stable handles (`src/intern/min_heap/mod.rs`)

The heap is generic over an ordered key type `K` (Rust: `TOrd: PartialOrd`)
and a payload type `V` (Rust: `TData: Copy`).  The claims assume no NaN key
is ever inserted, so valid keys are totally ordered: we model `K` with a
`LinearOrder`. -/

/-- Heap node: key, payload and the back-pointer into `tree_index`
(doubling as a free-list link when the slot is free). -/
structure Node (K V : Type) where
  value : K
  user_data : V
  index : Nat
deriving Repr, DecidableEq

instance nodeInhabited {K V : Type} [Inhabited K] [Inhabited V] : Inhabited (Node K V) :=
  ⟨⟨default, default, 0⟩⟩

/-- Opaque handle to a heap node slot (Rust `NodeHandle(usize)`). -/
structure NodeHandle where
  val : Nat
deriving Repr, DecidableEq

/-- Rust `NodeHandle::INVALID`. -/
def NodeHandle.INVAL : NodeHandle := ⟨INVALID⟩

/-- The heap state: `tree_index` maps tree positions to node slots,
`node` is the slot storage, `free` heads the free-slot chain. -/
structure MinHeap (K V : Type) where
  tree_index : List Nat
  node : List (Node K V)
  free : Nat

namespace MinHeap

variable {K V : Type} [LinearOrder K] [Inhabited K] [Inhabited V]

/-- Rust `bin_parent`. -/
def bin_parent (i : Nat) : Nat := (i - 1) / 2

/-- Rust `bin_left`. -/
def bin_left (i : Nat) : Nat := 2 * i + 1

/-- Rust `bin_right`. -/
def bin_right (i : Nat) : Nat := 2 * i + 2

/-- Rust `MinHeap::node_compare` (strict key comparison). -/
def node_compare (a b : Node K V) : Bool := a.value < b.value

/-- Read a node slot (Rust `self.node[s]`). -/
def getNode (h : MinHeap K V) (s : Nat) : Node K V := h.node.getD s default

/-- Rust `self.tree(i)`: the node at tree position `i`. -/
def tree (h : MinHeap K V) (i : Nat) : Node K V := h.getNode (h.tree_index.getD i 0)

/-- Rust `MinHeap::heap_swap`: swap two tree positions and fix the two
back-pointers (the second read happens after the first write, as in the
source). -/
def heap_swap (h : MinHeap K V) (i j : Nat) : MinHeap K V :=
  let a := h.tree_index.getD i 0
  let b := h.tree_index.getD j 0
  let ti := (h.tree_index.set i b).set j a
  let t := (h.node.getD a default).index
  let n1 := h.node.set a { h.node.getD a default with index := (h.node.getD b default).index }
  let n2 := n1.set b { n1.getD b default with index := t }
  { h with tree_index := ti, node := n2 }

/-- Rust `MinHeap::heap_compare`. -/
def heap_compare (h : MinHeap K V) (i j : Nat) : Bool :=
  node_compare (h.tree i) (h.tree j)

/-- Rust `MinHeap::heap_down` (sift-down loop).  The source computes
`smallest` in two steps and breaks when `smallest == i`; since the left and
right children are both `> i`, that is equivalent to the four explicit
branches below (which expose the bound checks for the termination proof). -/
def heap_down (h : MinHeap K V) (i : Nat) : MinHeap K V :=
  let size := h.tree_index.length
  let l := bin_left i
  let r := bin_right i
  if hl : l < size ∧ h.heap_compare l i = true then
    if hr : r < size ∧ h.heap_compare r l = true then
      (h.heap_swap i r).heap_down r
    else
      (h.heap_swap i l).heap_down l
  else
    if hr : r < size ∧ h.heap_compare r i = true then
      (h.heap_swap i r).heap_down r
    else h
termination_by h.tree_index.length - i
decreasing_by
  · have hL : bin_left i = 2 * i + 1 := rfl
    have hR : bin_right i = 2 * i + 2 := rfl
    simp only [MinHeap.heap_swap, List.length_set]
    omega
  · have hL : bin_left i = 2 * i + 1 := rfl
    simp only [MinHeap.heap_swap, List.length_set]
    omega
  · have hR : bin_right i = 2 * i + 2 := rfl
    simp only [MinHeap.heap_swap, List.length_set]
    omega

/-- Rust `MinHeap::heap_up` (sift-up loop). -/
def heap_up (h : MinHeap K V) (i : Nat) : MinHeap K V :=
  if h0 : i = 0 then h
  else
    let p := bin_parent i
    if h.heap_compare p i = true then h
    else (h.heap_swap p i).heap_up p
termination_by i
decreasing_by
  have hP : bin_parent i = (i - 1) / 2 := rfl
  omega

/-- Rust `MinHeap::node_take`: allocate a slot (reusing the free list). -/
def node_take (h : MinHeap K V) (node_data : Node K V) : NodeHandle × MinHeap K V :=
  if h.free = INVALID then
    (⟨h.node.length⟩, { h with node := h.node ++ [node_data] })
  else
    let nhandle := h.free
    let free2 := (h.node.getD nhandle default).index
    (⟨nhandle⟩, { h with node := h.node.set nhandle node_data, free := free2 })

/-- Rust `MinHeap::node_drop`: free a slot, returning its payload. -/
def node_drop (h : MinHeap K V) (free_node : Nat) : V × MinHeap K V :=
  let nd := h.node.getD free_node default
  (nd.user_data,
   { h with node := h.node.set free_node { nd with index := h.free }, free := free_node })

/-- Rust `MinHeap::insert`. -/
def insert (h : MinHeap K V) (value : K) (user_data : V) : NodeHandle × MinHeap K V :=
  let tree_index_len := h.tree_index.length
  let p := h.node_take ⟨value, user_data, tree_index_len⟩
  let h1 := p.2
  let index := h1.tree_index.length
  let h2 := { h1 with tree_index := h1.tree_index ++ [p.1.val] }
  (p.1, h2.heap_up index)

/-- Rust `MinHeap::pop_min`. -/
def pop_min (h : MinHeap K V) : Option V × MinHeap K V :=
  if h.tree_index.length = 0 then (none, h)
  else
    let free_node := h.tree_index.getD 0 0
    let tree_index_len := h.tree_index.length - 1
    let h1 :=
      if tree_index_len ≠ 0 then
        let hs := h.heap_swap 0 tree_index_len
        MinHeap.heap_down { hs with tree_index := hs.tree_index.dropLast } 0
      else
        { h with tree_index := h.tree_index.dropLast }
    let pr := h1.node_drop free_node
    (some pr.1, pr.2)

/-- Rust `MinHeap::pop_min_with_value` (key read just before the drop). -/
def pop_min_with_value (h : MinHeap K V) : Option (K × V) × MinHeap K V :=
  if h.tree_index.length = 0 then (none, h)
  else
    let free_node := h.tree_index.getD 0 0
    let tree_index_len := h.tree_index.length - 1
    let h1 :=
      if tree_index_len ≠ 0 then
        let hs := h.heap_swap 0 tree_index_len
        MinHeap.heap_down { hs with tree_index := hs.tree_index.dropLast } 0
      else
        { h with tree_index := h.tree_index.dropLast }
    let pr := h1.node_drop free_node
    (some ((h1.node.getD free_node default).value, pr.1), pr.2)

/-- The heap state computed by `pop_min` / `pop_min_with_value` just before
their final `node_drop` (the code of the two Rust functions is identical up
to that point; this names their common intermediate state). -/
def pop_state (h : MinHeap K V) : MinHeap K V :=
  let tree_index_len := h.tree_index.length - 1
  if tree_index_len ≠ 0 then
    let hs := h.heap_swap 0 tree_index_len
    MinHeap.heap_down { hs with tree_index := hs.tree_index.dropLast } 0
  else
    { h with tree_index := h.tree_index.dropLast }

/-- The unconditional promote-to-root loop inside Rust `MinHeap::remove`. -/
def remove_promote (h : MinHeap K V) (i : Nat) : MinHeap K V :=
  if h0 : i = 0 then h
  else remove_promote (h.heap_swap (bin_parent i) i) (bin_parent i)
termination_by i
decreasing_by
  simp only [bin_parent]
  omega

/-- Rust `MinHeap::remove`: promote the handle's node to the root, then pop. -/
def remove (h : MinHeap K V) (nhandle : NodeHandle) : MinHeap K V :=
  let i := (h.node.getD nhandle.val default).index
  (h.remove_promote i).pop_min.2

/-- Rust `MinHeap::is_empty`. -/
def is_empty (h : MinHeap K V) : Bool := h.tree_index.length = 0

/-- Rust `MinHeap::new` / `MinHeap::with_capacity` (capacity is only a
storage hint and does not affect behaviour). -/
def with_capacity (_capacity : Nat) : MinHeap K V :=
  { tree_index := [], node := [], free := INVALID }

/-- The abstract contents of the heap: the (key, payload) pairs at each
tree position, in tree order. -/
def entriesL (h : MinHeap K V) : List (K × V) :=
  h.tree_index.map (fun s => ((h.node.getD s default).value, (h.node.getD s default).user_data))

end MinHeap

/-! ### Vector math (`src/intern/math_vector/mod.rs`), `DIMS = 2`

Vectors are pairs of rationals.  The square-root (and, further below, the
inverse-cosine, sine and cosine) of a rational is generally irrational, so
those intrinsics are passed in as a record of function parameters. -/

/-- A 2-D point/vector (`[f64; DIMS]` with `DIMS = 2`). -/
abbrev V2 : Type := ℚ × ℚ

/-- The real-valued intrinsics used by the program, as explicit function
parameters of the model (`f64::sqrt`, `f64::acos`, `f64::sin`, `f64::cos`). -/
structure RealOps where
  sqrt : ℚ → ℚ
  acos : ℚ → ℚ
  sin : ℚ → ℚ
  cos : ℚ → ℚ

/-- A concrete all-zero interpretation of the real intrinsics, used to
instantiate theorems on concrete inputs whose result does not depend on
the intrinsics. -/
def zeroOps : RealOps := ⟨fun _ => 0, fun _ => 0, fun _ => 0, fun _ => 0⟩

/-- Rust `const EPS: f64 = 1e-8` in `math_vector`. -/
def EPS : ℚ := 1 / 10 ^ 8

/-- `f64::EPSILON` (2⁻⁵²), exact. -/
def f64_EPSILON : ℚ := 1 / 2 ^ 52

/-- `f64::consts::PI`: the IEEE-754 double nearest π, exact. -/
def f64_PI : ℚ := 884279719003555 / 281474976710656

/-- Rust `sq`. -/
def sq (d : ℚ) : ℚ := d * d

/-- Rust `is_finite_vn`: every rational is finite in this model. -/
def is_finite_vn (_v0 : V2) : Bool := true

/-- Rust `negated_vn`. -/
def negated_vn (v0 : V2) : V2 := (-v0.1, -v0.2)

/-- Rust `dot_vnvn`. -/
def dot_vnvn (v0 v1 : V2) : ℚ := v0.1 * v1.1 + v0.2 * v1.2

/-- Rust `add_vnvn`. -/
def add_vnvn (v0 v1 : V2) : V2 := (v0.1 + v1.1, v0.2 + v1.2)

/-- Rust `sub_vnvn`. -/
def sub_vnvn (v0 v1 : V2) : V2 := (v0.1 - v1.1, v0.2 - v1.2)

/-- Rust `madd_vnvn_fl`. -/
def madd_vnvn_fl (v0 v1 : V2) (f : ℚ) : V2 := (v0.1 + v1.1 * f, v0.2 + v1.2 * f)

/-- Rust `msub_vnvn_fl`. -/
def msub_vnvn_fl (v0 v1 : V2) (f : ℚ) : V2 := (v0.1 - v1.1 * f, v0.2 - v1.2 * f)

/-- Rust `mul_vn_fl`. -/
def mul_vn_fl (v0 : V2) (f : ℚ) : V2 := (v0.1 * f, v0.2 * f)

/-- Rust `len_squared_vnvn`. -/
def len_squared_vnvn (v0 v1 : V2) : ℚ := sq (v0.1 - v1.1) + sq (v0.2 - v1.2)

/-- Rust `len_squared_vn`. -/
def len_squared_vn (v0 : V2) : ℚ := sq v0.1 + sq v0.2

/-- Rust `len_vnvn`. -/
def len_vnvn (ops : RealOps) (v0 v1 : V2) : ℚ := ops.sqrt (len_squared_vnvn v0 v1)

/-- Rust `len_squared_negated_vnvn`. -/
def len_squared_negated_vnvn (v0 v1 : V2) : ℚ := sq (v0.1 + v1.1) + sq (v0.2 + v1.2)

/-- Rust `len_negated_vnvn`. -/
def len_negated_vnvn (ops : RealOps) (v0 v1 : V2) : ℚ :=
  ops.sqrt (len_squared_negated_vnvn v0 v1)

/-- Rust `normalize_vn`: returns the scaled vector and the returned length
(the source mutates in place and returns the length; the length is
reassigned to the square root only when the squared length is nonzero). -/
def normalize_vn (ops : RealOps) (v0 : V2) : V2 × ℚ :=
  let d := len_squared_vn v0
  if d ≠ 0 then
    let d2 := ops.sqrt d
    if d2 ≠ 0 then (mul_vn_fl v0 (1 / d2), d2) else (v0, d2)
  else (v0, d)

/-- Rust `normalized_vn`. -/
def normalized_vn (ops : RealOps) (v0 : V2) : V2 := (normalize_vn ops v0).1

/-- Rust `normalized_vnvn` (normalised `v0 - v1`). -/
def normalized_vnvn (ops : RealOps) (v0 v1 : V2) : V2 :=
  (normalize_vn ops (sub_vnvn v0 v1)).1

/-- Rust `normalized_vnvn_with_len`. -/
def normalized_vnvn_with_len (ops : RealOps) (v0 v1 : V2) : V2 × ℚ :=
  normalize_vn ops (sub_vnvn v0 v1)

/-- Rust `is_almost_zero_ex`. -/
def is_almost_zero_ex (val eps : ℚ) : Bool := -eps < val ∧ val < eps

/-- Rust `is_almost_zero`. -/
def is_almost_zero (val : ℚ) : Bool := is_almost_zero_ex val EPS

/-- Rust `project_vnvn_normalized`. -/
def project_vnvn_normalized (p v_proj : V2) : V2 := mul_vn_fl v_proj (dot_vnvn p v_proj)

/-- Rust `project_plane_vnvn_normalized`. -/
def project_plane_vnvn_normalized (v v_plane : V2) : V2 :=
  sub_vnvn v (project_vnvn_normalized v v_plane)

/-- Rust slice `l[a..b]`. -/
def listSlice {A : Type} (l : List A) (a b : Nat) : List A := (l.take b).drop a

/-- `getD` specialised to points with a zero default (out-of-range reads
do not occur in well-formed executions). -/
def getV (l : List V2) (i : Nat) : V2 := l.getD i (0, 0)

/-- `getD` specialised to rationals. -/
def getQ (l : List ℚ) (i : Nat) : ℚ := l.getD i 0

/-! ### Single-cubic fitter (`src/intern/curve_fit_nd/curve_fit_single.rs`) -/

/-- Rust `types::Cubic`. -/
structure Cubic where
  p0 : V2
  p1 : V2
  p2 : V2
  p3 : V2
deriving Repr, DecidableEq

/-- Rust `cubic_solve_fallback::calc`. -/
def cubic_solve_fallback_calc (ops : RealOps) (points : List V2) (tan_l tan_r : V2) :
    Cubic :=
  let p0 := getV points 0
  let p3 := getV points (points.length - 1)
  let alpha := len_vnvn ops p0 p3 / 3
  ⟨p0, msub_vnvn_fl p0 tan_l alpha, madd_vnvn_fl p3 tan_r alpha, p3⟩

/-- Rust bezier `b1`. -/
def bezier_b1 (u : ℚ) : ℚ := 3 * u * (1 - u) * (1 - u)

/-- Rust bezier `b2`. -/
def bezier_b2 (u : ℚ) : ℚ := 3 * u * u * (1 - u)

/-- Rust bezier `b0_plus_b1`. -/
def bezier_b0_plus_b1 (u : ℚ) : ℚ := (1 - u) * (1 - u) * (1 + 2 * u)

/-- Rust bezier `b2_plus_b3`. -/
def bezier_b2_plus_b3 (u : ℚ) : ℚ := u * u * (3 - 2 * u)

/-- The Rust literal `10e-12` (that is, 10 × 10⁻¹² = 10⁻¹¹) used as the
determinant safety-floor factor in `cubic_solve_least_square::calc`. -/
def lit_10e_minus_12 : ℚ := 10 / 10 ^ 12

/-- The accumulator state of the normal-equation loop in
`cubic_solve_least_square::calc`: `(x0, x1, c00, c01, c11)`
(`c10` is assigned `c01` on every iteration). -/
def least_square_acc (p0 p3 tan_l tan_r : V2) (acc : ℚ × ℚ × ℚ × ℚ × ℚ)
    (pu : V2 × ℚ) : ℚ × ℚ × ℚ × ℚ × ℚ :=
  let pt := pu.1
  let u := pu.2
  let a0 := mul_vn_fl tan_l (bezier_b1 u)
  let a1 := mul_vn_fl tan_r (bezier_b2 u)
  let b01 := bezier_b0_plus_b1 u
  let b23 := bezier_b2_plus_b3 u
  let tmp1 := (pt.1 - p0.1 * b01) + p3.1 * b23
  let tmp2 := (pt.2 - p0.2 * b01) + p3.2 * b23
  (acc.1 + a0.1 * tmp1 + a0.2 * tmp2,
   acc.2.1 + a1.1 * tmp1 + a1.2 * tmp2,
   acc.2.2.1 + a0.1 * a0.1 + a0.2 * a0.2,
   acc.2.2.2.1 + a0.1 * a1.1 + a0.2 * a1.2,
   acc.2.2.2.2 + a1.1 * a1.1 + a1.2 * a1.2)

/-- Rust `cubic_solve_least_square::calc`. -/
def cubic_solve_least_square_calc (points : List V2) (tan_l tan_r : V2)
    (u_prime : List ℚ) : Option Cubic :=
  let p0 := getV points 0
  let p3 := getV points (points.length - 1)
  let acc := (points.zip u_prime).foldl (least_square_acc p0 p3 tan_l tan_r) (0, 0, 0, 0, 0)
  let x0 := acc.1
  let x1 := acc.2.1
  let c00 := acc.2.2.1
  let c01 := acc.2.2.2.1
  let c11 := acc.2.2.2.2
  let c10 := c01
  let det_c0_c1 :=
    let tmp := c00 * c11 - c01 * c10
    if ¬ (is_almost_zero tmp = true) then tmp else c00 * c11 * lit_10e_minus_12
  let det_c_0x := x1 * c00 - x0 * c01
  let det_x_c1 := x0 * c11 - x1 * c01
  let alpha_l := det_x_c1 / det_c0_c1
  let alpha_r := det_c_0x / det_c0_c1
  if ¬ (alpha_l ≥ 0) ∨ ¬ (alpha_r ≥ 0) then none
  else some ⟨p0, msub_vnvn_fl p0 tan_l alpha_l, madd_vnvn_fl p3 tan_r alpha_r, p3⟩

/-- Rust `cubic_solve_circle::points_calc_circumference_factor`. -/
def points_calc_circumference_factor (ops : RealOps) (tan_l tan_r : V2) : ℚ :=
  let d := dot_vnvn tan_l tan_r
  let len_tangent := if d < 0 then len_vnvn ops tan_l tan_r else len_negated_vnvn ops tan_l tan_r
  if len_tangent > f64_EPSILON then
    let angle := ops.acos (max (-(abs d)) (-1))
    angle / len_tangent
  else
    f64_PI / 2

/-- Rust `cubic_solve_circle::points_calc_circle_tangent_factor`. -/
def points_calc_circle_tangent_factor (ops : RealOps) (tan_l tan_r : V2) : Option ℚ :=
  let eps : ℚ := 1 / 10 ^ 8
  let tan_dot := dot_vnvn tan_l tan_r
  if tan_dot > 1 - eps then none
  else if tan_dot < -1 + eps then some (1 / 2)
  else
    let angle := ops.acos tan_dot / 2
    let angle_sin := ops.sin angle
    let angle_cos := ops.cos angle
    some (((1 - angle_cos) / (angle_sin * 2)) / angle_sin)

/-- Rust `cubic_solve_circle::points_calc_cubic_scale` (the `is_finite`
check always passes in the exact model). -/
def points_calc_cubic_scale (ops : RealOps) (v_l v_r tan_l tan_r : V2)
    (coords_length : ℚ) : Option ℚ :=
  match points_calc_circle_tangent_factor ops tan_l tan_r with
  | none => none
  | some len_circle_factor =>
    let len_direct := len_vnvn ops v_l v_r
    let len_circle_handle := len_direct * (len_circle_factor / (3 / 4))
    let len_circle := len_direct * points_calc_circumference_factor ops tan_l tan_r
    let scale_handle0 := coords_length / len_circle
    let scale_handle1 := ((scale_handle0 - 1) * (7 / 4)) + 1
    some (scale_handle1 * len_circle_handle)

/-- Rust `cubic_solve_circle::calc`. -/
def cubic_solve_circle_calc (ops : RealOps) (points : List V2) (tan_l tan_r : V2)
    (points_coords_length : ℚ) : Option Cubic :=
  let p0 := getV points 0
  let p3 := getV points (points.length - 1)
  match points_calc_cubic_scale ops p0 p3 tan_l tan_r points_coords_length with
  | some alpha =>
    some ⟨p0, msub_vnvn_fl p0 tan_l alpha, madd_vnvn_fl p3 tan_r alpha, p3⟩
  | none => none

/-- Rust `cubic_solve_offset::calc`. -/
def cubic_solve_offset_calc (ops : RealOps) (points : List V2) (tan_l tan_r : V2) :
    Option Cubic :=
  let p0 := getV points 0
  let p3 := getV points (points.length - 1)
  let dir_unit := normalized_vnvn ops p3 p0
  let a0 := normalized_vn ops (project_plane_vnvn_normalized tan_l dir_unit)
  let a1 := negated_vn (normalized_vn ops (project_plane_vnvn_normalized tan_r dir_unit))
  let div_l := abs (dot_vnvn tan_l a0)
  let div_r := abs (dot_vnvn tan_r a1)
  if div_l < f64_EPSILON ∨ div_r < f64_EPSILON then none
  else
    let interior := listSlice points 1 (points.length - 1)
    let dists := interior.foldl
      (fun (d : ℚ × ℚ) pt =>
        let t0 := project_vnvn_normalized (sub_vnvn p0 pt) a0
        let t1 := project_vnvn_normalized (sub_vnvn p0 pt) a1
        (max d.1 (dot_vnvn t0 a0), max d.2 (dot_vnvn t1 a1)))
      (0, 0)
    let alpha_l := (dists.1 / (3 / 4)) / div_l
    let alpha_r := (dists.2 / (3 / 4)) / div_r
    if ¬ (alpha_l ≥ 0) ∨ ¬ (alpha_r ≥ 0) then none
    else some ⟨p0, msub_vnvn_fl p0 tan_l alpha_l, madd_vnvn_fl p3 tan_r alpha_r, p3⟩

/-- Rust `cubic_calc_point` (de Casteljau evaluation as in the source). -/
def cubic_calc_point (cubic : Cubic) (t : ℚ) : V2 :=
  let s := 1 - t
  let f := fun (p0 p1 p2 p3 : ℚ) =>
    let p01 := p0 * s + p1 * t
    let p12 := p1 * s + p2 * t
    let p23 := p2 * s + p3 * t
    ((p01 * s + p12 * t)) * s + ((p12 * s + p23 * t)) * t
  (f cubic.p0.1 cubic.p1.1 cubic.p2.1 cubic.p3.1,
   f cubic.p0.2 cubic.p1.2 cubic.p2.2 cubic.p3.2)

/-- Rust `cubic_calc_speed` (note: the source uses `p2 - p0` in the middle
term; translated verbatim). -/
def cubic_calc_speed (cubic : Cubic) (t : ℚ) : V2 :=
  let s := 1 - t
  let f := fun (p0 p1 p2 p3 : ℚ) =>
    3 * ((p1 - p0) * s * s + 2 * (p2 - p0) * s * t + (p3 - p2) * t * t)
  (f cubic.p0.1 cubic.p1.1 cubic.p2.1 cubic.p3.1,
   f cubic.p0.2 cubic.p1.2 cubic.p2.2 cubic.p3.2)

/-- Rust `cubic_calc_acceleration`. -/
def cubic_calc_acceleration (cubic : Cubic) (t : ℚ) : V2 :=
  let s := 1 - t
  let f := fun (p0 p1 p2 p3 : ℚ) =>
    6 * ((p2 - 2 * p1 + p0) * s + (p3 - 2 * p2 + p1) * t)
  (f cubic.p0.1 cubic.p1.1 cubic.p2.1 cubic.p3.1,
   f cubic.p0.2 cubic.p1.2 cubic.p2.2 cubic.p3.2)

/-- Rust `cubic_find_root` (one Newton-Raphson step; a vanishing
denominator yields 0 in the rational model where Rust produces NaN). -/
def cubic_find_root (cubic : Cubic) (p : V2) (u : ℚ) : ℚ :=
  let q0_u := sub_vnvn (cubic_calc_point cubic u) p
  let q1_u := cubic_calc_speed cubic u
  let q2_u := cubic_calc_acceleration cubic u
  u - dot_vnvn q0_u q1_u / (dot_vnvn q1_u q1_u + dot_vnvn q0_u q2_u)

/-- Rust `cubic_reparameterize`: recompute each parameter by one Newton
step, sort, and reject when the sorted parameters leave `[0, 1]`
(the non-finite rejection cannot fire in the exact model). -/
def cubic_reparameterize (cubic : Cubic) (points : List V2) (u_prime_src : List ℚ) :
    Option (List ℚ) :=
  let u_dst := (u_prime_src.zip points).map (fun uv => cubic_find_root cubic uv.2 uv.1)
  let u_sorted := u_dst.mergeSort (fun a b => decide (a ≤ b))
  if getQ u_sorted 0 < 0 ∨ getQ u_sorted (points.length - 1) > 1 then none
  else some u_sorted

/-- Rust `points_calc_coord_length`: chord-length parameters in `[0,1]`
plus the total length (all entries are divided by the total; entry 0 is
zero either way). -/
def points_calc_coord_length (points : List V2) (points_length_cache : List ℚ) :
    List ℚ × ℚ :=
  let u := ((points.zip points_length_cache).drop 1).foldl
    (fun (acc : List ℚ × ℚ) pl =>
      let l_curr := pl.2 + acc.2
      (acc.1 ++ [l_curr], l_curr))
    ([0], 0)
  let w := getQ u.1 (u.1.length - 1)
  (u.1.map (fun x => x / w), w)

/-- Rust `FitError`. -/
structure FitError where
  max_sq : ℚ
  index : Nat
deriving Repr, DecidableEq

/-- Rust `cubic_calc_error`: maximum squared deviation over the interior
points (the error starts at `-1`, the index at `1`). -/
def cubic_calc_error (cubic : Cubic) (points : List V2) (u : List ℚ) : FitError :=
  let interior := (listSlice points 1 (points.length - 1)).zip
                  (listSlice u 1 (points.length - 1))
  let r := interior.foldl
    (fun (acc : ℚ × Nat × Nat) pu =>
      let pt_eval := cubic_calc_point cubic pu.2
      let err_sq := len_squared_vnvn pu.1 pt_eval
      if err_sq > acc.1 then (err_sq, acc.2.2, acc.2.2 + 1) else (acc.1, acc.2.1, acc.2.2 + 1))
    (-1, 1, 1)
  ⟨r.1, r.2.1⟩

/-- Rust `cubic_calc_error_limit`: as `cubic_calc_error` but abandons the
scan once a new maximum exceeds the given limit. -/
def cubic_calc_error_limit (cubic : Cubic) (points : List V2) (u : List ℚ)
    (error_max_sq_limit : ℚ) : Option FitError :=
  let interior := (listSlice points 1 (points.length - 1)).zip
                  (listSlice u 1 (points.length - 1))
  let r := interior.foldl
    (fun (acc : Option (ℚ × Nat × Nat)) pu =>
      match acc with
      | none => none
      | some a =>
        let pt_eval := cubic_calc_point cubic pu.2
        let err_sq := len_squared_vnvn pu.1 pt_eval
        if err_sq > a.1 then
          if err_sq > error_max_sq_limit then none
          else some (err_sq, a.2.2, a.2.2 + 1)
        else some (a.1, a.2.1, a.2.2 + 1))
    (some (-1, 1, 1))
  match r with
  | none => none
  | some a => some ⟨a.1, a.2.1⟩

/-- The Newton-refinement loop inside Rust `fit_cubic_to_points`
(`iteration_max = 4`): state is the parameter list, the current
least-squares cubic and its error.  The parameter buffers are swapped
each round whether or not the fit improved, as in the source. -/
def fit_ls_loop (points : List V2) (tan_l tan_r : V2) :
    Nat → List ℚ → Cubic → FitError → List ℚ × Cubic × FitError
  | 0, u, c, e => (u, c, e)
  | n + 1, u, c, e =>
    match cubic_reparameterize c points u with
    | none => (u, c, e)
    | some u2 =>
      match cubic_solve_least_square_calc points tan_l tan_r u2 with
      | none => (u, c, e)
      | some ct =>
        let et := cubic_calc_error ct points u2
        if e.max_sq > et.max_sq then fit_ls_loop points tan_l tan_r n u2 ct et
        else fit_ls_loop points tan_l tan_r n u2 c e

/-- Rust `fit_cubic_to_points`: try the fallback, circle, offset and
least-squares candidates, keeping the lowest maximum squared error. -/
def fit_cubic_to_points (ops : RealOps) (points : List V2)
    (points_length_cache : List ℚ) (tan_l tan_r : V2) : Cubic × FitError :=
  let cubic_fallback := cubic_solve_fallback_calc ops points tan_l tan_r
  let ul := points_calc_coord_length points points_length_cache
  let u := ul.1
  let points_length := ul.2
  let error_fallback := cubic_calc_error cubic_fallback points u
  let best0 : Cubic × FitError := (cubic_fallback, error_fallback)
  let best1 :=
    match cubic_solve_circle_calc ops points tan_l tan_r points_length with
    | some cubic_test =>
      match cubic_calc_error_limit cubic_test points u best0.2.max_sq with
      | some error_test => (cubic_test, error_test)
      | none => best0
    | none => best0
  let best2 :=
    match cubic_solve_offset_calc ops points tan_l tan_r with
    | some cubic_test =>
      match cubic_calc_error_limit cubic_test points u best1.2.max_sq with
      | some error_test => (cubic_test, error_test)
      | none => best1
    | none => best1
  let ls0 :=
    match cubic_solve_least_square_calc points tan_l tan_r u with
    | some cubic_test => (cubic_test, cubic_calc_error cubic_test points u)
    | none => (cubic_fallback, error_fallback)
  let best3 :=
    match cubic_solve_least_square_calc points tan_l tan_r u with
    | some cubic_test =>
      let error_test := cubic_calc_error cubic_test points u
      if best2.2.max_sq > error_test.max_sq then (cubic_test, error_test) else best2
    | none => best2
  let lsf := fit_ls_loop points tan_l tan_r 4 u ls0.1 ls0.2
  if best3.2.max_sq > lsf.2.2.max_sq then (lsf.2.1, lsf.2.2) else best3

/-- Rust `curve_fit_cubic_to_points_single`. -/
def curve_fit_cubic_to_points_single (ops : RealOps) (points : List V2)
    (points_length_cache : List ℚ) (tan_l tan_r : V2) :
    (ℚ × Nat) × V2 × V2 :=
  let r := fit_cubic_to_points ops points points_length_cache tan_l tan_r
  ((r.2.max_sq, r.2.index), r.1.p1, r.1.p2)

/-! ### Incremental knot engine (`src/intern/curve_fit_nd/curve_fit_from_polys.rs`) -/

/-- Rust `USE_REFIT`. -/
def USE_REFIT : Bool := true

/-- Rust `USE_REFIT_REMOVE`. -/
def USE_REFIT_REMOVE : Bool := true

/-- Rust `CORNER_SCALE`. -/
def CORNER_SCALE : ℚ := 2

/-- `f64::MAX`, exact. -/
def f64_MAX : ℚ := (2 ^ 53 - 1) * 2 ^ 971

/-- Rust `types::Knot`.  The two-element arrays `handles` and `tan` are
pairs (`.1` = `[0]`, `.2` = `[1]`). -/
structure Knot where
  next : Nat
  prev : Nat
  index : Nat
  no_remove : Bool
  is_remove : Bool
  is_corner : Bool
  handles : ℚ × ℚ
  fit_error_sq_next : ℚ
  tan : Nat × Nat
deriving Repr, DecidableEq

instance knotInhabited : Inhabited Knot :=
  ⟨⟨0, 0, 0, false, false, false, (0, 0), 0, (0, 0)⟩⟩

/-- Rust `types::PointData`. -/
structure PointData where
  points : List V2
  points_len : Nat
  points_length_cache : List ℚ
  tangents : List V2

/-- Read a knot (Rust `knots[i]`). -/
def getKnot (knots : List Knot) (i : Nat) : Knot := knots.getD i default

/-- Update a knot in place. -/
def updateKnot (knots : List Knot) (i : Nat) (f : Knot → Knot) : List Knot :=
  knots.set i (f (getKnot knots i))

/-- The walking loop of Rust `knot_find_split_point_on_axis`; the fuel is
an upper bound on the number of steps (one full wrap plus one). -/
def knot_find_split_loop (pd : PointData) (knots : List Knot)
    (knots_end k_next_index : Nat) (plane_no : V2) :
    Nat → Nat → Nat → ℚ → Nat
  | 0, _, split_point, _ => split_point
  | fuel + 1, k_step, split_point, split_point_dist_best =>
    let k_step2 := if k_step ≠ knots_end then k_step + 1 else 0
    if k_step2 ≠ k_next_index then
      let knot := getKnot knots k_step2
      let d := dot_vnvn plane_no (getV pd.points knot.index)
      if d > split_point_dist_best then
        knot_find_split_loop pd knots knots_end k_next_index plane_no fuel k_step2 knot.index d
      else
        knot_find_split_loop pd knots knots_end k_next_index plane_no fuel k_step2
          split_point split_point_dist_best
    else split_point

/-- Rust `knot_find_split_point_on_axis`. -/
def knot_find_split_point_on_axis (pd : PointData) (knots : List Knot)
    (k_prev k_next : Knot) (plane_no : V2) : Nat :=
  knot_find_split_loop pd knots (knots.length - 1) k_next.index plane_no
    (knots.length + 1) k_prev.index INVALID (-f64_MAX)

/-- Rust `knot_remove_error_value`. -/
def knot_remove_error_value (ops : RealOps) (tan_l tan_r : V2)
    (points_offset : List V2) (points_offset_length_cache : List ℚ) :
    ℚ × Nat × (ℚ × ℚ) :=
  let r := curve_fit_cubic_to_points_single ops points_offset points_offset_length_cache
    tan_l tan_r
  (r.1.1, r.1.2,
   (dot_vnvn tan_l (sub_vnvn r.2.1 (getV points_offset 0)),
    dot_vnvn tan_r (sub_vnvn r.2.2 (getV points_offset (points_offset.length - 1)))))

/-- Rust `knot_calc_curve_error_value_and_index`. -/
def knot_calc_curve_error_value_and_index (ops : RealOps) (pd : PointData)
    (knot_l knot_r : Knot) (tan_l tan_r : V2) : ℚ × Nat × (ℚ × ℚ) :=
  let points_offset_len :=
    (if knot_l.index < knot_r.index then knot_r.index - knot_l.index
     else (knot_r.index + pd.points_len) - knot_l.index) + 1
  if points_offset_len ≠ 2 then
    let points_offset_end := knot_l.index + points_offset_len
    let r := knot_remove_error_value ops tan_l tan_r
      (listSlice pd.points knot_l.index points_offset_end)
      (listSlice pd.points_length_cache knot_l.index points_offset_end)
    let i1 := r.2.1 + knot_l.index
    let i2 := if i1 ≥ pd.points_len then i1 - pd.points_len else i1
    (r.1, i2, r.2.2)
  else
    let handle_len := getQ pd.points_length_cache knot_l.index / 3
    (0, knot_l.index, (handle_len, handle_len))

/-- Rust `knot_calc_curve_error_value`. -/
def knot_calc_curve_error_value (ops : RealOps) (pd : PointData)
    (knot_l knot_r : Knot) (tan_l tan_r : V2) : ℚ × (ℚ × ℚ) :=
  let points_offset_len :=
    (if knot_l.index < knot_r.index then knot_r.index - knot_l.index
     else (knot_r.index + pd.points_len) - knot_l.index) + 1
  if points_offset_len ≠ 2 then
    let points_offset_end := knot_l.index + points_offset_len
    let r := knot_remove_error_value ops tan_l tan_r
      (listSlice pd.points knot_l.index points_offset_end)
      (listSlice pd.points_length_cache knot_l.index points_offset_end)
    (r.1, r.2.2)
  else
    let handle_len := getQ pd.points_length_cache knot_l.index / 3
    (0, (handle_len, handle_len))

/-! #### Phase A: greedy removal (`refine_remove`) -/

/-- Rust `refine_remove::KnotRemoveState`. -/
structure KnotRemoveState where
  index : Nat
  handles : ℚ × ℚ
deriving Repr, DecidableEq

instance knotRemoveStateInhabited : Inhabited KnotRemoveState := ⟨⟨0, (0, 0)⟩⟩

/-- Rust `refine_remove::knot_remove_error_recalculate`: refresh the heap
entry of `k_curr` (remove the stale one, insert the new one when the
bypass error beats the threshold). -/
def knot_remove_error_recalculate (ops : RealOps) (pd : PointData)
    (heap : MinHeap ℚ KnotRemoveState) (knots : List Knot)
    (knots_handle : List NodeHandle) (k_curr : Knot) (error_max_sq : ℚ) :
    MinHeap ℚ KnotRemoveState × List NodeHandle :=
  let k_prev := getKnot knots k_curr.prev
  let k_next := getKnot knots k_curr.next
  let r := knot_calc_curve_error_value ops pd k_prev k_next
    (getV pd.tangents k_prev.tan.2) (getV pd.tangents k_next.tan.1)
  let fit_error_max_sq := r.1
  let handles := r.2
  let cur_handle := knots_handle.getD k_curr.index NodeHandle.INVAL
  if fit_error_max_sq < error_max_sq then
    let heap1 := if cur_handle ≠ NodeHandle.INVAL then heap.remove cur_handle else heap
    let ins := heap1.insert fit_error_max_sq ⟨k_curr.index, handles⟩
    (ins.2, knots_handle.set k_curr.index ins.1)
  else
    if cur_handle ≠ NodeHandle.INVAL then
      (heap.remove cur_handle, knots_handle.set k_curr.index NodeHandle.INVAL)
    else (heap, knots_handle)

/-- The initial candidate scan of Rust
`refine_remove::curve_incremental_simplify`. -/
def refine_remove_scan (ops : RealOps) (pd : PointData) (knots : List Knot)
    (knots_handle : List NodeHandle) (error_max_sq : ℚ) :
    MinHeap ℚ KnotRemoveState × List NodeHandle :=
  (List.range knots.length).foldl
    (fun acc k_index =>
      let k_curr := getKnot knots k_index
      if k_curr.no_remove = false ∧ k_curr.is_remove = false ∧ k_curr.is_corner = false then
        knot_remove_error_recalculate ops pd acc.1 knots acc.2 k_curr error_max_sq
      else acc)
    (MinHeap.with_capacity knots.length, knots_handle)

/-- The pop-and-collapse loop of Rust
`refine_remove::curve_incremental_simplify` (fuelled; the
debug-build-only invalidation of the removed knot's links is omitted,
modelling the release build). -/
def refine_remove_loop (ops : RealOps) (pd : PointData) (error_max_sq : ℚ) :
    Nat → MinHeap ℚ KnotRemoveState → List Knot → List NodeHandle → Nat →
    Option (List Knot × List NodeHandle × Nat)
  | 0, heap, knots, kh, rem =>
    if heap.is_empty then some (knots, kh, rem) else none
  | fuel + 1, heap, knots, kh, rem =>
    match heap.pop_min_with_value with
    | (none, _) => some (knots, kh, rem)
    | (some ev, heap1) =>
      let error_sq := ev.1
      let r := ev.2
      let kh1 := kh.set r.index NodeHandle.INVAL
      if rem ≤ 2 then refine_remove_loop ops pd error_max_sq fuel heap1 knots kh1 rem
      else
        let k_curr := getKnot knots r.index
        let k_next_index := k_curr.next
        let k_prev_index := k_curr.prev
        let knots1 := updateKnot knots r.index (fun k => { k with is_remove := true })
        let knots2 := updateKnot knots1 k_prev_index
          (fun k => { k with handles := (k.handles.1, r.handles.1) })
        let knots3 := updateKnot knots2 k_next_index
          (fun k => { k with handles := (r.handles.2, k.handles.2) })
        let knots4 := updateKnot knots3 k_prev_index
          (fun k => { k with fit_error_sq_next := error_sq })
        let knots5 := updateKnot knots4 k_next_index (fun k => { k with prev := k_prev_index })
        let knots6 := updateKnot knots5 k_prev_index (fun k => { k with next := k_next_index })
        let st := [k_prev_index, k_next_index].foldl
          (fun (acc : MinHeap ℚ KnotRemoveState × List NodeHandle) k_iter_index =>
            let k_iter := getKnot knots6 k_iter_index
            if k_iter.no_remove = false ∧ k_iter.is_corner = false ∧
               k_iter.prev ≠ INVALID ∧ k_iter.next ≠ INVALID then
              knot_remove_error_recalculate ops pd acc.1 knots6 acc.2 k_iter error_max_sq
            else acc)
          (heap1, kh1)
        refine_remove_loop ops pd error_max_sq fuel st.1 knots6 st.2 (rem - 1)

/-- Rust `refine_remove::curve_incremental_simplify`. -/
def curve_incremental_simplify (ops : RealOps) (pd : PointData) (knots : List Knot)
    (knots_handle : List NodeHandle) (knots_len_remaining : Nat) (error_max_sq : ℚ)
    (fuel : Nat) : Option (List Knot × List NodeHandle × Nat) :=
  let st := refine_remove_scan ops pd knots knots_handle error_max_sq
  refine_remove_loop ops pd error_max_sq fuel st.1 knots st.2 knots_len_remaining

/-! #### Phase C: refit / removal (`refine_refit`) -/

/-- Rust `refine_refit::KnotRefitState` (`index_refit = INVALID` means a
plain removal). -/
structure KnotRefitState where
  index : Nat
  index_refit : Nat
  handle_pair : (ℚ × ℚ) × (ℚ × ℚ)
  fit_error_max_sq_pair : ℚ × ℚ
deriving Repr, DecidableEq

instance knotRefitStateInhabited : Inhabited KnotRefitState :=
  ⟨⟨0, 0, ((0, 0), (0, 0)), (0, 0)⟩⟩

/-- Rust `knot_calc_curve_error_value_pair_above_error_or_none`
(nested inside `knot_refit_error_recalculate`). -/
def knot_calc_curve_error_value_pair_above_error_or_none (ops : RealOps)
    (pd : PointData) (k_prev k_refit k_next : Knot) (error_max_sq : ℚ) :
    Option ((ℚ × ℚ) × ℚ × (ℚ × ℚ) × ℚ) :=
  let rp := knot_calc_curve_error_value ops pd k_prev k_refit
    (getV pd.tangents k_prev.tan.2) (getV pd.tangents k_refit.tan.1)
  if rp.1 < error_max_sq then
    let rn := knot_calc_curve_error_value ops pd k_refit k_next
      (getV pd.tangents k_refit.tan.2) (getV pd.tangents k_next.tan.1)
    if rn.1 < error_max_sq then some (rp.2, rp.1, rn.2, rn.1)
    else none
  else none

/-- The `use_optimize_exhaustive` scan of every interior split index
inside Rust `knot_refit_error_recalculate` (fuelled; state is the best
cost, the best refit index and the cached fit result). -/
def refit_exhaustive_loop (ops : RealOps) (pd : PointData) (knots : List Knot)
    (k_prev k_next : Knot) (k_curr_index : Nat) :
    Nat → Nat → ℚ → Nat → Option ((ℚ × ℚ) × ℚ × (ℚ × ℚ) × ℚ) →
    Nat × ℚ × Option ((ℚ × ℚ) × ℚ × (ℚ × ℚ) × ℚ)
  | 0, _, cost_sq_best, k_refit_index, res => (k_refit_index, cost_sq_best, res)
  | fuel + 1, k_test_index0, cost_sq_best, k_refit_index, res =>
    let k_test_index := if k_test_index0 = knots.length then 0 else k_test_index0
    if k_test_index = k_next.index then (k_refit_index, cost_sq_best, res)
    else if k_test_index ≠ k_curr_index then
      match knot_calc_curve_error_value_pair_above_error_or_none ops pd k_prev
        (getKnot knots k_test_index) k_next cost_sq_best with
      | some fit_result_test =>
        refit_exhaustive_loop ops pd knots k_prev k_next k_curr_index fuel
          (k_test_index + 1) (max fit_result_test.2.1 fit_result_test.2.2.2)
          k_test_index (some fit_result_test)
      | none =>
        refit_exhaustive_loop ops pd knots k_prev k_next k_curr_index fuel
          (k_test_index + 1) cost_sq_best k_refit_index res
    else
      refit_exhaustive_loop ops pd knots k_prev k_next k_curr_index fuel
        (k_test_index + 1) cost_sq_best k_refit_index res

/-- Rust `refine_refit::knot_refit_error_recalculate`.  Note the verbatim
quirk: in the non-exhaustive path, when the refit target degenerates to
the knot itself the entry is only dropped (with a `return`) when a heap
node already exists; otherwise the code falls through and evaluates the
refit at that same index. -/
def knot_refit_error_recalculate (ops : RealOps) (pd : PointData)
    (heap : MinHeap ℚ KnotRefitState) (knots : List Knot)
    (knots_handle : List NodeHandle) (k_curr : Knot) (error_max_sq : ℚ)
    (use_optimize_exhaustive : Bool) :
    MinHeap ℚ KnotRefitState × List NodeHandle :=
  let cur_handle := knots_handle.getD k_curr.index NodeHandle.INVAL
  let k_prev := getKnot knots k_curr.prev
  let k_next := getKnot knots k_curr.next
  let ri := knot_calc_curve_error_value_and_index ops pd k_prev k_next
    (getV pd.tangents k_prev.tan.2) (getV pd.tangents k_next.tan.1)
  let fit_error_max_sq := ri.1
  let fit_error_index := ri.2.1
  let handles := ri.2.2
  if USE_REFIT_REMOVE = true ∧ fit_error_max_sq < error_max_sq then
    let heap1 := if cur_handle ≠ NodeHandle.INVAL then heap.remove cur_handle else heap
    let ins := heap1.insert (fit_error_max_sq - error_max_sq)
      ⟨k_curr.index, INVALID, ((handles.1, 0), (0, handles.2)),
       (fit_error_max_sq, fit_error_max_sq)⟩
    (ins.2, knots_handle.set k_curr.index ins.1)
  else
    let k_refit_index := fit_error_index
    if use_optimize_exhaustive = false ∧
       (k_refit_index = INVALID ∨ k_refit_index = k_curr.index) ∧
       cur_handle ≠ NodeHandle.INVAL then
      (heap.remove cur_handle, knots_handle.set k_curr.index NodeHandle.INVAL)
    else
      let cost_sq_src_max := max k_prev.fit_error_sq_next k_curr.fit_error_sq_next
      let er :=
        if use_optimize_exhaustive then
          refit_exhaustive_loop ops pd knots k_prev k_next k_curr.index
            (knots.length + 2) (k_prev.index + 1) cost_sq_src_max k_refit_index none
        else
          (k_refit_index, cost_sq_src_max,
           knot_calc_curve_error_value_pair_above_error_or_none ops pd k_prev
             (getKnot knots k_refit_index) k_next cost_sq_src_max)
      match er.2.2 with
      | some frr =>
        let heap1 := if cur_handle ≠ NodeHandle.INVAL then heap.remove cur_handle else heap
        let fit_error_dst_max_sq := max frr.2.1 frr.2.2.2
        let ins := heap1.insert (cost_sq_src_max - fit_error_dst_max_sq)
          ⟨k_curr.index, er.1, (frr.1, frr.2.2.1), (frr.2.1, frr.2.2.2)⟩
        (ins.2, knots_handle.set k_curr.index ins.1)
      | none =>
        if cur_handle ≠ NodeHandle.INVAL then
          (heap.remove cur_handle, knots_handle.set k_curr.index NodeHandle.INVAL)
        else (heap, knots_handle)

/-- The initial candidate scan of Rust
`refine_refit::curve_incremental_simplify_refit`. -/
def refine_refit_scan (ops : RealOps) (pd : PointData) (knots : List Knot)
    (knots_handle : List NodeHandle) (knots_len_remaining : Nat) (error_max_sq : ℚ)
    (use_optimize_exhaustive : Bool) : MinHeap ℚ KnotRefitState × List NodeHandle :=
  (List.range knots.length).foldl
    (fun acc k_index =>
      let k_curr := getKnot knots k_index
      if k_curr.no_remove = false ∧ k_curr.is_remove = false ∧ k_curr.is_corner = false then
        knot_refit_error_recalculate ops pd acc.1 knots acc.2 k_curr error_max_sq
          use_optimize_exhaustive
      else acc)
    (MinHeap.with_capacity knots_len_remaining, knots_handle)

/-- The pop loop of Rust `refine_refit::curve_incremental_simplify_refit`
(fuelled). -/
def refine_refit_loop (ops : RealOps) (pd : PointData) (error_max_sq : ℚ)
    (use_optimize_exhaustive : Bool) :
    Nat → MinHeap ℚ KnotRefitState → List Knot → List NodeHandle → Nat →
    Option (List Knot × List NodeHandle × Nat)
  | 0, heap, knots, kh, rem =>
    if heap.is_empty then some (knots, kh, rem) else none
  | fuel + 1, heap, knots, kh, rem =>
    match heap.pop_min with
    | (none, _) => some (knots, kh, rem)
    | (some r, heap1) =>
      let kh1 := kh.set r.index NodeHandle.INVAL
      let k_old := getKnot knots r.index
      let k_prev_index := k_old.prev
      let k_next_index := k_old.next
      let knots1 :=
        if r.index_refit = INVALID then knots
        else updateKnot knots r.index_refit
          (fun k => { k with handles := (r.handle_pair.1.2, r.handle_pair.2.1) })
      let knots2 := updateKnot knots1 k_prev_index
        (fun k => { k with handles := (k.handles.1, r.handle_pair.1.1) })
      let knots3 := updateKnot knots2 k_next_index
        (fun k => { k with handles := (r.handle_pair.2.2, k.handles.2) })
      if rem ≤ 2 then refine_refit_loop ops pd error_max_sq use_optimize_exhaustive fuel
        heap1 knots3 kh1 rem
      else
        let knots4 := updateKnot knots3 r.index
          (fun k => { k with next := INVALID, prev := INVALID, is_remove := true })
        let st2 :=
          if r.index_refit = INVALID then
            let a := updateKnot knots4 k_next_index (fun k => { k with prev := k_prev_index })
            let b := updateKnot a k_prev_index
              (fun k => { k with next := k_next_index, fit_error_sq_next := r.fit_error_max_sq_pair.1 })
            (b, rem - 1)
          else
            let a := updateKnot knots4 k_next_index (fun k => { k with prev := r.index_refit })
            let b := updateKnot a k_prev_index
              (fun k => { k with next := r.index_refit, fit_error_sq_next := r.fit_error_max_sq_pair.1 })
            let c := updateKnot b r.index_refit
              (fun k => { k with prev := k_prev_index, next := k_next_index, fit_error_sq_next := r.fit_error_max_sq_pair.2, is_remove := false })
            (c, rem)
        let knots5 := st2.1
        let st := [k_prev_index, k_next_index].foldl
          (fun (acc : MinHeap ℚ KnotRefitState × List NodeHandle) k_iter_index =>
            let k_iter := getKnot knots5 k_iter_index
            if k_iter.no_remove = false ∧ k_iter.is_corner = false ∧
               k_iter.prev ≠ INVALID ∧ k_iter.next ≠ INVALID then
              knot_refit_error_recalculate ops pd acc.1 knots5 acc.2 k_iter error_max_sq
                use_optimize_exhaustive
            else acc)
          (heap1, kh1)
        refine_refit_loop ops pd error_max_sq use_optimize_exhaustive fuel st.1 knots5 st.2
          st2.2

/-- Rust `refine_refit::curve_incremental_simplify_refit`. -/
def curve_incremental_simplify_refit (ops : RealOps) (pd : PointData)
    (knots : List Knot) (knots_handle : List NodeHandle) (knots_len_remaining : Nat)
    (error_max_sq : ℚ) (use_optimize_exhaustive : Bool) (fuel : Nat) :
    Option (List Knot × List NodeHandle × Nat) :=
  let st := refine_refit_scan ops pd knots knots_handle knots_len_remaining error_max_sq
    use_optimize_exhaustive
  refine_refit_loop ops pd error_max_sq use_optimize_exhaustive fuel st.1 knots st.2
    knots_len_remaining

/-! #### Phase B: corner collapse (`refine_corner`) -/

/-- Rust `refine_corner::KnotCornerState`. -/
structure KnotCornerState where
  index : Nat
  index_pair : Nat × Nat
  handle_pair : (ℚ × ℚ) × (ℚ × ℚ)
  fit_error_max_sq_pair : ℚ × ℚ
deriving Repr, DecidableEq

instance knotCornerStateInhabited : Inhabited KnotCornerState :=
  ⟨⟨0, (0, 0), ((0, 0), (0, 0)), (0, 0)⟩⟩

/-- Rust `refine_corner::knot_corner_error_recalculate`. -/
def knot_corner_error_recalculate (ops : RealOps) (pd : PointData)
    (heap : MinHeap ℚ KnotCornerState) (knots_handle : List NodeHandle)
    (k_split k_prev k_next : Knot) (error_max_sq : ℚ) :
    MinHeap ℚ KnotCornerState × List NodeHandle :=
  let cur_handle := knots_handle.getD k_split.index NodeHandle.INVAL
  let rp := knot_calc_curve_error_value ops pd k_prev k_split
    (getV pd.tangents k_prev.tan.2) (getV pd.tangents k_prev.tan.2)
  if rp.1 < error_max_sq then
    let rn := knot_calc_curve_error_value ops pd k_split k_next
      (getV pd.tangents k_next.tan.1) (getV pd.tangents k_next.tan.1)
    if rn.1 < error_max_sq then
      let heap1 := if cur_handle ≠ NodeHandle.INVAL then heap.remove cur_handle else heap
      let ins := heap1.insert (max rp.1 rn.1)
        ⟨k_split.index, (k_prev.index, k_next.index), (rp.2, rn.2), (rp.1, rn.1)⟩
      (ins.2, knots_handle.set k_split.index ins.1)
    else
      if cur_handle ≠ NodeHandle.INVAL then
        (heap.remove cur_handle, knots_handle.set k_split.index NodeHandle.INVAL)
      else (heap, knots_handle)
  else
    if cur_handle ≠ NodeHandle.INVAL then
      (heap.remove cur_handle, knots_handle.set k_split.index NodeHandle.INVAL)
    else (heap, knots_handle)

/-- The initial corner-candidate scan of Rust
`refine_corner::curve_incremental_simplify_corners`. -/
def refine_corner_scan (ops : RealOps) (pd : PointData) (knots : List Knot)
    (knots_handle : List NodeHandle) (error_max_sq error_sq_collapse_max : ℚ)
    (corner_angle_cos : ℚ) : MinHeap ℚ KnotCornerState × List NodeHandle :=
  (List.range knots.length).foldl
    (fun acc k_prev_index =>
      let k_prev := getKnot knots k_prev_index
      if k_prev.is_remove = false ∧ k_prev.no_remove = false ∧ k_prev.next ≠ INVALID ∧
         (getKnot knots k_prev.next).no_remove = false then
        let k_next := getKnot knots k_prev.next
        if dot_vnvn (getV pd.tangents k_prev.tan.1) (getV pd.tangents k_next.tan.2) <
           corner_angle_cos then
          let plane_no := sub_vnvn (getV pd.tangents k_next.tan.1)
            (getV pd.tangents k_prev.tan.2)
          let k_split_index := knot_find_split_point_on_axis pd knots k_prev k_next plane_no
          if k_split_index ≠ INVALID then
            let co_prev := getV pd.points k_prev.index
            let co_next := getV pd.points k_next.index
            let co_split := getV pd.points k_split_index
            let k_proj_ref := project_vnvn_normalized co_prev (getV pd.tangents k_prev.tan.2)
            let k_proj_split := project_vnvn_normalized co_split (getV pd.tangents k_prev.tan.2)
            if len_squared_vnvn k_proj_ref k_proj_split < error_sq_collapse_max then
              let k_proj_ref2 := project_vnvn_normalized co_next (getV pd.tangents k_next.tan.1)
              let k_proj_split2 :=
                project_vnvn_normalized co_split (getV pd.tangents k_next.tan.1)
              if len_squared_vnvn k_proj_ref2 k_proj_split2 < error_sq_collapse_max then
                knot_corner_error_recalculate ops pd acc.1 acc.2
                  (getKnot knots k_split_index) k_prev k_next error_max_sq
              else acc
            else acc
          else acc
        else acc
      else acc)
    (MinHeap.with_capacity 0, knots_handle)

/-- The pop loop of Rust
`refine_corner::curve_incremental_simplify_corners` (fuelled; the loop
never inserts, so fuel equal to the heap size always suffices). -/
def refine_corner_loop :
    Nat → MinHeap ℚ KnotCornerState → List Knot → List NodeHandle → Nat →
    Option (List Knot × List NodeHandle × Nat)
  | 0, heap, knots, kh, rem =>
    if heap.is_empty then some (knots, kh, rem) else none
  | fuel + 1, heap, knots, kh, rem =>
    match heap.pop_min with
    | (none, _) => some (knots, kh, rem)
    | (some c, heap1) =>
      let kh1 := kh.set c.index NodeHandle.INVAL
      let k_split_index := c.index
      let k_prev_index := c.index_pair.1
      let k_next_index := c.index_pair.2
      let tan_prev := (getKnot knots k_prev_index).tan.2
      let tan_next := (getKnot knots k_next_index).tan.1
      let knots1 := updateKnot knots k_prev_index
        (fun k => { k with next := k_split_index, handles := (k.handles.1, c.handle_pair.1.1), fit_error_sq_next := c.fit_error_max_sq_pair.1 })
      let knots2 := updateKnot knots1 k_next_index
        (fun k => { k with prev := k_split_index, handles := (c.handle_pair.2.2, k.handles.2) })
      let knots3 := updateKnot knots2 k_split_index
        (fun k => { k with is_remove := false, is_corner := true, prev := k_prev_index, next := k_next_index, tan := (tan_prev, tan_next), handles := (c.handle_pair.1.2, c.handle_pair.2.1), fit_error_sq_next := c.fit_error_max_sq_pair.2 })
      refine_corner_loop fuel heap1 knots3 kh1 (rem + 1)

/-- Rust `refine_corner::curve_incremental_simplify_corners`. -/
def curve_incremental_simplify_corners (ops : RealOps) (pd : PointData)
    (knots : List Knot) (knots_handle : List NodeHandle) (knots_len_remaining : Nat)
    (error_max_sq error_sq_collapse_max corner_angle : ℚ) (fuel : Nat) :
    Option (List Knot × List NodeHandle × Nat) :=
  let corner_angle_cos := RealOps.cos ops corner_angle
  let st := refine_corner_scan ops pd knots knots_handle error_max_sq
    error_sq_collapse_max corner_angle_cos
  refine_corner_loop fuel st.1 knots st.2 knots_len_remaining

/-! #### `fit_poly_single` -/

/-- The tangent/handle/length initialisation for a cyclic curve
(the main loop of the `is_cyclic` branch in `fit_poly_single`), as a fold
with state `(tan_prev, len_prev, i_curr, knots, cache, tangents)`. -/
def fit_init_cyclic (ops : RealOps) (points : List V2) (knots_len : Nat)
    (knots : List Knot) (cache : List ℚ) (tangents : List V2) :
    List Knot × List ℚ × List V2 :=
  let tl0 := normalized_vnvn_with_len ops (getV points (knots_len - 2))
    (getV points (knots_len - 1))
  let st := (List.range knots_len).foldl
    (fun (st : V2 × ℚ × Nat × List Knot × List ℚ × List V2) i_next =>
      let tan_prev := st.1
      let len_prev := st.2.1
      let i_curr := st.2.2.1
      let knots := st.2.2.2.1
      let cache := st.2.2.2.2.1
      let tangents := st.2.2.2.2.2
      let tl := normalized_vnvn_with_len ops (getV points i_curr) (getV points i_next)
      let tan_next := tl.1
      let len_next := tl.2
      let cache1 := cache.set i_next len_next
      let t := normalized_vn ops (add_vnvn tan_prev tan_next)
      let k := getKnot knots i_curr
      let tangents1 := (tangents.set k.tan.1 t).set k.tan.2 t
      let knots1 := updateKnot knots i_curr
        (fun k => { k with handles := (len_prev / 3, len_next / (-3)) })
      (tan_next, len_next, i_next, knots1, cache1, tangents1))
    (tl0.1, tl0.2, knots_len - 1, knots, cache, tangents)
  (st.2.2.2.1, st.2.2.2.2.1, st.2.2.2.2.2)

/-- The tangent/handle/length initialisation for an open curve with at
least two vertices (the final `else` branch in `fit_poly_single`). -/
def fit_init_open (ops : RealOps) (points : List V2) (knots_len : Nat)
    (knots : List Knot) (cache : List ℚ) (tangents : List V2) :
    List Knot × List ℚ × List V2 :=
  let cache0 := cache.set 0 0
  let tl0 := normalized_vnvn_with_len ops (getV points 0) (getV points 1)
  let cache1 := cache0.set 1 tl0.2
  let k0 := getKnot knots 0
  let tangents0 := (tangents.set k0.tan.1 tl0.1).set k0.tan.2 tl0.1
  let knots0 := updateKnot knots 0
    (fun k => { k with handles := (tl0.2 / 3, tl0.2 / (-3)) })
  let st := ((List.range knots_len).drop 2).foldl
    (fun (st : V2 × ℚ × Nat × List Knot × List ℚ × List V2) i_next =>
      let tan_prev := st.1
      let len_prev := st.2.1
      let i_curr := st.2.2.1
      let knots := st.2.2.2.1
      let cache := st.2.2.2.2.1
      let tangents := st.2.2.2.2.2
      let tl := normalized_vnvn_with_len ops (getV points i_curr) (getV points i_next)
      let tan_next := tl.1
      let len_next := tl.2
      let cache2 := cache.set i_next len_next
      let t := normalized_vn ops (add_vnvn tan_prev tan_next)
      let k := getKnot knots i_curr
      let tangents2 := (tangents.set k.tan.1 t).set k.tan.2 t
      let knots2 := updateKnot knots i_curr
        (fun k => { k with handles := (len_prev / 3, len_next / (-3)) })
      (tan_next, len_next, i_next, knots2, cache2, tangents2))
    (tl0.1, tl0.2, 1, knots0, cache1, tangents0)
  let tan_fin := st.1
  let len_fin := st.2.1
  let knots_fin := st.2.2.2.1
  let cache_fin := st.2.2.2.2.1
  let tangents_fin := st.2.2.2.2.2
  let klast := getKnot knots_fin (knots_len - 1)
  let tangents2 := (tangents_fin.set klast.tan.1 tan_fin).set klast.tan.2 tan_fin
  let knots2 := updateKnot knots_fin (knots_len - 1)
    (fun k => { k with handles := (len_fin / 3, len_fin / (-3)) })
  (knots2, cache_fin, tangents2)

/-- Everything in Rust `fit_poly_single` up to and including the three
refinement phases: returns the point data, the final knot array and the
number of live knots.  `none` models a Rust panic on the empty polygon or
fuel exhaustion of a phase loop. -/
def fit_phases (ops : RealOps) (points_orig : List V2) (is_cyclic : Bool)
    (error_threshold corner_angle : ℚ) (use_optimize_exhaustive : Bool)
    (fuel : Nat) : Option (PointData × List Knot × Nat) :=
  let knots_len := points_orig.length
  let points_len := points_orig.length
  if knots_len = 0 then none
  else
    let points := if is_cyclic then points_orig ++ points_orig else points_orig
    let knots0 : List Knot := (List.range knots_len).map
      (fun i =>
        { next := i + 1, prev := if i = 0 then INVALID else i - 1, index := i,
          no_remove := false, is_remove := false, is_corner := false,
          handles := (-1, -1), fit_error_sq_next := 0, tan := (i * 2, i * 2 + 1) })
    let knots_handle0 : List NodeHandle := List.replicate knots_len NodeHandle.INVAL
    let use_corner := corner_angle < f64_PI
    let i_last := knots_len - 1
    let knots1 :=
      if is_cyclic then
        updateKnot (updateKnot knots0 0 (fun k => { k with prev := i_last })) i_last
          (fun k => { k with next := 0 })
      else
        updateKnot (updateKnot
          (updateKnot (updateKnot knots0 0 (fun k => { k with prev := INVALID })) i_last
            (fun k => { k with next := INVALID }))
          0 (fun k => { k with no_remove := true })) i_last
          (fun k => { k with no_remove := true })
    let cache0 : List ℚ :=
      List.replicate (points_len * if is_cyclic then 2 else 1) (-1)
    let tangents0 : List V2 := List.replicate (knots_len * 2) (-1, -1)
    let kct :=
      if knots_len < 2 then
        let k := getKnot knots1 0
        let tangents1 := (tangents0.set k.tan.1 (0, 0)).set k.tan.2 (0, 0)
        let knots2 := updateKnot knots1 0 (fun k => { k with handles := (0, 0) })
        let cache1 := cache0.set 0 0
        (knots2, cache1, tangents1)
      else if is_cyclic then
        fit_init_cyclic ops points knots_len knots1 cache0 tangents0
      else
        fit_init_open ops points knots_len knots1 cache0 tangents0
    let knots2 := kct.1
    let cache2 := kct.2.1
    let tangents2 := kct.2.2
    let cache3 :=
      if is_cyclic then
        (List.range points_len).foldl
          (fun c i => c.set (i + points_len) (getQ c i)) cache2
      else cache2
    let pd : PointData :=
      { points := points, points_len := points_len,
        points_length_cache := cache3, tangents := tangents2 }
    match curve_incremental_simplify ops pd knots2 knots_handle0 knots_len
      (sq error_threshold) fuel with
    | none => none
    | some stA =>
      let afterB :=
        if use_corner then
          curve_incremental_simplify_corners ops pd stA.1 stA.2.1 stA.2.2
            (sq error_threshold) (sq (error_threshold * CORNER_SCALE)) corner_angle fuel
        else some stA
      match afterB with
      | none => none
      | some stB =>
        let afterC :=
          if USE_REFIT then
            curve_incremental_simplify_refit ops pd stB.1 stB.2.1 stB.2.2
              (sq error_threshold) use_optimize_exhaustive fuel
          else some stB
        match afterC with
        | none => none
        | some stC => some (pd, stC.1, stC.2.2)

/-- The final emission loop of Rust `fit_poly_single`: walk `rem` knots
along `next`, emitting `(p + tan[0]·handles[0], p, p + tan[1]·handles[1])`
per knot (`madd_vnvn_fl` both times). -/
def emit_walk (points : List V2) (tangents : List V2) (knots : List Knot) :
    Nat → Nat → List (V2 × V2 × V2)
  | 0, _ => []
  | n + 1, k_index =>
    let k := getKnot knots k_index
    let p := getV points k.index
    (madd_vnvn_fl p (getV tangents k.tan.1) k.handles.1, p,
     madd_vnvn_fl p (getV tangents k.tan.2) k.handles.2) ::
    emit_walk points tangents knots n k.next

/-- The index of the first live knot (Rust scans for the first knot with
`is_remove == false`; `List.findIdx` returns the length when none is
live, matching the then-poisoned sentinel walk only vacuously — the
invariants below show a live knot always exists). -/
def first_live_index (knots : List Knot) : Nat :=
  knots.findIdx (fun k => k.is_remove = false)

/-- Rust `fit_poly_single`. -/
def fit_poly_single (ops : RealOps) (points_orig : List V2) (is_cyclic : Bool)
    (error_threshold corner_angle : ℚ) (use_optimize_exhaustive : Bool)
    (fuel : Nat) : Option (List (V2 × V2 × V2)) :=
  match fit_phases ops points_orig is_cyclic error_threshold corner_angle
    use_optimize_exhaustive fuel with
  | none => none
  | some st =>
    let pd := st.1
    let knots := st.2.1
    let rem := st.2.2
    some (emit_walk pd.points pd.tangents knots rem (first_live_index knots))

/-- Rust `fit_poly_list`.  In the multi-polygon branch the source sorts by
ascending vertex count, then pops from the end into worker threads and
joins in spawn order, so the results come back in descending-length
order; each polygon keeps its own `is_cyclic` flag. -/
def fit_poly_list (ops : RealOps) (poly_list_src : List (Bool × List V2))
    (error_threshold corner_angle : ℚ) (use_optimize_exhaustive : Bool)
    (fuel : Nat) : Option (List (Bool × List (V2 × V2 × V2))) :=
  if poly_list_src.length ≤ 1 then
    poly_list_src.mapM (fun p =>
      (fit_poly_single ops p.2 p.1 error_threshold corner_angle use_optimize_exhaustive
        fuel).map (fun d => (p.1, d)))
  else
    let sorted := poly_list_src.mergeSort (fun a b => decide (a.2.length ≤ b.2.length))
    sorted.reverse.mapM (fun p =>
      (fit_poly_single ops p.2 p.1 error_threshold corner_angle use_optimize_exhaustive
        fuel).map (fun d => (p.1, d)))

/-! ### Quadric edge-collapse simplifier (`src/polys_simplify_collapse.rs`) -/

/-- Rust `quadric::Quadric`. -/
structure Quadric where
  a2 : ℚ
  ab : ℚ
  ac : ℚ
  b2 : ℚ
  bc : ℚ
  c2 : ℚ
deriving Repr, DecidableEq

instance quadricInhabited : Inhabited Quadric := ⟨⟨0, 0, 0, 0, 0, 0⟩⟩

/-- Rust `Quadric::default()` (all zeros). -/
def quadric_default : Quadric := ⟨0, 0, 0, 0, 0, 0⟩

/-- Rust `quadric::to_tensor_matrix_inverse`. -/
def quadric_to_tensor_matrix_inverse (q : Quadric) (epsilon : ℚ) :
    Option (ℚ × ℚ × ℚ) :=
  let det := q.a2 * q.b2 - q.ab * q.ab
  if abs det > epsilon then
    let invdet := 1 / det
    some (q.b2 * invdet, q.ab * (-invdet), q.a2 * invdet)
  else none

/-- Rust `quadric::add`. -/
def quadric_add (q_a q_b : Quadric) : Quadric :=
  ⟨q_a.a2 + q_b.a2, q_a.ab + q_b.ab, q_a.ac + q_b.ac,
   q_a.b2 + q_b.b2, q_a.bc + q_b.bc, q_a.c2 + q_b.c2⟩

/-- Rust `quadric::from_plane`. -/
def quadric_from_plane (v : ℚ × ℚ × ℚ) : Quadric :=
  ⟨v.1 * v.1, v.1 * v.2.1, v.1 * v.2.2, v.2.1 * v.2.1, v.2.1 * v.2.2, v.2.2 * v.2.2⟩

/-- Rust `quadric::evaluate`. -/
def quadric_evaluate (q : Quadric) (v : V2) : ℚ :=
  q.a2 * v.1 * v.1 + q.ab * 2 * v.1 * v.2 + q.ac * 2 * v.1 +
  q.b2 * v.2 * v.2 + q.bc * 2 * v.2 + q.c2

/-- Rust `quadric::optimize`. -/
def quadric_optimize (q : Quadric) (epsilon : ℚ) : Option V2 :=
  match quadric_to_tensor_matrix_inverse q epsilon with
  | some m => some (-(m.1 * q.ac), -(m.2.1 * q.ac + m.2.2 * q.bc))
  | none => none

/-- The file-local `normalized` of `polys_simplify_collapse.rs`
(`None` on the zero vector). -/
def collapse_normalized (ops : RealOps) (a : V2) : Option V2 :=
  let l := ops.sqrt (a.1 * a.1 + a.2 * a.2)
  if l ≠ 0 then some (a.1 / l, a.2 / l) else none

/-- The file-local `plane_from_point_normal`. -/
def plane_from_point_normal (p n : V2) : ℚ × ℚ × ℚ :=
  (n.1, n.2, -(p.1 * n.1 + p.2 * n.2))

/-- Rust `Edge` of `polys_simplify_collapse.rs`. -/
structure Edge where
  v1 : Nat
  v2 : Nat
  index_prev : Nat
  index_next : Nat
deriving Repr, DecidableEq

instance edgeInhabited : Inhabited Edge := ⟨⟨0, 0, 0, 0⟩⟩

/-- Rust `EdgeRemove` (a heap payload). -/
structure EdgeRemove where
  edge_index : Nat
  collapse_co : V2
deriving Repr, DecidableEq

instance edgeRemoveInhabited : Inhabited EdgeRemove := ⟨⟨0, (0, 0)⟩⟩

/-- Rust `INVALID_CO` (`[f64::MAX, f64::MAX]`). -/
def INVALID_CO : V2 := (f64_MAX, f64_MAX)

/-- The collapse target `edge_heap_insert` computes: the quadric-optimal
position, or the chord midpoint when the 2×2 minor is near-singular. -/
def edge_collapse_target (poly_edit : List V2) (quadrics : List Quadric) (e : Edge) : V2 :=
  match quadric_optimize (quadric_add (quadrics.getD e.v1 default) (quadrics.getD e.v2 default))
    f64_EPSILON with
  | some optimize_co => optimize_co
  | none =>
    let v1 := getV poly_edit e.v1
    let v2 := getV poly_edit e.v2
    ((v1.1 + v2.1) / 2, (v1.2 + v2.2) / 2)

/-- The cost `edge_heap_insert` scores a collapse with. -/
def edge_collapse_cost (quadrics : List Quadric) (e : Edge) (optimize_co : V2) : ℚ :=
  abs (quadric_evaluate (quadrics.getD e.v1 default) optimize_co +
       quadric_evaluate (quadrics.getD e.v2 default) optimize_co)

/-- Rust `edge_heap_insert`: insert a candidate for edge `i` exactly when
its cost is strictly below `simplify_threshold_sq`; returns the new heap
and the handle written to `edges_handle[i]`. -/
def edge_heap_insert (poly_edit : List V2) (quadrics : List Quadric)
    (heap : MinHeap ℚ EdgeRemove) (e : Edge) (i : Nat)
    (simplify_threshold_sq : ℚ) : MinHeap ℚ EdgeRemove × NodeHandle :=
  let optimize_co := edge_collapse_target poly_edit quadrics e
  let cost := edge_collapse_cost quadrics e optimize_co
  if cost < simplify_threshold_sq then
    let ins := heap.insert cost ⟨i, optimize_co⟩
    (ins.2, ins.1)
  else (heap, NodeHandle.INVAL)

/-- Rust `edge_heap_update`. -/
def edge_heap_update (poly_edit : List V2) (quadrics : List Quadric)
    (heap : MinHeap ℚ EdgeRemove) (e : Edge) (e_handle : NodeHandle) (i : Nat)
    (simplify_threshold_sq : ℚ) : MinHeap ℚ EdgeRemove × NodeHandle :=
  let heap1 := if e_handle ≠ NodeHandle.INVAL then heap.remove e_handle else heap
  edge_heap_insert poly_edit quadrics heap1 e i simplify_threshold_sq

/-- Rust `edge_heap_collapse` (the consistency `assert!`s of the source
hold in the well-formed states the theorems quantify over). -/
def edge_heap_collapse (poly_edit : List V2) (quadrics : List Quadric)
    (heap : MinHeap ℚ EdgeRemove) (edges : List Edge)
    (edges_handle : List NodeHandle) (i : Nat) (collapse_co : V2)
    (simplify_threshold_sq : ℚ) :
    List V2 × List Quadric × MinHeap ℚ EdgeRemove × List Edge × List NodeHandle :=
  let e0 := edges.getD i default
  let i_prev := e0.index_prev
  let i_next := e0.index_next
  let edges1 := edges.set i { e0 with index_prev := INVALID, index_next := INVALID, v1 := INVALID, v2 := INVALID }
  let edges2 := edges1.set i_prev { edges1.getD i_prev default with index_next := i_next }
  let edges3 := edges2.set i_next { edges2.getD i_next default with index_prev := i_prev }
  let i_vert_keep := (edges3.getD i_prev default).v2
  let i_vert_drop := (edges3.getD i_next default).v1
  let edges4 := edges3.set i_next { edges3.getD i_next default with v1 := i_vert_keep }
  let poly_edit1 := (poly_edit.set i_vert_keep collapse_co).set i_vert_drop INVALID_CO
  let quadrics1 := quadrics.set i_vert_keep
    (quadric_add (quadrics.getD i_vert_keep default) (quadrics.getD i_vert_drop default))
  let upd := [i_prev, (edges4.getD i_prev default).index_prev,
              i_next, (edges4.getD i_next default).index_next].foldl
    (fun (acc : MinHeap ℚ EdgeRemove × List NodeHandle) i_other =>
      if i_other ≠ INVALID then
        let e := edges4.getD i_other default
        if e.index_prev ≠ INVALID ∧ e.index_next ≠ INVALID then
          let r := edge_heap_update poly_edit1 quadrics1 acc.1 e
            (acc.2.getD i_other NodeHandle.INVAL) i_other simplify_threshold_sq
          (r.1, acc.2.set i_other r.2)
        else acc
      else acc)
    (heap, edges_handle)
  (poly_edit1, quadrics1, upd.1, edges4, upd.2)

/-- The pop-and-collapse loop of Rust `poly_simplify` (fuelled).  The last
component of the result collects the popped candidates (a ghost output
used only to state theorems; it does not influence the computation). -/
def poly_simplify_loop (simplify_threshold_sq : ℚ) (poly_minimum_len : Nat) :
    Nat → List V2 → List Quadric → MinHeap ℚ EdgeRemove → List Edge →
    List NodeHandle → Nat → List EdgeRemove →
    Option (List V2 × List Quadric × MinHeap ℚ EdgeRemove × List Edge ×
            List NodeHandle × Nat × List EdgeRemove)
  | 0, poly_edit, quadrics, heap, edges, edges_handle, rem, popped =>
    if heap.is_empty then some (poly_edit, quadrics, heap, edges, edges_handle, rem, popped)
    else none
  | fuel + 1, poly_edit, quadrics, heap, edges, edges_handle, rem, popped =>
    match heap.pop_min with
    | (none, _) => some (poly_edit, quadrics, heap, edges, edges_handle, rem, popped)
    | (some r, heap1) =>
      let edges_handle1 := edges_handle.set r.edge_index NodeHandle.INVAL
      if rem ≤ poly_minimum_len then
        some (poly_edit, quadrics, heap1, edges, edges_handle1, rem, popped ++ [r])
      else
        let st := edge_heap_collapse poly_edit quadrics heap1 edges edges_handle1
          r.edge_index r.collapse_co simplify_threshold_sq
        poly_simplify_loop simplify_threshold_sq poly_minimum_len fuel st.1 st.2.1 st.2.2.1
          st.2.2.2.1 st.2.2.2.2 (rem - 1) (popped ++ [r])

/-- The cyclic edge-list construction in Rust `poly_simplify`. -/
def poly_simplify_edges_cyclic (n : Nat) : List Edge :=
  let base := (List.range n).map (fun i =>
    { v1 := if i = 0 then n - 1 else i - 1, v2 := i,
      index_prev := if i = 0 then n - 1 else i - 1,
      index_next := i + 1 : Edge })
  match base.length with
  | 0 => base
  | _ => base.set (n - 1) { base.getD (n - 1) default with index_next := 0 }

/-- The open edge-list construction in Rust `poly_simplify`
(edge `k` joins vertices `k` and `k+1`; the first edge's `index_prev`
underflows to `usize::MAX = INVALID` in the source, and both end edges get
`index_next = INVALID`; n ≥ 2 is required, matching the source's panics). -/
def poly_simplify_edges_open (n : Nat) : List Edge :=
  let base := (List.range (n - 1)).map (fun k =>
    { v1 := k, v2 := k + 1,
      index_prev := if k = 0 then INVALID else k - 1,
      index_next := k + 1 : Edge })
  let base1 := base.set 0 { base.getD 0 default with index_next := INVALID }
  base1.set (n - 2) { base1.getD (n - 2) default with index_next := INVALID }

/-- The per-edge quadric accumulation in Rust `poly_simplify`. -/
def poly_simplify_quadrics (ops : RealOps) (poly_edit : List V2) (edges : List Edge)
    (n : Nat) : List Quadric :=
  edges.foldl
    (fun quadrics e =>
      let p1 := getV poly_edit e.v1
      let p2 := getV poly_edit e.v2
      match collapse_normalized ops (-(p1.2 - p2.2), p1.1 - p2.1) with
      | some nrm =>
        let p := plane_from_point_normal p1 nrm
        let q := quadric_from_plane p
        let quadrics1 := quadrics.set e.v1
          (quadric_add (quadrics.getD e.v1 default) q)
        quadrics1.set e.v2 (quadric_add (quadrics1.getD e.v2 default) q)
      | none => quadrics)
    (List.replicate n quadric_default)

/-- Rust `poly_simplify` (fuelled; `none` also models the source's panics
on polygons too short to build the edge list). -/
def poly_simplify (ops : RealOps) (is_cyclic : Bool) (poly : List V2)
    (simplify_threshold : ℚ) (fuel : Nat) : Option (List V2 × List EdgeRemove) :=
  if poly.length = 0 ∨ (¬ is_cyclic ∧ poly.length < 2) then none
  else
    let poly_edit := poly
    let edges := if is_cyclic then poly_simplify_edges_cyclic poly.length
      else poly_simplify_edges_open poly.length
    let quadrics := poly_simplify_quadrics ops poly_edit edges poly.length
    let simplify_threshold_sq := simplify_threshold * simplify_threshold
    let idxs := if is_cyclic then List.range edges.length
      else (List.range edges.length).drop 1 |>.take (edges.length - 2)
    let ins := idxs.foldl
      (fun (acc : MinHeap ℚ EdgeRemove × List NodeHandle) i =>
        let r := edge_heap_insert poly_edit quadrics acc.1 (edges.getD i default) i
          simplify_threshold_sq
        (r.1, acc.2.set i r.2))
      (MinHeap.with_capacity edges.length, List.replicate edges.length NodeHandle.INVAL)
    let poly_minimum_len := if is_cyclic then 4 else 2
    match poly_simplify_loop simplify_threshold_sq poly_minimum_len fuel poly_edit quadrics
      ins.1 edges ins.2 poly.length [] with
    | none => none
    | some st =>
      some (st.1.filter (fun co => co ≠ INVALID_CO), st.2.2.2.2.2.2)

/-! ### Outline extractor, edge-stamping pass
(`src/polys_from_raster_outline.rs`) -/

/-- Rust `dir::L`. -/
def dir_L : Nat := 1

/-- Rust `dir::R`. -/
def dir_R : Nat := 2

/-- Rust `dir::D`. -/
def dir_D : Nat := 4

/-- Rust `dir::U`. -/
def dir_U : Nat := 8

/-- Rust `xy!` (row-major index). -/
def xy (x y x_span : Nat) : Nat := x + y * x_span

/-- Rust `xy_is_filled_l!`. -/
def xy_is_filled_l (image : List Bool) (size : Nat × Nat) (x y : Nat) : Bool :=
  if x ≠ 0 then image.getD (xy (x - 1) y size.1) false else false

/-- Rust `xy_is_filled_r!`. -/
def xy_is_filled_r (image : List Bool) (size : Nat × Nat) (x y : Nat) : Bool :=
  if x + 1 ≠ size.1 then image.getD (xy (x + 1) y size.1) false else false

/-- Rust `xy_is_filled_d!`. -/
def xy_is_filled_d (image : List Bool) (size : Nat × Nat) (x y : Nat) : Bool :=
  if y ≠ 0 then image.getD (xy x (y - 1) size.1) false else false

/-- Rust `xy_is_filled_u!`. -/
def xy_is_filled_u (image : List Bool) (size : Nat × Nat) (x y : Nat) : Bool :=
  if y + 1 ≠ size.2 then image.getD (xy x (y + 1) size.1) false else false

/-- The stamping of one pixel `(x, y)` into the corner image `pimage`
(the body of the nested loop in `extract_outline`): a filled pixel ors
direction bits into up to four corners.  Returns the new corner image and
the number of bits set. -/
def stamp_pixel (image : List Bool) (size : Nat × Nat) (pimage : List Nat)
    (steps : Nat) (x y : Nat) : List Nat × Nat :=
  let psx := size.1 + 1
  if image.getD (xy x y size.1) false then
    let s0 : List Nat × Nat := (pimage, steps)
    let s1 := if ¬ (xy_is_filled_l image size x y = true) then
        ((s0.1.set (xy x y psx) ((s0.1.getD (xy x y psx) 0) ||| dir_U)), s0.2 + 1)
      else s0
    let s2 := if ¬ (xy_is_filled_r image size x y = true) then
        ((s1.1.set (xy (x + 1) (y + 1) psx) ((s1.1.getD (xy (x + 1) (y + 1) psx) 0) ||| dir_D)),
         s1.2 + 1)
      else s1
    let s3 := if ¬ (xy_is_filled_d image size x y = true) then
        ((s2.1.set (xy (x + 1) y psx) ((s2.1.getD (xy (x + 1) y psx) 0) ||| dir_L)), s2.2 + 1)
      else s2
    let s4 := if ¬ (xy_is_filled_u image size x y = true) then
        ((s3.1.set (xy x (y + 1) psx) ((s3.1.getD (xy x (y + 1) psx) 0) ||| dir_R)), s3.2 + 1)
      else s3
    s4
  else (pimage, steps)

/-- The full edge-stamping pass of Rust `extract_outline`: the corner
image (on the `(W+1)×(H+1)` lattice) and the total number of direction
bits set. -/
def extract_outline_stamp (image : List Bool) (size : Nat × Nat) : List Nat × Nat :=
  let psize := (size.1 + 1, size.2 + 1)
  (List.range size.2).foldl
    (fun acc y =>
      (List.range size.1).foldl (fun acc2 x => stamp_pixel image size acc2.1 acc2.2 x y) acc)
    (List.replicate (psize.1 * psize.2) 0, 0)

/-- Characterization predicate for the stamping pass: whether the raster
pixel `p` stamps direction bit `k` at corner index `i` (bit 0 = `L`,
1 = `R`, 2 = `D`, 3 = `U`, matching `dir_L/R/D/U`), per the four
neighbour-emptiness rules of the source. -/
def stampBit (image : List Bool) (size : Nat × Nat) (p : Nat × Nat) (i k : Nat) : Bool :=
  image.getD (xy p.1 p.2 size.1) false &&
  ((k == 3) && !(xy_is_filled_l image size p.1 p.2) && (i == xy p.1 p.2 (size.1 + 1)) ||
   (k == 2) && !(xy_is_filled_r image size p.1 p.2) &&
     (i == xy (p.1 + 1) (p.2 + 1) (size.1 + 1)) ||
   (k == 0) && !(xy_is_filled_d image size p.1 p.2) && (i == xy (p.1 + 1) p.2 (size.1 + 1)) ||
   (k == 1) && !(xy_is_filled_u image size p.1 p.2) && (i == xy p.1 (p.2 + 1) (size.1 + 1)))

/-- The raster pixels in the traversal order of the stamping pass
(row-major, `y` outer). -/
def pixList (size : Nat × Nat) : List (Nat × Nat) :=
  (List.range size.2).flatMap (fun y => (List.range size.1).map (fun x => (x, y)))

/-! ### Driver classification and exit paths (`src/main.rs`) -/

/-- The foreground test of `main`: `color_mid = (color_max / 2) * 3`
(integer division) and a pixel is foreground iff `R+G+B < color_mid`. -/
def pixel_is_foreground (color_max : Nat) (r g b : Nat) : Bool :=
  r + g + b < (color_max / 2) * 3

/-- The thresholding loop of `main`: one boolean per decoded pixel. -/
def image_from_pixels (color_max : Nat) (pixel_buffer : List (Nat × Nat × Nat)) :
    List Bool :=
  pixel_buffer.map (fun p => pixel_is_foreground color_max p.1 p.2.1 p.2.2)

/-- The process exit code of `main` as a function of which steps succeed,
following its control flow: `-h` prints help and returns (code 0) before
the parse result is inspected; a parse error calls `exit(1)`; an image
read error is only printed, after which `main` returns normally (code 0);
`trace_image` opens the output with `File::create(..).expect(..)`, so a
failure to create the output file panics and the process exits with the
Rust panic code 101; an error from the subsequent SVG writes is returned
as `Err`, printed, and `main` returns normally (code 0). -/
def main_exit_code (show_help parse_ok image_load_ok output_create_ok write_ok : Bool) :
    Nat :=
  if show_help then 0
  else if parse_ok = false then 1
  else if image_load_ok = false then 0
  else if output_create_ok = false then 101
  else if write_ok = false then 0
  else 0

/-! ### Definitions taken from the specification text (for refinement
comparison against the source-derived definitions above) -/

/-- Modelled from the spec: the knot-triple emission formula as the
specification states it — `(p − tan[0]·handles[0], p, p + tan[1]·handles[1])`,
i.e. the left handle subtracts while the right handle adds. -/
def emit_walk_spec (points : List V2) (tangents : List V2) (knots : List Knot) :
    Nat → Nat → List (V2 × V2 × V2)
  | 0, _ => []
  | n + 1, k_index =>
    let k := getKnot knots k_index
    let p := getV points k.index
    (msub_vnvn_fl p (getV tangents k.tan.1) k.handles.1, p,
     madd_vnvn_fl p (getV tangents k.tan.2) k.handles.2) ::
    emit_walk_spec points tangents knots n k.next

/-- Modelled from the spec: `fit_poly_single` with the spec's emission
formula substituted for the source's. -/
def fit_poly_single_spec (ops : RealOps) (points_orig : List V2) (is_cyclic : Bool)
    (error_threshold corner_angle : ℚ) (use_optimize_exhaustive : Bool)
    (fuel : Nat) : Option (List (V2 × V2 × V2)) :=
  match fit_phases ops points_orig is_cyclic error_threshold corner_angle
    use_optimize_exhaustive fuel with
  | none => none
  | some st =>
    some (emit_walk_spec st.1.points st.1.tangents st.2.1 st.2.2
      (first_live_index st.2.1))

/-- The knot index reached after `j` steps of the emission walk
(following `next` from `start`). -/
def walk_pos (knots : List Knot) (start : Nat) : Nat → Nat
  | 0 => start
  | j + 1 => (getKnot knots (walk_pos knots start j)).next

/-- The triple `fit_poly_single` pushes for the knot at `k_index`:
`(p + tan[0]·handles[0], p, p + tan[1]·handles[1])` (`madd_vnvn_fl` on
both sides). -/
def emit_triple (points tangents : List V2) (knots : List Knot) (k_index : Nat) :
    V2 × V2 × V2 :=
  let k := getKnot knots k_index
  let p := getV points k.index
  (madd_vnvn_fl p (getV tangents k.tan.1) k.handles.1, p,
   madd_vnvn_fl p (getV tangents k.tan.2) k.handles.2)

/-- A concrete interpretation of the intrinsics whose square root is exact
on the one radicand (9) occurring in the concrete runs below. -/
def sqrt9Ops : RealOps := ⟨fun x => if x = 9 then 3 else 0, fun _ => 0, fun _ => 0, fun _ => 0⟩

/-- The positional knot-index invariant: the knot stored at position `i`
carries `index = i` (no phase ever writes the `index` field). -/
def KIdx (knots : List Knot) (n : Nat) : Prop :=
  knots.length = n ∧ ∀ i, i < n → (getKnot knots i).index = i

/-- Knot `i` is live: in range and not removed. -/
def liveK (knots : List Knot) (i : Nat) : Bool :=
  decide (i < knots.length) && !(getKnot knots i).is_remove

/-- The number of live knots at positions `≥ i`. -/
def liveCount (knots : List Knot) (i : Nat) : Nat :=
  (((List.range knots.length).drop i).filter (fun j => liveK knots j)).length

/-- The open-curve chain invariant maintained by every refinement phase:
positions `0` and `n−1` are live with `INVALID`外 links, and each live
knot's `next`/`prev` point to the nearest live neighbour. -/
def ChainOpen (knots : List Knot) : Prop :=
  0 < knots.length ∧
  liveK knots 0 = true ∧ liveK knots (knots.length - 1) = true ∧
  (getKnot knots 0).prev = INVALID ∧
  (getKnot knots (knots.length - 1)).next = INVALID ∧
  (∀ i, liveK knots i = true → i ≠ knots.length - 1 →
    i < (getKnot knots i).next ∧ liveK knots ((getKnot knots i).next) = true ∧
    (∀ m, i < m → m < (getKnot knots i).next → liveK knots m = false)) ∧
  (∀ i, liveK knots i = true → i ≠ 0 →
    (getKnot knots i).prev < i ∧ liveK knots ((getKnot knots i).prev) = true ∧
    (∀ m, (getKnot knots i).prev < m → m < i → liveK knots m = false))

/-- The endpoint `no_remove` pattern of an open curve. -/
def NoRemP (knots : List Knot) : Prop :=
  ∀ i, i < knots.length →
    ((getKnot knots i).no_remove = true ↔ (i = 0 ∨ i = knots.length - 1))

/-- The knot-array invariant of the open-curve refinement phases. -/
def KForm (knots : List Knot) (n : Nat) : Prop :=
  KIdx knots n ∧ NoRemP knots ∧ ChainOpen knots

/-! ### Heap well-formedness predicates (used by the theorems below) -/

namespace MinHeap

variable {K V : Type} [LinearOrder K] [Inhabited K] [Inhabited V]

/-- The key stored at tree position `i`. -/
def keyAt (h : MinHeap K V) (i : Nat) : K := (h.tree i).value

/-- The (key, payload) pair stored in node slot `s`. -/
def slotVal (h : MinHeap K V) (s : Nat) : K × V :=
  ((h.getNode s).value, (h.getNode s).user_data)

/-- Every tree position refers to an existing node slot. -/
def InBounds (h : MinHeap K V) : Prop :=
  ∀ i, i < h.tree_index.length → h.tree_index.getD i 0 < h.node.length

/-- Back-pointers: the node at tree position `i` records position `i`. -/
def BackPtr (h : MinHeap K V) : Prop :=
  ∀ i, i < h.tree_index.length → (h.getNode (h.tree_index.getD i 0)).index = i

/-- The binary-heap ordering: every non-root key dominates its parent. -/
def HeapOrd (h : MinHeap K V) : Prop :=
  ∀ c, 0 < c → c < h.tree_index.length → keyAt h (bin_parent c) ≤ keyAt h c

/-- The ordering everywhere except on the two edges leaving position `i`
(used while sifting down). -/
def HeapOrdExceptDown (h : MinHeap K V) (i : Nat) : Prop :=
  (∀ c, 0 < c → c < h.tree_index.length → bin_parent c ≠ i →
    keyAt h (bin_parent c) ≤ keyAt h c) ∧
  (∀ c, 0 < c → c < h.tree_index.length → bin_parent c = i → 0 < i →
    keyAt h (bin_parent i) ≤ keyAt h c)

/-- The ordering everywhere except on the edge entering position `i`,
plus the grandparent bound (used while sifting up). -/
def HeapOrdExceptUp (h : MinHeap K V) (i : Nat) : Prop :=
  (∀ c, 0 < c → c < h.tree_index.length → c ≠ i →
    keyAt h (bin_parent c) ≤ keyAt h c) ∧
  (∀ c, 0 < c → c < h.tree_index.length → bin_parent c = i → 0 < i →
    keyAt h (bin_parent i) ≤ keyAt h c)

/-- The ordering on every edge not incident to position `i`, plus the
grandparent bound (the invariant of the promote-to-root loop of
`remove`). -/
def HeapOrdExceptAround (h : MinHeap K V) (i : Nat) : Prop :=
  (∀ c, 0 < c → c < h.tree_index.length → bin_parent c ≠ i → c ≠ i →
    keyAt h (bin_parent c) ≤ keyAt h c) ∧
  (∀ c, 0 < c → c < h.tree_index.length → bin_parent c = i → 0 < i →
    keyAt h (bin_parent i) ≤ keyAt h c)

/-- The free-slot chain from `free`, as an explicit list. -/
inductive FreeChain : List (Node K V) → Nat → List Nat → Prop
  | nil (node : List (Node K V)) : FreeChain node INVALID []
  | cons (node : List (Node K V)) (f : Nat) (rest : List Nat) :
      f < node.length → f ≠ INVALID →
      FreeChain node (node.getD f default).index rest →
      FreeChain node f (f :: rest)

/-- A valid free list: the chain exists, has no duplicates, avoids the
live tree slots, and together with them covers all slots. -/
def FreeOk (h : MinHeap K V) (fl : List Nat) : Prop :=
  FreeChain h.node h.free fl ∧ fl.Nodup ∧
  (∀ s ∈ fl, s ∉ h.tree_index) ∧
  (∀ s, s < h.node.length → s ∈ h.tree_index ∨ s ∈ fl)

/-- Full well-formedness of a heap state (the slot-count bound reflects
that a Rust `Vec` can never reach `usize::MAX` elements). -/
def WF (h : MinHeap K V) : Prop :=
  InBounds h ∧ BackPtr h ∧ HeapOrd h ∧ h.node.length ≤ INVALID ∧ ∃ fl, FreeOk h fl

/-! #### A client operation language over the heap

Used to state the spec's usage contract: a client issues inserts, removes
(on handles returned by earlier inserts) and pops, and observes the popped
payloads. -/

/-- A client operation: insert a (key, payload) pair, remove the handle
returned by the `idx`-th earlier insert, or pop the minimum. -/
inductive HeapOp (K V : Type) where
  | ins (key : K) (val : V)
  | rem (idx : Nat)
  | pop

/-- A run state: the heap plus ghost bookkeeping — one entry per insert
(slot, key, payload), each entry's liveness, whether an insert happened
since the last successful pop, the recorded pops (the flag marks pops
preceded by an insert since the previous pop), and the payloads removed
via `remove`. -/
structure RunState (K V : Type) where
  heap : MinHeap K V
  handles : List (Nat × K × V)
  live : List Bool
  insSince : Bool
  popped : List (Bool × K × V)
  removedP : List V

/-- One client operation against the heap; `none` when a `rem` targets an
index that is not a currently-live handle (the Rust API's precondition). -/
def heap_step (st : RunState K V) (op : HeapOp K V) : Option (RunState K V) :=
  match op with
  | .ins k v =>
    let p := st.heap.insert k v
    some { heap := p.2, handles := st.handles ++ [(p.1.val, k, v)], live := st.live ++ [true], insSince := true, popped := st.popped, removedP := st.removedP }
  | .rem idx =>
    if idx < st.handles.length ∧ st.live.getD idx false = true then
      some { heap := st.heap.remove ⟨(st.handles.getD idx (0, default, default)).1⟩, handles := st.handles, live := st.live.set idx false, insSince := st.insSince, popped := st.popped, removedP := st.removedP ++ [(st.handles.getD idx (0, default, default)).2.2] }
    else none
  | .pop =>
    if st.heap.tree_index.length = 0 then some st
    else
      let s := st.heap.tree_index.getD 0 0
      some { heap := st.heap.pop_min.2, handles := st.handles, live := (st.handles.zip st.live).map (fun q => q.2 && !(q.1.1 == s)), insSince := false, popped := st.popped ++ [(st.insSince, slotVal st.heap s)], removedP := st.removedP }

/-- Run a list of client operations. -/
def runOps : RunState K V → List (HeapOp K V) → Option (RunState K V)
  | st, [] => some st
  | st, op :: rest =>
    match heap_step st op with
    | none => none
    | some st2 => runOps st2 rest

/-- The initial run state: a freshly constructed heap. -/
def initRun : RunState K V :=
  { heap := MinHeap.with_capacity 0, handles := [], live := [], insSince := false, popped := [], removedP := [] }

/-- The payloads of the insert operations of a run, in order. -/
def opsPayloads : List (HeapOp K V) → List V
  | [] => []
  | HeapOp.ins _ v :: rest => v :: opsPayloads rest
  | HeapOp.rem _ :: rest => opsPayloads rest
  | HeapOp.pop :: rest => opsPayloads rest

/-- The recorded pops are in non-decreasing key order at every step not
preceded by an intervening insert. -/
def ChainOk (l : List (Bool × K × V)) : Prop :=
  ∀ i, i + 1 < l.length → (l.getD (i + 1) default).1 = false →
    (l.getD i default).2.1 ≤ (l.getD (i + 1) default).2.1

/-- The coupling invariant between the heap and the ghost bookkeeping of a
run state. -/
def Inv (st : RunState K V) : Prop :=
  WF st.heap ∧
  st.live.length = st.handles.length ∧
  (∀ i, i < st.handles.length → st.live.getD i false = true →
    (st.handles.getD i (0, default, default)).1 ∈ st.heap.tree_index ∧
    slotVal st.heap (st.handles.getD i (0, default, default)).1 =
      ((st.handles.getD i (0, default, default)).2.1,
       (st.handles.getD i (0, default, default)).2.2)) ∧
  (∀ s, s ∈ st.heap.tree_index → ∃ i, i < st.handles.length ∧
    st.live.getD i false = true ∧ (st.handles.getD i (0, default, default)).1 = s) ∧
  (∀ i j, i < st.handles.length → j < st.handles.length →
    st.live.getD i false = true → st.live.getD j false = true →
    (st.handles.getD i (0, default, default)).1 =
      (st.handles.getD j (0, default, default)).1 → i = j) ∧
  (st.insSince = false → ∀ p, st.popped.getLast? = some p →
    ∀ s, s ∈ st.heap.tree_index → p.2.1 ≤ (slotVal st.heap s).1) ∧
  ChainOk st.popped ∧
  (∀ v, v ∈ st.removedP → ∀ p, p ∈ st.popped → p.2.2 ≠ v) ∧
  (∀ i, i < st.handles.length → st.live.getD i false = true →
    ∀ p, p ∈ st.popped → p.2.2 ≠ (st.handles.getD i (0, default, default)).2.2) ∧
  (∀ p, p ∈ st.popped → ∃ i, i < st.handles.length ∧ st.live.getD i false = false ∧
    p.2.2 = (st.handles.getD i (0, default, default)).2.2) ∧
  (∀ v, v ∈ st.removedP → ∃ i, i < st.handles.length ∧ st.live.getD i false = false ∧
    (st.handles.getD i (0, default, default)).2.2 = v) ∧
  st.heap.tree_index.length ≤ st.handles.length

end MinHeap

/-! ## Theorems

Everything from here on is proof: first the generic list helpers, then the
heap verification, then the per-claim theorems. -/

/-- The coupling between a phase heap and its handle array: handles point
at live tree slots holding a payload for their own knot index, every tree
slot is so referenced, and every stored payload satisfies `P`. -/
def Coupled {V : Type} [Inhabited V] (h : MinHeap ℚ V) (kh : List NodeHandle)
    (idxOf : V → Nat) (P : V → Prop) : Prop :=
  MinHeap.WF h ∧
  (∀ i, (kh.getD i NodeHandle.INVAL) ≠ NodeHandle.INVAL →
    (kh.getD i NodeHandle.INVAL).val ∈ h.tree_index ∧
    idxOf (MinHeap.slotVal h (kh.getD i NodeHandle.INVAL).val).2 = i) ∧
  (∀ t ∈ h.tree_index,
    kh.getD (idxOf (MinHeap.slotVal h t).2) NodeHandle.INVAL = ⟨t⟩ ∧
    P (MinHeap.slotVal h t).2)

/-- Helper: reading a just-written position. -/
theorem getD_set_self {A : Type} (l : List A) (i : Nat) (hi : i < l.length) (a d : A) :
    (l.set i a).getD i d = a := by
  simp [List.getD_eq_getElem?_getD, List.getElem?_set_self', hi]

/-- Helper: reading a different position. -/
theorem getD_set_ne {A : Type} (l : List A) (i j : Nat) (hij : i ≠ j) (a d : A) :
    (l.set i a).getD j d = l.getD j d := by
  simp [List.getD_eq_getElem?_getD, List.getElem?_set_ne hij]

/-- Helper: out-of-range reads give the default. -/
theorem getD_ge_length {A : Type} (l : List A) (i : Nat) (hi : l.length ≤ i) (d : A) :
    l.getD i d = d := by
  simp [List.getD_eq_getElem?_getD, List.getElem?_eq_none (by omega : l.length ≤ i)]

/-- Helper: membership via positions. -/
theorem mem_iff_getD {A : Type} [Inhabited A] (l : List A) (t : A) :
    t ∈ l ↔ ∃ c, c < l.length ∧ l.getD c default = t := by
  constructor
  · intro ht
    rcases List.mem_iff_getElem.mp ht with ⟨c, hc, he⟩
    exact ⟨c, hc, by simp [List.getD_eq_getElem?_getD, List.getElem?_eq_getElem hc, he]⟩
  · rintro ⟨c, hc, he⟩
    have : l.getD c default = l[c] := by
      simp [List.getD_eq_getElem?_getD, List.getElem?_eq_getElem hc]
    rw [this] at he
    exact he ▸ List.getElem_mem hc

namespace MinHeap

variable {K V : Type} [LinearOrder K] [Inhabited K] [Inhabited V]

/-- `heap_swap` keeps the tree size. -/
theorem swap_ti_length (h : MinHeap K V) (i j : Nat) :
    (h.heap_swap i j).tree_index.length = h.tree_index.length := by
  simp [heap_swap]

/-- `heap_swap` keeps the slot count. -/
theorem swap_node_length (h : MinHeap K V) (i j : Nat) :
    (h.heap_swap i j).node.length = h.node.length := by
  simp [heap_swap]

/-- `heap_swap` keeps the free head. -/
theorem swap_free (h : MinHeap K V) (i j : Nat) :
    (h.heap_swap i j).free = h.free := by
  simp [heap_swap]

/-- The tree positions after a swap. -/
theorem swap_ti_getD (h : MinHeap K V) (i j : Nat) (hi : i < h.tree_index.length)
    (hj : j < h.tree_index.length) (c : Nat) :
    (h.heap_swap i j).tree_index.getD c 0 =
      if c = j then h.tree_index.getD i 0
      else if c = i then h.tree_index.getD j 0
      else h.tree_index.getD c 0 := by
  simp only [heap_swap]
  by_cases hcj : c = j
  · rw [if_pos hcj, hcj, getD_set_self _ j (by simpa using hj)]
  · rw [if_neg hcj, getD_set_ne _ j c (fun hh => hcj hh.symm)]
    by_cases hci : c = i
    · rw [if_pos hci, hci, getD_set_self _ i hi]
    · rw [if_neg hci, getD_set_ne _ i c (fun hh => hci hh.symm)]

/-- Overwriting only the `index` field of a slot keeps every slot's value
and payload. -/
theorem getD_set_index_preserves (n : List (Node K V)) (a : Nat) (nd : Node K V)
    (hv : nd.value = (n.getD a default).value)
    (hu : nd.user_data = (n.getD a default).user_data) (s : Nat) :
    ((n.set a nd).getD s default).value = (n.getD s default).value ∧
    ((n.set a nd).getD s default).user_data = (n.getD s default).user_data := by
  by_cases hsa : s = a
  · by_cases hl : a < n.length
    · rw [hsa, getD_set_self _ a hl]
      exact ⟨hv, hu⟩
    · rw [hsa, getD_ge_length _ a (by simpa using Nat.le_of_not_lt hl),
        getD_ge_length _ a (Nat.le_of_not_lt hl)]
      exact ⟨rfl, rfl⟩
  · rw [getD_set_ne _ a s (fun hh => hsa hh.symm)]
    exact ⟨rfl, rfl⟩

/-- Node values and payloads are untouched by a swap (only the
back-pointers move). -/
theorem swap_slotVal (h : MinHeap K V) (i j : Nat) (s : Nat) :
    slotVal (h.heap_swap i j) s = slotVal h s := by
  simp only [slotVal, getNode, heap_swap, Prod.mk.injEq]
  have h1 := getD_set_index_preserves h.node (h.tree_index.getD i 0)
    { h.node.getD (h.tree_index.getD i 0) default with
      index := (h.node.getD (h.tree_index.getD j 0) default).index } rfl rfl
  have h2 := getD_set_index_preserves
    (h.node.set (h.tree_index.getD i 0)
      { h.node.getD (h.tree_index.getD i 0) default with
        index := (h.node.getD (h.tree_index.getD j 0) default).index })
    (h.tree_index.getD j 0)
    { (h.node.set (h.tree_index.getD i 0)
        { h.node.getD (h.tree_index.getD i 0) default with
          index := (h.node.getD (h.tree_index.getD j 0) default).index }).getD
        (h.tree_index.getD j 0) default with
      index := (h.node.getD (h.tree_index.getD i 0) default).index } rfl rfl
  exact ⟨((h2 s).1).trans (h1 s).1, ((h2 s).2).trans (h1 s).2⟩

/-- The back-pointers after a swap of in-range tree positions. -/
theorem swap_index (h : MinHeap K V) (i j : Nat)
    (ha : h.tree_index.getD i 0 < h.node.length)
    (hb : h.tree_index.getD j 0 < h.node.length) (s : Nat) :
    ((h.heap_swap i j).getNode s).index =
      if s = h.tree_index.getD j 0 then (h.getNode (h.tree_index.getD i 0)).index
      else if s = h.tree_index.getD i 0 then (h.getNode (h.tree_index.getD j 0)).index
      else (h.getNode s).index := by
  simp only [getNode, heap_swap]
  by_cases hsb : s = h.tree_index.getD j 0
  · rw [if_pos hsb, hsb, getD_set_self _ _ (by simpa using hb)]
  · rw [if_neg hsb, getD_set_ne _ _ s (fun hh => hsb hh.symm)]
    by_cases hsa : s = h.tree_index.getD i 0
    · rw [if_pos hsa, hsa, getD_set_self _ _ ha]
    · rw [if_neg hsa, getD_set_ne _ _ s (fun hh => hsa hh.symm)]

/-- Membership in the tree after a swap of in-range positions. -/
theorem swap_mem_ti (h : MinHeap K V) (i j : Nat) (hi : i < h.tree_index.length)
    (hj : j < h.tree_index.length) (t : Nat) :
    t ∈ (h.heap_swap i j).tree_index ↔ t ∈ h.tree_index := by
  have hlen := swap_ti_length h i j
  constructor
  · intro ht
    rcases (mem_iff_getD _ t).mp ht with ⟨c, hc, he⟩
    rw [hlen] at hc
    rw [show ((h.heap_swap i j).tree_index.getD c default : Nat) =
        (h.heap_swap i j).tree_index.getD c 0 from rfl, swap_ti_getD h i j hi hj c] at he
    apply (mem_iff_getD _ t).mpr
    by_cases hcj : c = j
    · rw [if_pos hcj] at he
      exact ⟨i, hi, he⟩
    · rw [if_neg hcj] at he
      by_cases hci : c = i
      · rw [if_pos hci] at he
        exact ⟨j, hj, he⟩
      · rw [if_neg hci] at he
        exact ⟨c, hc, he⟩
  · intro ht
    rcases (mem_iff_getD _ t).mp ht with ⟨c, hc, he⟩
    apply (mem_iff_getD _ t).mpr
    by_cases hci : c = i
    · refine ⟨j, by omega, ?_⟩
      rw [show ((h.heap_swap i j).tree_index.getD j default : Nat) =
          (h.heap_swap i j).tree_index.getD j 0 from rfl, swap_ti_getD h i j hi hj j,
        if_pos rfl, ← hci]
      exact he
    · by_cases hcj : c = j
      · refine ⟨i, by omega, ?_⟩
        rw [show ((h.heap_swap i j).tree_index.getD i default : Nat) =
            (h.heap_swap i j).tree_index.getD i 0 from rfl, swap_ti_getD h i j hi hj i]
        by_cases hij : i = j
        · rw [if_pos hij, hij, ← hcj]
          exact he
        · rw [if_neg hij, if_pos rfl, ← hcj]
          exact he
      · refine ⟨c, by omega, ?_⟩
        rw [show ((h.heap_swap i j).tree_index.getD c default : Nat) =
            (h.heap_swap i j).tree_index.getD c 0 from rfl, swap_ti_getD h i j hi hj c,
          if_neg hcj, if_neg hci]
        exact he

/-- Keys at tree positions after a swap. -/
theorem swap_keyAt (h : MinHeap K V) (i j : Nat) (hi : i < h.tree_index.length)
    (hj : j < h.tree_index.length) (c : Nat) :
    keyAt (h.heap_swap i j) c =
      if c = j then keyAt h i else if c = i then keyAt h j else keyAt h c := by
  have hval : ∀ s, ((h.heap_swap i j).getNode s).value = (h.getNode s).value := by
    intro s
    have := congrArg Prod.fst (swap_slotVal h i j s)
    simpa [slotVal] using this
  show ((h.heap_swap i j).getNode ((h.heap_swap i j).tree_index.getD c 0)).value = _
  rw [hval, swap_ti_getD h i j hi hj c]
  by_cases hcj : c = j
  · rw [if_pos hcj, if_pos hcj]
    rfl
  · rw [if_neg hcj, if_neg hcj]
    by_cases hci : c = i
    · rw [if_pos hci, if_pos hci]
      rfl
    · rw [if_neg hci, if_neg hci]
      rfl

/-- Back-pointers make the tree-position list injective. -/
theorem BackPtr_inj (h : MinHeap K V) (hbp : BackPtr h) (c1 c2 : Nat)
    (h1 : c1 < h.tree_index.length) (h2 : c2 < h.tree_index.length)
    (he : h.tree_index.getD c1 0 = h.tree_index.getD c2 0) : c1 = c2 := by
  have e1 := hbp c1 h1
  have e2 := hbp c2 h2
  rw [he] at e1
  rw [e1] at e2
  exact e2

/-- `InBounds` is preserved by a swap. -/
theorem swap_InBounds (h : MinHeap K V) (i j : Nat) (hi : i < h.tree_index.length)
    (hj : j < h.tree_index.length) (hib : InBounds h) : InBounds (h.heap_swap i j) := by
  intro c hc
  rw [swap_ti_length] at hc
  rw [swap_node_length, swap_ti_getD h i j hi hj c]
  by_cases hcj : c = j
  · rw [if_pos hcj]
    exact hib i hi
  · rw [if_neg hcj]
    by_cases hci : c = i
    · rw [if_pos hci]
      exact hib j hj
    · rw [if_neg hci]
      exact hib c hc

/-- `BackPtr` is preserved by a swap. -/
theorem swap_BackPtr (h : MinHeap K V) (i j : Nat) (hi : i < h.tree_index.length)
    (hj : j < h.tree_index.length) (hib : InBounds h) (hbp : BackPtr h) :
    BackPtr (h.heap_swap i j) := by
  intro c hc
  rw [swap_ti_length] at hc
  have ha := hib i hi
  have hb := hib j hj
  rw [show (h.heap_swap i j).getNode ((h.heap_swap i j).tree_index.getD c 0) =
      (h.heap_swap i j).getNode ((h.heap_swap i j).tree_index.getD c 0) from rfl]
  rw [swap_ti_getD h i j hi hj c]
  by_cases hcj : c = j
  · rw [if_pos hcj, swap_index h i j ha hb]
    by_cases hab : h.tree_index.getD i 0 = h.tree_index.getD j 0
    · rw [if_pos hab, hab, hbp j hj, hcj]
    · rw [if_neg hab, if_pos rfl, hbp j hj, hcj]
  · rw [if_neg hcj]
    by_cases hci : c = i
    · rw [if_pos hci, swap_index h i j ha hb, if_pos rfl, hbp i hi, hci]
    · rw [if_neg hci, swap_index h i j ha hb]
      have hnb : ¬ h.tree_index.getD c 0 = h.tree_index.getD j 0 := by
        intro hh
        exact hcj (BackPtr_inj h hbp c j hc hj hh)
      have hna : ¬ h.tree_index.getD c 0 = h.tree_index.getD i 0 := by
        intro hh
        exact hci (BackPtr_inj h hbp c i hc hi hh)
      rw [if_neg hnb, if_neg hna]
      exact hbp c hc

/-- A tree position's slot is a member of the tree list. -/
theorem getD_mem_ti (h : MinHeap K V) (i : Nat) (hi : i < h.tree_index.length) :
    h.tree_index.getD i 0 ∈ h.tree_index := by
  apply (mem_iff_getD _ _).mpr
  exact ⟨i, hi, rfl⟩

/-- A free chain is untouched by node edits outside of it. -/
theorem FreeChain_congr (node node2 : List (Node K V)) (f : Nat) (fl : List Nat)
    (hlen : node2.length = node.length)
    (hch : FreeChain node f fl) :
    (∀ s ∈ fl, node2.getD s default = node.getD s default) → FreeChain node2 f fl := by
  induction hch with
  | nil =>
    intro _
    exact FreeChain.nil node2
  | cons f0 rest0 hf0 hinv0 hrest0 ih =>
    intro hsame
    refine FreeChain.cons node2 f0 rest0 (by omega) hinv0 ?_
    rw [hsame f0 (by simp)]
    exact ih (fun s hs => hsame s (by simp [hs]))

/-- `FreeOk` is preserved by a swap of in-range positions. -/
theorem swap_FreeOk (h : MinHeap K V) (i j : Nat) (hi : i < h.tree_index.length)
    (hj : j < h.tree_index.length) (fl : List Nat) (hfo : FreeOk h fl) :
    FreeOk (h.heap_swap i j) fl := by
  obtain ⟨hch, hnd, hdis, hcov⟩ := hfo
  have hmem_a := getD_mem_ti h i hi
  have hmem_b := getD_mem_ti h j hj
  refine ⟨?_, hnd, ?_, ?_⟩
  · rw [show (h.heap_swap i j).free = h.free from swap_free h i j]
    refine FreeChain_congr h.node _ h.free fl (swap_node_length h i j) hch ?_
    intro s hs
    have hsa : s ≠ h.tree_index.getD i 0 := fun hh => hdis s hs (hh ▸ hmem_a)
    have hsb : s ≠ h.tree_index.getD j 0 := fun hh => hdis s hs (hh ▸ hmem_b)
    show (h.heap_swap i j).node.getD s default = h.node.getD s default
    simp only [heap_swap]
    rw [getD_set_ne _ _ s (fun hh => hsb hh.symm), getD_set_ne _ _ s (fun hh => hsa hh.symm)]
  · intro s hs
    rw [swap_mem_ti h i j hi hj]
    exact hdis s hs
  · intro s hs
    rw [swap_node_length] at hs
    rcases hcov s hs with hmem | hmem
    · exact Or.inl ((swap_mem_ti h i j hi hj s).mpr hmem)
    · exact Or.inr hmem

/-- Slots outside the live tree are completely untouched by a swap. -/
theorem swap_getNode_outside (h : MinHeap K V) (i j : Nat)
    (hi : i < h.tree_index.length) (hj : j < h.tree_index.length) (s : Nat)
    (hs : s ∉ h.tree_index) : (h.heap_swap i j).getNode s = h.getNode s := by
  have hsa : s ≠ h.tree_index.getD i 0 := fun hh => hs (hh ▸ getD_mem_ti h i hi)
  have hsb : s ≠ h.tree_index.getD j 0 := fun hh => hs (hh ▸ getD_mem_ti h j hj)
  show (h.heap_swap i j).node.getD s default = h.node.getD s default
  simp only [heap_swap]
  rw [getD_set_ne _ _ s (fun hh => hsb hh.symm), getD_set_ne _ _ s (fun hh => hsa hh.symm)]

/-- `heap_compare` is the strict key comparison. -/
theorem heap_compare_iff (h : MinHeap K V) (x y : Nat) :
    h.heap_compare x y = true ↔ keyAt h x < keyAt h y := by
  simp [heap_compare, node_compare, keyAt, tree, getNode]

/-- Parent of the left child. -/
theorem bin_parent_left (i : Nat) : bin_parent (bin_left i) = i := by
  simp only [bin_parent, bin_left]
  omega

/-- Parent of the right child. -/
theorem bin_parent_right (i : Nat) : bin_parent (bin_right i) = i := by
  simp only [bin_parent, bin_right]
  omega

/-- The children of `i` are exactly `2i+1` and `2i+2`. -/
theorem bin_parent_eq_iff (c i : Nat) (hc : 0 < c) :
    bin_parent c = i ↔ c = bin_left i ∨ c = bin_right i := by
  simp only [bin_parent, bin_left, bin_right]
  omega

/-- A parent index is strictly smaller. -/
theorem bin_parent_lt (c : Nat) (hc : 0 < c) : bin_parent c < c := by
  simp only [bin_parent]
  omega

/-- Basic size facts about children. -/
theorem lt_bin_left (i : Nat) : i < bin_left i := by
  simp only [bin_left]
  omega

/-- Basic size facts about children. -/
theorem lt_bin_right (i : Nat) : i < bin_right i := by
  simp only [bin_right]
  omega

/-- Sift-down step: swapping with the right child preserves the
almost-heap shape (case: both children compare below). -/
theorem down_step_rl (h : MinHeap K V) (i : Nat)
    (hord : HeapOrdExceptDown h i)
    (hl : bin_left i < h.tree_index.length) (hcl : keyAt h (bin_left i) < keyAt h i)
    (hr : bin_right i < h.tree_index.length)
    (hcr : keyAt h (bin_right i) < keyAt h (bin_left i)) :
    HeapOrdExceptDown (h.heap_swap i (bin_right i)) (bin_right i) := by
  have hi : i < h.tree_index.length := lt_trans (lt_bin_right i) hr
  constructor
  · intro c hc0 hclen hpc
    rw [swap_ti_length] at hclen
    rw [swap_keyAt h i (bin_right i) hi hr (bin_parent c),
        swap_keyAt h i (bin_right i) hi hr c]
    by_cases hcr2 : c = bin_right i
    · have hpci : bin_parent c = i := by rw [hcr2]; exact bin_parent_right i
      rw [if_pos hcr2, if_neg hpc, if_pos hpci]
      exact le_of_lt (lt_trans hcr hcl)
    · rw [if_neg hcr2]
      by_cases hci : c = i
      · have hplt : bin_parent c < i := hci ▸ bin_parent_lt i (hci ▸ hc0)
        rw [if_pos hci, if_neg hpc, if_neg (Nat.ne_of_lt hplt)]
        rw [hci]
        exact hord.2 (bin_right i) (by simp only [bin_right]; omega) hr
          (bin_parent_right i) (hci ▸ hc0)
      · rw [if_neg hci]
        by_cases hpci : bin_parent c = i
        · have hcl2 : c = bin_left i := by
            rcases (bin_parent_eq_iff c i hc0).mp hpci with h1 | h1
            · exact h1
            · exact absurd h1 hcr2
          rw [if_neg hpc, if_pos hpci, hcl2]
          exact le_of_lt hcr
        · rw [if_neg hpc, if_neg hpci]
          exact hord.1 c hc0 hclen hpci
  · intro c hc0 hclen hpc hr0
    rw [swap_ti_length] at hclen
    rw [bin_parent_right i]
    have hcgt : bin_right i < c := hpc ▸ bin_parent_lt c hc0
    have hcne_r : ¬ c = bin_right i := Nat.ne_of_gt hcgt
    have hcne_i : ¬ c = i := Nat.ne_of_gt (lt_trans (lt_bin_right i) hcgt)
    have hine_r : ¬ i = bin_right i := Nat.ne_of_lt (lt_bin_right i)
    rw [swap_keyAt h i (bin_right i) hi hr i, swap_keyAt h i (bin_right i) hi hr c]
    rw [if_neg hine_r, if_pos rfl, if_neg hcne_r, if_neg hcne_i, ← hpc]
    refine hord.1 c hc0 hclen ?_
    rw [hpc]
    exact Nat.ne_of_gt (lt_bin_right i)

/-- Sift-down step: swapping with the left child. -/
theorem down_step_l (h : MinHeap K V) (i : Nat)
    (hord : HeapOrdExceptDown h i)
    (hl : bin_left i < h.tree_index.length) (hcl : keyAt h (bin_left i) < keyAt h i)
    (hnr : ¬ (bin_right i < h.tree_index.length ∧
      keyAt h (bin_right i) < keyAt h (bin_left i))) :
    HeapOrdExceptDown (h.heap_swap i (bin_left i)) (bin_left i) := by
  have hi : i < h.tree_index.length := lt_trans (lt_bin_left i) hl
  constructor
  · intro c hc0 hclen hpc
    rw [swap_ti_length] at hclen
    rw [swap_keyAt h i (bin_left i) hi hl (bin_parent c),
        swap_keyAt h i (bin_left i) hi hl c]
    by_cases hcl2 : c = bin_left i
    · have hpci : bin_parent c = i := by rw [hcl2]; exact bin_parent_left i
      rw [if_pos hcl2, if_neg hpc, if_pos hpci]
      exact le_of_lt hcl
    · rw [if_neg hcl2]
      by_cases hci : c = i
      · have hplt : bin_parent c < i := hci ▸ bin_parent_lt i (hci ▸ hc0)
        rw [if_pos hci, if_neg hpc, if_neg (Nat.ne_of_lt hplt)]
        rw [hci]
        exact hord.2 (bin_left i) (by simp only [bin_left]; omega) hl
          (bin_parent_left i) (hci ▸ hc0)
      · rw [if_neg hci]
        by_cases hpci : bin_parent c = i
        · have hcr2 : c = bin_right i := by
            rcases (bin_parent_eq_iff c i hc0).mp hpci with h1 | h1
            · exact absurd h1 hcl2
            · exact h1
          rw [if_neg hpc, if_pos hpci, hcr2]
          have hrlen : bin_right i < h.tree_index.length := by rw [← hcr2]; exact hclen
          have := fun hh => hnr ⟨hrlen, hh⟩
          exact le_of_not_lt this
        · rw [if_neg hpc, if_neg hpci]
          exact hord.1 c hc0 hclen hpci
  · intro c hc0 hclen hpc hr0
    rw [swap_ti_length] at hclen
    rw [bin_parent_left i]
    have hcgt : bin_left i < c := hpc ▸ bin_parent_lt c hc0
    have hcne_l : ¬ c = bin_left i := Nat.ne_of_gt hcgt
    have hcne_i : ¬ c = i := Nat.ne_of_gt (lt_trans (lt_bin_left i) hcgt)
    have hine_l : ¬ i = bin_left i := Nat.ne_of_lt (lt_bin_left i)
    rw [swap_keyAt h i (bin_left i) hi hl i, swap_keyAt h i (bin_left i) hi hl c]
    rw [if_neg hine_l, if_pos rfl, if_neg hcne_l, if_neg hcne_i, ← hpc]
    refine hord.1 c hc0 hclen ?_
    rw [hpc]
    exact Nat.ne_of_gt (lt_bin_left i)

/-- Sift-down step: swapping with the right child when the left does not
compare below the parent. -/
theorem down_step_r (h : MinHeap K V) (i : Nat)
    (hord : HeapOrdExceptDown h i)
    (hnl : ¬ (bin_left i < h.tree_index.length ∧ keyAt h (bin_left i) < keyAt h i))
    (hr : bin_right i < h.tree_index.length) (hcr : keyAt h (bin_right i) < keyAt h i) :
    HeapOrdExceptDown (h.heap_swap i (bin_right i)) (bin_right i) := by
  have hi : i < h.tree_index.length := lt_trans (lt_bin_right i) hr
  have hllen : bin_left i < h.tree_index.length := by
    simp only [bin_left, bin_right] at *
    omega
  have hli : keyAt h i ≤ keyAt h (bin_left i) := le_of_not_lt (fun hh => hnl ⟨hllen, hh⟩)
  constructor
  · intro c hc0 hclen hpc
    rw [swap_ti_length] at hclen
    rw [swap_keyAt h i (bin_right i) hi hr (bin_parent c),
        swap_keyAt h i (bin_right i) hi hr c]
    by_cases hcr2 : c = bin_right i
    · have hpci : bin_parent c = i := by rw [hcr2]; exact bin_parent_right i
      rw [if_pos hcr2, if_neg hpc, if_pos hpci]
      exact le_of_lt hcr
    · rw [if_neg hcr2]
      by_cases hci : c = i
      · have hplt : bin_parent c < i := hci ▸ bin_parent_lt i (hci ▸ hc0)
        rw [if_pos hci, if_neg hpc, if_neg (Nat.ne_of_lt hplt)]
        rw [hci]
        exact hord.2 (bin_right i) (by simp only [bin_right]; omega) hr
          (bin_parent_right i) (hci ▸ hc0)
      · rw [if_neg hci]
        by_cases hpci : bin_parent c = i
        · have hcl2 : c = bin_left i := by
            rcases (bin_parent_eq_iff c i hc0).mp hpci with h1 | h1
            · exact h1
            · exact absurd h1 hcr2
          rw [if_neg hpc, if_pos hpci, hcl2]
          exact le_of_lt (lt_of_lt_of_le hcr hli)
        · rw [if_neg hpc, if_neg hpci]
          exact hord.1 c hc0 hclen hpci
  · intro c hc0 hclen hpc hr0
    rw [swap_ti_length] at hclen
    rw [bin_parent_right i]
    have hcgt : bin_right i < c := hpc ▸ bin_parent_lt c hc0
    have hcne_r : ¬ c = bin_right i := Nat.ne_of_gt hcgt
    have hcne_i : ¬ c = i := Nat.ne_of_gt (lt_trans (lt_bin_right i) hcgt)
    have hine_r : ¬ i = bin_right i := Nat.ne_of_lt (lt_bin_right i)
    rw [swap_keyAt h i (bin_right i) hi hr i, swap_keyAt h i (bin_right i) hi hr c]
    rw [if_neg hine_r, if_pos rfl, if_neg hcne_r, if_neg hcne_i, ← hpc]
    refine hord.1 c hc0 hclen ?_
    rw [hpc]
    exact Nat.ne_of_gt (lt_bin_right i)

/-- Sift-down termination: when neither child compares below, the heap is
fully ordered. -/
theorem down_step_done (h : MinHeap K V) (i : Nat)
    (hord : HeapOrdExceptDown h i)
    (hnl : ¬ (bin_left i < h.tree_index.length ∧ keyAt h (bin_left i) < keyAt h i))
    (hnr : ¬ (bin_right i < h.tree_index.length ∧ keyAt h (bin_right i) < keyAt h i)) :
    HeapOrd h := by
  intro c hc0 hclen
  by_cases hpci : bin_parent c = i
  · rcases (bin_parent_eq_iff c i hc0).mp hpci with h1 | h1
    · rw [hpci, h1]
      exact le_of_not_lt (fun hh => hnl ⟨h1 ▸ hclen, hh⟩)
    · rw [hpci, h1]
      exact le_of_not_lt (fun hh => hnr ⟨h1 ▸ hclen, hh⟩)
  · exact hord.1 c hc0 hclen hpci

/-- Full specification of `heap_down`: restores the heap order from an
almost-heap, preserving the tree contents, slot data and free list. -/
theorem heap_down_spec (h : MinHeap K V) (i : Nat) :
    InBounds h → BackPtr h → HeapOrdExceptDown h i →
    InBounds (h.heap_down i) ∧ BackPtr (h.heap_down i) ∧ HeapOrd (h.heap_down i) ∧
    (h.heap_down i).tree_index.length = h.tree_index.length ∧
    (h.heap_down i).node.length = h.node.length ∧
    (h.heap_down i).free = h.free ∧
    (∀ s, slotVal (h.heap_down i) s = slotVal h s) ∧
    (∀ t, t ∈ (h.heap_down i).tree_index ↔ t ∈ h.tree_index) ∧
    (∀ fl, FreeOk h fl → FreeOk (h.heap_down i) fl) ∧
    (∀ s, s ∉ h.tree_index → (h.heap_down i).getNode s = h.getNode s) := by
  induction h, i using heap_down.induct with
  | case1 h i size l r hl hr ih =>
    intro hib hbp hord
    have hi : i < h.tree_index.length := lt_trans (lt_bin_right i) hr.1
    have hstep := down_step_rl h i hord hl.1 ((heap_compare_iff h _ _).mp hl.2) hr.1
      ((heap_compare_iff h _ _).mp hr.2)
    have hres := ih (swap_InBounds h i (bin_right i) hi hr.1 hib)
      (swap_BackPtr h i (bin_right i) hi hr.1 hib hbp) hstep
    have heq : h.heap_down i = (h.heap_swap i (bin_right i)).heap_down (bin_right i) := by
      rw [heap_down]
      simp only [hl.1, hl.2, hr.1, hr.2, and_self, if_pos, dif_pos]
    rw [heq]
    refine ⟨hres.1, hres.2.1, hres.2.2.1, ?_, ?_, ?_, ?_, ?_, ?_, ?_⟩
    · rw [hres.2.2.2.1, swap_ti_length]
    · rw [hres.2.2.2.2.1, swap_node_length]
    · rw [hres.2.2.2.2.2.1, swap_free]
    · intro s
      rw [hres.2.2.2.2.2.2.1 s, swap_slotVal]
    · intro t
      rw [hres.2.2.2.2.2.2.2.1 t, swap_mem_ti h i (bin_right i) hi hr.1]
    · intro fl hfo
      exact hres.2.2.2.2.2.2.2.2.1 fl (swap_FreeOk h i (bin_right i) hi hr.1 fl hfo)
    · intro s hs
      rw [hres.2.2.2.2.2.2.2.2.2 s
        (fun hh => hs ((swap_mem_ti h i (bin_right i) hi hr.1 s).mp hh))]
      exact swap_getNode_outside h i (bin_right i) hi hr.1 s hs
  | case2 h i size l r hl hnr ih =>
    intro hib hbp hord
    have hi : i < h.tree_index.length := lt_trans (lt_bin_left i) hl.1
    have hnr2 : ¬ (bin_right i < h.tree_index.length ∧
        keyAt h (bin_right i) < keyAt h (bin_left i)) := by
      intro hh
      exact hnr ⟨hh.1, (heap_compare_iff h _ _).mpr hh.2⟩
    have hstep := down_step_l h i hord hl.1 ((heap_compare_iff h _ _).mp hl.2) hnr2
    have hres := ih (swap_InBounds h i (bin_left i) hi hl.1 hib)
      (swap_BackPtr h i (bin_left i) hi hl.1 hib hbp) hstep
    have heq : h.heap_down i = (h.heap_swap i (bin_left i)).heap_down (bin_left i) := by
      rw [heap_down]
      simp only [hl.1, hl.2, and_self, if_pos, dif_pos, hnr, dif_neg, not_false_iff]
    rw [heq]
    refine ⟨hres.1, hres.2.1, hres.2.2.1, ?_, ?_, ?_, ?_, ?_, ?_, ?_⟩
    · rw [hres.2.2.2.1, swap_ti_length]
    · rw [hres.2.2.2.2.1, swap_node_length]
    · rw [hres.2.2.2.2.2.1, swap_free]
    · intro s
      rw [hres.2.2.2.2.2.2.1 s, swap_slotVal]
    · intro t
      rw [hres.2.2.2.2.2.2.2.1 t, swap_mem_ti h i (bin_left i) hi hl.1]
    · intro fl hfo
      exact hres.2.2.2.2.2.2.2.2.1 fl (swap_FreeOk h i (bin_left i) hi hl.1 fl hfo)
    · intro s hs
      rw [hres.2.2.2.2.2.2.2.2.2 s
        (fun hh => hs ((swap_mem_ti h i (bin_left i) hi hl.1 s).mp hh))]
      exact swap_getNode_outside h i (bin_left i) hi hl.1 s hs
  | case3 h i size l r hnl hr ih =>
    intro hib hbp hord
    have hi : i < h.tree_index.length := lt_trans (lt_bin_right i) hr.1
    have hnl2 : ¬ (bin_left i < h.tree_index.length ∧
        keyAt h (bin_left i) < keyAt h i) := by
      intro hh
      exact hnl ⟨hh.1, (heap_compare_iff h _ _).mpr hh.2⟩
    have hstep := down_step_r h i hord hnl2 hr.1 ((heap_compare_iff h _ _).mp hr.2)
    have hres := ih (swap_InBounds h i (bin_right i) hi hr.1 hib)
      (swap_BackPtr h i (bin_right i) hi hr.1 hib hbp) hstep
    have heq : h.heap_down i = (h.heap_swap i (bin_right i)).heap_down (bin_right i) := by
      rw [heap_down]
      simp only [hnl, dif_neg, not_false_iff, hr.1, hr.2, and_self, dif_pos]
    rw [heq]
    refine ⟨hres.1, hres.2.1, hres.2.2.1, ?_, ?_, ?_, ?_, ?_, ?_, ?_⟩
    · rw [hres.2.2.2.1, swap_ti_length]
    · rw [hres.2.2.2.2.1, swap_node_length]
    · rw [hres.2.2.2.2.2.1, swap_free]
    · intro s
      rw [hres.2.2.2.2.2.2.1 s, swap_slotVal]
    · intro t
      rw [hres.2.2.2.2.2.2.2.1 t, swap_mem_ti h i (bin_right i) hi hr.1]
    · intro fl hfo
      exact hres.2.2.2.2.2.2.2.2.1 fl (swap_FreeOk h i (bin_right i) hi hr.1 fl hfo)
    · intro s hs
      rw [hres.2.2.2.2.2.2.2.2.2 s
        (fun hh => hs ((swap_mem_ti h i (bin_right i) hi hr.1 s).mp hh))]
      exact swap_getNode_outside h i (bin_right i) hi hr.1 s hs
  | case4 h i size l r hnl hnr =>
    intro hib hbp hord
    have hnl2 : ¬ (bin_left i < h.tree_index.length ∧
        keyAt h (bin_left i) < keyAt h i) := by
      intro hh
      exact hnl ⟨hh.1, (heap_compare_iff h _ _).mpr hh.2⟩
    have hnr2 : ¬ (bin_right i < h.tree_index.length ∧
        keyAt h (bin_right i) < keyAt h i) := by
      intro hh
      exact hnr ⟨hh.1, (heap_compare_iff h _ _).mpr hh.2⟩
    have heq : h.heap_down i = h := by
      rw [heap_down]
      simp only [hnl, dif_neg, not_false_iff, hnr]
    rw [heq]
    exact ⟨hib, hbp, down_step_done h i hord hnl2 hnr2, rfl, rfl, rfl,
      fun s => rfl, fun t => Iff.rfl, fun fl hfo => hfo, fun s _ => rfl⟩

/-- Sift-up step: swapping a violating child with its parent moves the
violation up. -/
theorem up_step (h : MinHeap K V) (i : Nat) (hi : i < h.tree_index.length)
    (h0 : ¬ i = 0) (hord : HeapOrdExceptUp h i)
    (hcmp : ¬ keyAt h (bin_parent i) < keyAt h i) :
    HeapOrdExceptUp (h.heap_swap (bin_parent i) i) (bin_parent i) := by
  have hp : bin_parent i < h.tree_index.length :=
    lt_trans (bin_parent_lt i (Nat.pos_of_ne_zero h0)) hi
  have hpi : bin_parent i < i := bin_parent_lt i (Nat.pos_of_ne_zero h0)
  constructor
  · intro c hc0 hclen hcp
    rw [swap_ti_length] at hclen
    rw [swap_keyAt h (bin_parent i) i hp hi (bin_parent c),
        swap_keyAt h (bin_parent i) i hp hi c]
    by_cases hci : c = i
    · have hpc : bin_parent c = bin_parent i := by rw [hci]
      rw [if_pos hci, hpc, if_neg (Nat.ne_of_lt hpi), if_pos rfl]
      exact le_of_not_lt hcmp
    · rw [if_neg hci]
      by_cases hcp2 : c = bin_parent i
      · exact absurd hcp2 hcp
      · rw [if_neg hcp2]
        by_cases hpci : bin_parent c = i
        · rw [if_pos hpci]
          exact hord.2 c hc0 hclen hpci (Nat.pos_of_ne_zero h0)
        · rw [if_neg hpci]
          by_cases hpcp : bin_parent c = bin_parent i
          · rw [if_pos hpcp]
            calc keyAt h i ≤ keyAt h (bin_parent i) := le_of_not_lt hcmp
              _ = keyAt h (bin_parent c) := by rw [hpcp]
              _ ≤ keyAt h c := hord.1 c hc0 hclen hci
          · rw [if_neg hpcp]
            exact hord.1 c hc0 hclen hci
  · intro c hc0 hclen hpc hppos
    rw [swap_ti_length] at hclen
    have hpp : bin_parent (bin_parent i) < bin_parent i := bin_parent_lt _ hppos
    rw [swap_keyAt h (bin_parent i) i hp hi (bin_parent (bin_parent i)),
        swap_keyAt h (bin_parent i) i hp hi c]
    rw [if_neg (Nat.ne_of_lt (lt_trans hpp hpi)), if_neg (Nat.ne_of_lt hpp)]
    by_cases hci : c = i
    · rw [if_pos hci]
      calc keyAt h (bin_parent (bin_parent i)) ≤ keyAt h (bin_parent i) := by
            have := hord.1 (bin_parent i) hppos hp (Nat.ne_of_lt hpi)
            exact this
        _ = keyAt h (bin_parent i) := rfl
    · rw [if_neg hci]
      by_cases hcp2 : c = bin_parent i
      · have : bin_parent c < c := bin_parent_lt c hc0
        rw [hpc] at this
        omega
      · rw [if_neg hcp2]
        calc keyAt h (bin_parent (bin_parent i)) ≤ keyAt h (bin_parent i) :=
            hord.1 (bin_parent i) hppos hp (Nat.ne_of_lt hpi)
          _ = keyAt h (bin_parent c) := by rw [hpc]
          _ ≤ keyAt h c := hord.1 c hc0 hclen hci

/-- Full specification of `heap_up`. -/
theorem heap_up_spec (h : MinHeap K V) (i : Nat) :
    i < h.tree_index.length → InBounds h → BackPtr h → HeapOrdExceptUp h i →
    InBounds (h.heap_up i) ∧ BackPtr (h.heap_up i) ∧ HeapOrd (h.heap_up i) ∧
    (h.heap_up i).tree_index.length = h.tree_index.length ∧
    (h.heap_up i).node.length = h.node.length ∧
    (h.heap_up i).free = h.free ∧
    (∀ s, slotVal (h.heap_up i) s = slotVal h s) ∧
    (∀ t, t ∈ (h.heap_up i).tree_index ↔ t ∈ h.tree_index) ∧
    (∀ fl, FreeOk h fl → FreeOk (h.heap_up i) fl) ∧
    (∀ s, s ∉ h.tree_index → (h.heap_up i).getNode s = h.getNode s) := by
  induction h, i using heap_up.induct with
  | case1 h =>
    intro hi hib hbp hord
    have heq : h.heap_up 0 = h := by
      rw [heap_up]
      simp
    rw [heq]
    refine ⟨hib, hbp, ?_, rfl, rfl, rfl, fun s => rfl, fun t => Iff.rfl, fun fl hfo => hfo,
      fun s _ => rfl⟩
    intro c hc0 hclen
    exact hord.1 c hc0 hclen (by omega)
  | case2 h i h0 p hcmp =>
    intro hi hib hbp hord
    have heq : h.heap_up i = h := by
      rw [heap_up, dif_neg h0]
      show (if h.heap_compare (bin_parent i) i = true then h
        else (h.heap_swap (bin_parent i) i).heap_up (bin_parent i)) = h
      rw [if_pos hcmp]
    rw [heq]
    refine ⟨hib, hbp, ?_, rfl, rfl, rfl, fun s => rfl, fun t => Iff.rfl, fun fl hfo => hfo,
      fun s _ => rfl⟩
    intro c hc0 hclen
    by_cases hci : c = i
    · rw [hci]
      exact le_of_lt ((heap_compare_iff h _ _).mp hcmp)
    · exact hord.1 c hc0 hclen hci
  | case3 h i h0 p hcmp ih =>
    intro hi hib hbp hord
    have hp : bin_parent i < h.tree_index.length :=
      lt_trans (bin_parent_lt i (Nat.pos_of_ne_zero h0)) hi
    have hncmp : ¬ keyAt h (bin_parent i) < keyAt h i := by
      intro hh
      exact hcmp ((heap_compare_iff h _ _).mpr hh)
    have hstep := up_step h i hi h0 hord hncmp
    have hres := ih (by rw [swap_ti_length]; exact hp)
      (swap_InBounds h (bin_parent i) i hp hi hib)
      (swap_BackPtr h (bin_parent i) i hp hi hib hbp) hstep
    have heq : h.heap_up i = (h.heap_swap (bin_parent i) i).heap_up (bin_parent i) := by
      rw [heap_up, dif_neg h0]
      show (if h.heap_compare (bin_parent i) i = true then h
        else (h.heap_swap (bin_parent i) i).heap_up (bin_parent i)) = _
      rw [if_neg hcmp]
    rw [heq]
    refine ⟨hres.1, hres.2.1, hres.2.2.1, ?_, ?_, ?_, ?_, ?_, ?_, ?_⟩
    · rw [hres.2.2.2.1, swap_ti_length]
    · rw [hres.2.2.2.2.1, swap_node_length]
    · rw [hres.2.2.2.2.2.1, swap_free]
    · intro s
      rw [hres.2.2.2.2.2.2.1 s, swap_slotVal]
    · intro t
      rw [hres.2.2.2.2.2.2.2.1 t, swap_mem_ti h (bin_parent i) i hp hi]
    · intro fl hfo
      exact hres.2.2.2.2.2.2.2.2.1 fl (swap_FreeOk h (bin_parent i) i hp hi fl hfo)
    · intro s hs
      rw [hres.2.2.2.2.2.2.2.2.2 s
        (fun hh => hs ((swap_mem_ti h (bin_parent i) i hp hi s).mp hh))]
      exact swap_getNode_outside h (bin_parent i) i hp hi s hs

/-- One promote step of `remove`: the unconditional parent swap moves the
"hole" up while keeping every edge not incident to it ordered. -/
theorem promote_step (h : MinHeap K V) (i : Nat) (hi : i < h.tree_index.length)
    (h0 : ¬ i = 0) (hord : HeapOrdExceptAround h i) :
    HeapOrdExceptAround (h.heap_swap (bin_parent i) i) (bin_parent i) := by
  have hpi : bin_parent i < i := bin_parent_lt i (Nat.pos_of_ne_zero h0)
  have hp : bin_parent i < h.tree_index.length := lt_trans hpi hi
  constructor
  · intro c hc0 hclen hcp hcnp
    rw [swap_ti_length] at hclen
    rw [swap_keyAt h (bin_parent i) i hp hi (bin_parent c),
        swap_keyAt h (bin_parent i) i hp hi c]
    by_cases hci : c = i
    · exact absurd (by rw [hci] : bin_parent c = bin_parent i) hcp
    · rw [if_neg hci, if_neg hcnp]
      by_cases hpci : bin_parent c = i
      · rw [if_pos hpci]
        exact hord.2 c hc0 hclen hpci (Nat.pos_of_ne_zero h0)
      · rw [if_neg hpci, if_neg hcp]
        exact hord.1 c hc0 hclen hpci hci
  · intro c hc0 hclen hpc hppos
    rw [swap_ti_length] at hclen
    have hpp : bin_parent (bin_parent i) < bin_parent i := bin_parent_lt _ hppos
    rw [swap_keyAt h (bin_parent i) i hp hi (bin_parent (bin_parent i)),
        swap_keyAt h (bin_parent i) i hp hi c]
    rw [if_neg (Nat.ne_of_lt (lt_trans hpp hpi)), if_neg (Nat.ne_of_lt hpp)]
    by_cases hci : c = i
    · rw [if_pos hci]
      exact hord.1 (bin_parent i) hppos hp (Nat.ne_of_lt (lt_trans hpp hpi))
        (Nat.ne_of_lt hpi)
    · rw [if_neg hci]
      by_cases hcp2 : c = bin_parent i
      · have : bin_parent c < c := bin_parent_lt c hc0
        rw [hpc] at this
        omega
      · rw [if_neg hcp2]
        calc keyAt h (bin_parent (bin_parent i)) ≤ keyAt h (bin_parent i) :=
            hord.1 (bin_parent i) hppos hp (Nat.ne_of_lt (lt_trans hpp hpi))
              (Nat.ne_of_lt hpi)
          _ = keyAt h (bin_parent c) := by rw [hpc]
          _ ≤ keyAt h c := hord.1 c hc0 hclen (by rw [hpc]; exact Nat.ne_of_lt hpi) hci

/-- A fully ordered heap is in particular almost-ordered around any
position. -/
theorem HeapOrd.exceptAround (h : MinHeap K V) (i : Nat) (hord : HeapOrd h) :
    HeapOrdExceptAround h i := by
  constructor
  · intro c hc0 hclen _ _
    exact hord c hc0 hclen
  · intro c hc0 hclen hpc hppos
    have h1 := bin_parent_lt c hc0
    rw [hpc] at h1
    have hilen : i < h.tree_index.length := lt_trans h1 hclen
    calc keyAt h (bin_parent i) ≤ keyAt h i := hord i hppos hilen
      _ ≤ keyAt h c := by
          rw [← hpc]
          exact hord c hc0 hclen

/-- Full specification of the promote loop: the slot at position `i`
reaches the root and every edge not leaving the root stays ordered. -/
theorem remove_promote_spec (h : MinHeap K V) (i : Nat) :
    i < h.tree_index.length → InBounds h → BackPtr h → HeapOrdExceptAround h i →
    InBounds (h.remove_promote i) ∧ BackPtr (h.remove_promote i) ∧
    HeapOrdExceptAround (h.remove_promote i) 0 ∧
    (h.remove_promote i).tree_index.length = h.tree_index.length ∧
    (h.remove_promote i).node.length = h.node.length ∧
    (h.remove_promote i).free = h.free ∧
    (∀ s, slotVal (h.remove_promote i) s = slotVal h s) ∧
    (∀ t, t ∈ (h.remove_promote i).tree_index ↔ t ∈ h.tree_index) ∧
    (∀ fl, FreeOk h fl → FreeOk (h.remove_promote i) fl) ∧
    (∀ s, s ∉ h.tree_index → (h.remove_promote i).getNode s = h.getNode s) ∧
    (h.remove_promote i).tree_index.getD 0 0 = h.tree_index.getD i 0 := by
  induction h, i using remove_promote.induct with
  | case1 h =>
    intro hi hib hbp hord
    have heq : h.remove_promote 0 = h := by
      rw [remove_promote]
      simp
    rw [heq]
    exact ⟨hib, hbp, hord, rfl, rfl, rfl, fun s => rfl, fun t => Iff.rfl,
      fun fl hfo => hfo, fun s _ => rfl, rfl⟩
  | case2 h i h0 ih =>
    intro hi hib hbp hord
    have hpi : bin_parent i < i := bin_parent_lt i (Nat.pos_of_ne_zero h0)
    have hp : bin_parent i < h.tree_index.length := lt_trans hpi hi
    have hstep := promote_step h i hi h0 hord
    have hres := ih (by rw [swap_ti_length]; exact hp)
      (swap_InBounds h (bin_parent i) i hp hi hib)
      (swap_BackPtr h (bin_parent i) i hp hi hib hbp) hstep
    have heq : h.remove_promote i =
        (h.heap_swap (bin_parent i) i).remove_promote (bin_parent i) := by
      rw [remove_promote]
      simp only [h0, dif_neg, not_false_iff]
    rw [heq]
    refine ⟨hres.1, hres.2.1, hres.2.2.1, ?_, ?_, ?_, ?_, ?_, ?_, ?_, ?_⟩
    · rw [hres.2.2.2.1, swap_ti_length]
    · rw [hres.2.2.2.2.1, swap_node_length]
    · rw [hres.2.2.2.2.2.1, swap_free]
    · intro s
      rw [hres.2.2.2.2.2.2.1 s, swap_slotVal]
    · intro t
      rw [hres.2.2.2.2.2.2.2.1 t, swap_mem_ti h (bin_parent i) i hp hi]
    · intro fl hfo
      exact hres.2.2.2.2.2.2.2.2.1 fl (swap_FreeOk h (bin_parent i) i hp hi fl hfo)
    · intro s hs
      rw [hres.2.2.2.2.2.2.2.2.2.1 s
        (fun hh => hs ((swap_mem_ti h (bin_parent i) i hp hi s).mp hh))]
      exact swap_getNode_outside h (bin_parent i) i hp hi s hs
    · rw [hres.2.2.2.2.2.2.2.2.2.2, swap_ti_getD h (bin_parent i) i hp hi (bin_parent i)]
      by_cases hpe : bin_parent i = i
      · rw [if_pos hpe, hpe]
      · rw [if_neg hpe, if_pos rfl]

/-- `getD` of `dropLast` at an in-range position. -/
theorem getD_dropLast {A : Type} (l : List A) (c : Nat) (hc : c < l.length - 1) (d : A) :
    l.dropLast.getD c d = l.getD c d := by
  have hcl : c < l.length := by omega
  rw [List.dropLast_eq_take]
  simp [List.getD_eq_getElem?_getD, List.getElem?_take, hc, List.getElem?_eq_getElem hcl]

/-- In a fully ordered heap the root key is a lower bound for every
tree position. -/
theorem root_min (h : MinHeap K V) (hord : HeapOrd h) (c : Nat)
    (hc : c < h.tree_index.length) : keyAt h 0 ≤ keyAt h c := by
  induction c using Nat.strong_induction_on with
  | _ c ih =>
    by_cases hc0 : c = 0
    · subst hc0
      exact le_refl _
    · have hplt := bin_parent_lt c (Nat.pos_of_ne_zero hc0)
      exact le_trans (ih (bin_parent c) hplt (lt_trans hplt hc))
        (hord c (Nat.pos_of_ne_zero hc0) hc)

/-- `pop_min` on a nonempty heap, written through `pop_state`. -/
theorem pop_min_eq (h : MinHeap K V) (h0 : ¬ h.tree_index.length = 0) :
    h.pop_min = (some ((h.pop_state).getNode (h.tree_index.getD 0 0)).user_data,
      ((h.pop_state).node_drop (h.tree_index.getD 0 0)).2) := by
  rw [pop_min, if_neg h0]
  rfl

/-- `pop_min_with_value` on a nonempty heap, written through `pop_state`. -/
theorem pop_min_with_value_eq (h : MinHeap K V) (h0 : ¬ h.tree_index.length = 0) :
    h.pop_min_with_value =
      (some (((h.pop_state).getNode (h.tree_index.getD 0 0)).value,
        ((h.pop_state).getNode (h.tree_index.getD 0 0)).user_data),
      ((h.pop_state).node_drop (h.tree_index.getD 0 0)).2) := by
  rw [pop_min_with_value, if_neg h0]
  rfl

/-- `pop_min` on an empty heap. -/
theorem pop_min_empty (h : MinHeap K V) (h0 : h.tree_index.length = 0) :
    h.pop_min = (none, h) := by
  rw [pop_min, if_pos h0]

/-- `pop_min_with_value` on an empty heap. -/
theorem pop_min_with_value_empty (h : MinHeap K V) (h0 : h.tree_index.length = 0) :
    h.pop_min_with_value = (none, h) := by
  rw [pop_min_with_value, if_pos h0]

/-- Specification of the shared pop intermediate state: from bounds,
back-pointers and almost-order at the root, the swap-to-last / shrink /
sift-down sequence yields a fully ordered heap over the old tree minus the
old root slot, with every slot payload intact and the free list untouched. -/
theorem pop_state_spec (h : MinHeap K V) (h0 : ¬ h.tree_index.length = 0)
    (hib : InBounds h) (hbp : BackPtr h) (hord : HeapOrdExceptAround h 0) :
    InBounds h.pop_state ∧ BackPtr h.pop_state ∧ HeapOrd h.pop_state ∧
    h.pop_state.tree_index.length = h.tree_index.length - 1 ∧
    h.pop_state.node.length = h.node.length ∧
    h.pop_state.free = h.free ∧
    (∀ s, slotVal h.pop_state s = slotVal h s) ∧
    (∀ t, t ∈ h.pop_state.tree_index ↔
      (t ∈ h.tree_index ∧ t ≠ h.tree_index.getD 0 0)) ∧
    (∀ s, s ∉ h.tree_index → h.pop_state.getNode s = h.getNode s) := by
  by_cases htl : h.tree_index.length - 1 ≠ 0
  case neg =>
    have hn1 : h.tree_index.length = 1 := by omega
    have hnil : h.tree_index.dropLast = [] :=
      List.eq_nil_of_length_eq_zero (by simp [List.length_dropLast, hn1])
    have heq : h.pop_state = { h with tree_index := h.tree_index.dropLast } := by
      simp only [pop_state]
      rw [if_neg htl]
    rw [heq]
    refine ⟨?_, ?_, ?_, ?_, rfl, rfl, fun s => rfl, ?_, fun s _ => rfl⟩
    · intro c hc
      simp only [hnil] at hc
      exact absurd hc (by simp)
    · intro c hc
      simp only [hnil] at hc
      exact absurd hc (by simp)
    · intro c hc0 hc
      simp only [hnil] at hc
      exact absurd hc (by simp)
    · show h.tree_index.dropLast.length = h.tree_index.length - 1
      rw [List.length_dropLast]
    · intro t
      constructor
      · intro ht
        simp only [hnil] at ht
        exact absurd ht (List.not_mem_nil t)
      · rintro ⟨ht, hne⟩
        rcases (mem_iff_getD _ t).mp ht with ⟨c, hc, he⟩
        rw [hn1] at hc
        have hc0 : c = 0 := by omega
        subst hc0
        exact absurd he.symm hne
  case pos =>
    have hm : h.tree_index.length - 1 < h.tree_index.length := by omega
    have h0lt : 0 < h.tree_index.length := by omega
    set hs : MinHeap K V := h.heap_swap 0 (h.tree_index.length - 1) with hhs
    set hp : MinHeap K V := { hs with tree_index := hs.tree_index.dropLast } with hhp
    have hpg : ∀ s, hp.getNode s = hs.getNode s := by
      intro s
      simp [getNode, hhp]
    have hpnode : hp.node = hs.node := by simp [hhp]
    have hpfree : hp.free = hs.free := by simp [hhp]
    have hslen : hs.tree_index.length = h.tree_index.length := by
      rw [hhs, swap_ti_length]
    have heq : h.pop_state = hp.heap_down 0 := by
      simp only [pop_state]
      rw [if_pos htl, hhp, hhs]
    have hplen : hp.tree_index.length = h.tree_index.length - 1 := by
      rw [hhp]
      show hs.tree_index.dropLast.length = h.tree_index.length - 1
      rw [List.length_dropLast, hslen]
    have hpgetD : ∀ c, c < h.tree_index.length - 1 →
        hp.tree_index.getD c 0 = hs.tree_index.getD c 0 := by
      intro c hc
      rw [hhp]
      show hs.tree_index.dropLast.getD c 0 = hs.tree_index.getD c 0
      exact getD_dropLast _ c (by rw [hslen]; exact hc) 0
    have hsib : InBounds hs := by
      rw [hhs]
      exact swap_InBounds h 0 _ h0lt hm hib
    have hsbp : BackPtr hs := by
      rw [hhs]
      exact swap_BackPtr h 0 _ h0lt hm hib hbp
    have hpib : InBounds hp := by
      intro c hc
      rw [hplen] at hc
      rw [hpgetD c hc]
      have := hsib c (by rw [hslen]; omega)
      rw [show hp.node.length = hs.node.length from congrArg List.length hpnode]
      exact this
    have hpbp : BackPtr hp := by
      intro c hc
      rw [hplen] at hc
      show (hp.getNode (hp.tree_index.getD c 0)).index = c
      rw [hpgetD c hc, hpg]
      exact hsbp c (by rw [hslen]; omega)
    have hpkey : ∀ c, c < h.tree_index.length - 1 → keyAt hp c = keyAt hs c := by
      intro c hc
      show (hp.getNode (hp.tree_index.getD c 0)).value =
        (hs.getNode (hs.tree_index.getD c 0)).value
      rw [hpgetD c hc, hpg]
    have hskey : ∀ c, 0 < c → c < h.tree_index.length - 1 → keyAt hs c = keyAt h c := by
      intro c hc0 hc
      rw [hhs, swap_keyAt h 0 _ h0lt hm c, if_neg (by omega), if_neg (by omega)]
    have hpord : HeapOrdExceptDown hp 0 := by
      constructor
      · intro c hc0 hclen hpar
        rw [hplen] at hclen
        have hparlt := bin_parent_lt c hc0
        rw [hpkey c hclen, hpkey (bin_parent c) (by omega),
          hskey c hc0 hclen, hskey (bin_parent c) (Nat.pos_of_ne_zero hpar) (by omega)]
        exact hord.1 c hc0 (by omega) hpar (by omega)
      · intro c _ _ _ h00
        exact absurd h00 (lt_irrefl 0)
    have hpsv : ∀ s, slotVal hp s = slotVal h s := by
      intro s
      have h1 : slotVal hp s = slotVal hs s := by
        simp [slotVal, hpg s]
      rw [h1, hhs]
      exact swap_slotVal h 0 _ s
    have hpmem : ∀ t, t ∈ hp.tree_index ↔
        (t ∈ h.tree_index ∧ t ≠ h.tree_index.getD 0 0) := by
      intro t
      constructor
      · intro ht
        rcases (mem_iff_getD _ t).mp ht with ⟨c, hc, he⟩
        rw [hplen] at hc
        rw [show (hp.tree_index.getD c default : Nat) = hp.tree_index.getD c 0 from rfl,
          hpgetD c hc] at he
        constructor
        · have hmm : hs.tree_index.getD c 0 ∈ hs.tree_index :=
            getD_mem_ti hs c (by rw [hslen]; omega)
          rw [he] at hmm
          rw [hhs] at hmm
          exact (swap_mem_ti h 0 _ h0lt hm t).mp hmm
        · intro hts
          have hlast : hs.tree_index.getD (h.tree_index.length - 1) 0 =
              h.tree_index.getD 0 0 := by
            rw [hhs, swap_ti_getD h 0 _ h0lt hm, if_pos rfl]
          have hee : hs.tree_index.getD c 0 =
              hs.tree_index.getD (h.tree_index.length - 1) 0 := by
            rw [hlast, he, hts]
          have hceq := BackPtr_inj hs hsbp c (h.tree_index.length - 1)
            (by rw [hslen]; omega) (by rw [hslen]; omega) hee
          omega
      · rintro ⟨ht, hne⟩
        rcases (mem_iff_getD _ t).mp ht with ⟨c, hc, he⟩
        have hc0 : c ≠ 0 := by
          intro hc0
          subst hc0
          exact hne he.symm
        apply (mem_iff_getD _ t).mpr
        by_cases hcm : c = h.tree_index.length - 1
        · refine ⟨0, by rw [hplen]; omega, ?_⟩
          show hp.tree_index.getD 0 0 = t
          rw [hpgetD 0 (by omega), hhs, swap_ti_getD h 0 _ h0lt hm,
            if_neg (by omega), if_pos rfl, ← hcm]
          exact he
        · refine ⟨c, by rw [hplen]; omega, ?_⟩
          show hp.tree_index.getD c 0 = t
          rw [hpgetD c (by omega), hhs, swap_ti_getD h 0 _ h0lt hm,
            if_neg hcm, if_neg hc0]
          exact he
    have hpout : ∀ s, s ∉ h.tree_index → hp.getNode s = h.getNode s := by
      intro s hs'
      rw [hpg s, hhs]
      exact swap_getNode_outside h 0 _ h0lt hm s hs'
    have hres := heap_down_spec hp 0 hpib hpbp hpord
    rw [heq]
    refine ⟨hres.1, hres.2.1, hres.2.2.1, ?_, ?_, ?_, ?_, ?_, ?_⟩
    · rw [hres.2.2.2.1, hplen]
    · rw [hres.2.2.2.2.1,
        show hp.node.length = hs.node.length from congrArg List.length hpnode, hhs]
      exact swap_node_length h 0 _
    · rw [hres.2.2.2.2.2.1, hpfree, hhs]
      exact swap_free h 0 _
    · intro s
      rw [hres.2.2.2.2.2.2.1 s, hpsv s]
    · intro t
      rw [hres.2.2.2.2.2.2.2.1 t, hpmem t]
    · intro s hs'
      rw [hres.2.2.2.2.2.2.2.2.2 s (fun hin => hs' ((hpmem s).mp hin).1), hpout s hs']

/-- Full specification of `pop_min` on a nonempty heap: it returns the
payload of the old root slot, shrinks the tree by exactly that slot,
preserves every slot payload, re-establishes the heap order, and pushes the
freed slot onto the free list. -/
theorem pop_min_spec (h : MinHeap K V) (fl : List Nat)
    (h0 : ¬ h.tree_index.length = 0)
    (hib : InBounds h) (hbp : BackPtr h) (hord : HeapOrdExceptAround h 0)
    (hnl : h.node.length ≤ INVALID) (hfo : FreeOk h fl) :
    h.pop_min.1 = some (slotVal h (h.tree_index.getD 0 0)).2 ∧
    InBounds h.pop_min.2 ∧ BackPtr h.pop_min.2 ∧ HeapOrd h.pop_min.2 ∧
    h.pop_min.2.tree_index.length = h.tree_index.length - 1 ∧
    h.pop_min.2.node.length = h.node.length ∧
    (∀ s, slotVal h.pop_min.2 s = slotVal h s) ∧
    (∀ t, t ∈ h.pop_min.2.tree_index ↔
      (t ∈ h.tree_index ∧ t ≠ h.tree_index.getD 0 0)) ∧
    h.pop_min.2.free = h.tree_index.getD 0 0 ∧
    FreeOk h.pop_min.2 (h.tree_index.getD 0 0 :: fl) := by
  obtain ⟨psib, psbp, psord, pslen, psnode, psfree, pssv, psmem, psout⟩ :=
    pop_state_spec h h0 hib hbp hord
  have heq2 : h.pop_min.2 = { h.pop_state with
      node := h.pop_state.node.set (h.tree_index.getD 0 0)
        { h.pop_state.node.getD (h.tree_index.getD 0 0) default with
          index := h.pop_state.free },
      free := h.tree_index.getD 0 0 } := by
    rw [pop_min_eq h h0]
    rfl
  have hti2 : h.pop_min.2.tree_index = h.pop_state.tree_index := by
    rw [heq2]
  have hfree2 : h.pop_min.2.free = h.tree_index.getD 0 0 := by
    rw [heq2]
  have hnl2 : h.pop_min.2.node.length = h.pop_state.node.length := by
    rw [heq2]
    show (h.pop_state.node.set _ _).length = _
    rw [List.length_set]
  have hs0mem : h.tree_index.getD 0 0 ∈ h.tree_index := getD_mem_ti h 0 (by omega)
  have hs0lt : h.tree_index.getD 0 0 < h.node.length := hib 0 (by omega)
  have hgn2 : ∀ u, u ≠ h.tree_index.getD 0 0 →
      h.pop_min.2.getNode u = h.pop_state.getNode u := by
    intro u hu
    rw [heq2]
    show (h.pop_state.node.set _ _).getD u default = h.pop_state.node.getD u default
    rw [getD_set_ne _ _ u (fun hh => hu hh.symm)]
  have hsv2 : ∀ u, slotVal h.pop_min.2 u = slotVal h.pop_state u := by
    intro u
    rw [heq2]
    have hpr := getD_set_index_preserves h.pop_state.node (h.tree_index.getD 0 0)
      { h.pop_state.node.getD (h.tree_index.getD 0 0) default with
        index := h.pop_state.free } rfl rfl
    simp only [slotVal, getNode, Prod.mk.injEq]
    exact ⟨(hpr u).1, (hpr u).2⟩
  have hib2 : InBounds h.pop_min.2 := by
    intro c hc
    rw [hti2] at hc ⊢
    rw [hnl2]
    exact psib c hc
  have hbp2 : BackPtr h.pop_min.2 := by
    intro c hc
    rw [hti2] at hc ⊢
    have hmem : h.pop_state.tree_index.getD c 0 ∈ h.pop_state.tree_index :=
      getD_mem_ti _ c hc
    rw [hgn2 _ ((psmem _).mp hmem).2]
    exact psbp c hc
  have hkey2 : ∀ c, c < h.pop_state.tree_index.length →
      keyAt h.pop_min.2 c = keyAt h.pop_state c := by
    intro c hc
    show (h.pop_min.2.getNode (h.pop_min.2.tree_index.getD c 0)).value = _
    rw [hti2]
    have hmem : h.pop_state.tree_index.getD c 0 ∈ h.pop_state.tree_index :=
      getD_mem_ti _ c hc
    rw [hgn2 _ ((psmem _).mp hmem).2]
    rfl
  have hord2 : HeapOrd h.pop_min.2 := by
    intro c hc0 hc
    rw [hti2] at hc
    rw [hkey2 c hc, hkey2 (bin_parent c) (lt_trans (bin_parent_lt c hc0) hc)]
    exact psord c hc0 hc
  have hfst : h.pop_min.1 = some (slotVal h (h.tree_index.getD 0 0)).2 := by
    rw [pop_min_eq h h0]
    show some (h.pop_state.getNode (h.tree_index.getD 0 0)).user_data = _
    have h2 := congrArg Prod.snd (pssv (h.tree_index.getD 0 0))
    simp only [slotVal] at h2
    rw [h2]
    rfl
  obtain ⟨hch, hnd, hdis, hcov⟩ := hfo
  have hfo2 : FreeOk h.pop_min.2 (h.tree_index.getD 0 0 :: fl) := by
    refine ⟨?_, ?_, ?_, ?_⟩
    · rw [hfree2]
      refine FreeChain.cons _ _ fl ?_ ?_ ?_
      · rw [hnl2, psnode]
        exact hs0lt
      · have := hnl
        omega
      · have hidx : (h.pop_min.2.node.getD (h.tree_index.getD 0 0) default).index
            = h.free := by
          rw [heq2]
          show ((h.pop_state.node.set _ _).getD _ default).index = _
          rw [getD_set_self h.pop_state.node (h.tree_index.getD 0 0)
            (by rw [psnode]; exact hs0lt) _ _]
          show h.pop_state.free = h.free
          exact psfree
        rw [hidx]
        refine FreeChain_congr h.node _ h.free fl ?_ hch ?_
        · rw [hnl2, psnode]
        · intro u hu
          have hunot : u ∉ h.tree_index := hdis u hu
          have hune : u ≠ h.tree_index.getD 0 0 := fun hh => hunot (hh ▸ hs0mem)
          exact (hgn2 u hune).trans (psout u hunot)
    · refine List.nodup_cons.mpr ⟨?_, hnd⟩
      intro hmem'
      exact hdis _ hmem' hs0mem
    · intro u hu
      rcases List.mem_cons.mp hu with h1 | h1
      · subst h1
        intro hin
        rw [hti2] at hin
        exact ((psmem _).mp hin).2 rfl
      · intro hin
        rw [hti2] at hin
        exact hdis u h1 ((psmem u).mp hin).1
    · intro u hu
      rw [hnl2, psnode] at hu
      rcases hcov u hu with h1 | h1
      · by_cases h2 : u = h.tree_index.getD 0 0
        · exact Or.inr (by rw [h2]; exact List.mem_cons_self _ _)
        · refine Or.inl ?_
          rw [hti2]
          exact (psmem u).mpr ⟨h1, h2⟩
      · exact Or.inr (List.mem_cons_of_mem _ h1)
  refine ⟨hfst, hib2, hbp2, hord2, ?_, ?_, ?_, ?_, hfree2, hfo2⟩
  · rw [hti2]
    exact pslen
  · rw [hnl2]
    exact psnode
  · intro u
    exact (hsv2 u).trans (pssv u)
  · intro t
    rw [hti2]
    exact psmem t

/-- `pop_min_with_value` returns the old root slot key/payload pair and
reaches exactly the state of `pop_min`. -/
theorem pop_min_with_value_spec (h : MinHeap K V)
    (h0 : ¬ h.tree_index.length = 0)
    (hib : InBounds h) (hbp : BackPtr h) (hord : HeapOrdExceptAround h 0) :
    h.pop_min_with_value.1 = some (slotVal h (h.tree_index.getD 0 0)) ∧
    h.pop_min_with_value.2 = h.pop_min.2 := by
  obtain ⟨psib, psbp, psord, pslen, psnode, psfree, pssv, psmem, psout⟩ :=
    pop_state_spec h h0 hib hbp hord
  constructor
  · rw [pop_min_with_value_eq h h0]
    show some ((h.pop_state.getNode (h.tree_index.getD 0 0)).value,
      (h.pop_state.getNode (h.tree_index.getD 0 0)).user_data) = _
    have h2 := pssv (h.tree_index.getD 0 0)
    simp only [slotVal] at h2
    rw [show ((h.pop_state.getNode (h.tree_index.getD 0 0)).value,
        (h.pop_state.getNode (h.tree_index.getD 0 0)).user_data)
        = slotVal h.pop_state (h.tree_index.getD 0 0) from rfl]
    rw [pssv]
  · rw [pop_min_with_value_eq h h0, pop_min_eq h h0]

/-- `getD` at the appended position of `l ++ [a]`. -/
theorem getD_append_length {A : Type} (l : List A) (a d : A) :
    (l ++ [a]).getD l.length d = a := by
  simp [List.getD_eq_getElem?_getD, List.getElem?_append_right]

/-- Inversion of a nonempty free chain. -/
theorem FreeChain_inv_cons (node : List (Node K V)) (f : Nat) (fl : List Nat)
    (hf : f ≠ INVALID) (hch : FreeChain node f fl) :
    f < node.length ∧ FreeChain node (node.getD f default).index fl.tail ∧
      fl = f :: fl.tail := by
  cases hch with
  | nil => exact absurd rfl hf
  | cons a rest h1 h2 h3 => exact ⟨h1, h3, rfl⟩

/-- The state of `insert` after appending the fresh slot at the last tree
position, before the sift-up: bounds, back-pointers and almost-order hold,
and the new slot carries exactly the inserted pair. -/
theorem insert_tail_state_spec (h g : MinHeap K V) (w : Nat) (k : K) (v : V)
    (hib : InBounds h) (hbp : BackPtr h) (hord : HeapOrd h)
    (hgti : g.tree_index = h.tree_index ++ [w])
    (hgw : g.getNode w = ⟨k, v, h.tree_index.length⟩)
    (hgu : ∀ u, u ≠ w → g.getNode u = h.getNode u)
    (hwnot : w ∉ h.tree_index)
    (hwlt : w < g.node.length)
    (hmono : h.node.length ≤ g.node.length) :
    InBounds g ∧ BackPtr g ∧ HeapOrdExceptUp g h.tree_index.length ∧
    g.tree_index.length = h.tree_index.length + 1 ∧
    slotVal g w = (k, v) ∧
    (∀ u, u ≠ w → slotVal g u = slotVal h u) ∧
    (∀ t, t ∈ g.tree_index ↔ (t = w ∨ t ∈ h.tree_index)) := by
  have hlen : g.tree_index.length = h.tree_index.length + 1 := by
    rw [hgti]
    simp
  have hget : ∀ c, c < h.tree_index.length →
      g.tree_index.getD c 0 = h.tree_index.getD c 0 := by
    intro c hc
    rw [hgti]
    exact List.getD_append _ _ 0 c hc
  have hgetn : g.tree_index.getD h.tree_index.length 0 = w := by
    rw [hgti]
    exact getD_append_length h.tree_index w 0
  have hslotne : ∀ c, c < h.tree_index.length → h.tree_index.getD c 0 ≠ w := by
    intro c hc hh
    exact hwnot (hh ▸ getD_mem_ti h c hc)
  have hkeyg : ∀ c, c < h.tree_index.length → keyAt g c = keyAt h c := by
    intro c hc
    show (g.getNode (g.tree_index.getD c 0)).value = (h.getNode (h.tree_index.getD c 0)).value
    rw [hget c hc, hgu _ (hslotne c hc)]
  refine ⟨?_, ?_, ?_, hlen, ?_, ?_, ?_⟩
  · intro c hc
    rw [hlen] at hc
    by_cases hcn : c = h.tree_index.length
    · subst hcn
      rw [hgetn]
      exact hwlt
    · rw [hget c (by omega)]
      exact lt_of_lt_of_le (hib c (by omega)) hmono
  · intro c hc
    rw [hlen] at hc
    by_cases hcn : c = h.tree_index.length
    · subst hcn
      show (g.getNode (g.tree_index.getD h.tree_index.length 0)).index = _
      rw [hgetn, hgw]
    · show (g.getNode (g.tree_index.getD c 0)).index = c
      rw [hget c (by omega), hgu _ (hslotne c (by omega))]
      exact hbp c (by omega)
  · constructor
    · intro c hc0 hclen hcn
      rw [hlen] at hclen
      have hplt := bin_parent_lt c hc0
      rw [hkeyg c (by omega), hkeyg (bin_parent c) (by omega)]
      exact hord c hc0 (by omega)
    · intro c hc0 hclen hpar hn0
      rw [hlen] at hclen
      have hplt := bin_parent_lt c hc0
      rw [hpar] at hplt
      exact absurd hclen (by omega)
  · simp [slotVal, hgw]
  · intro u hu
    simp [slotVal, hgu u hu]
  · intro t
    rw [hgti, List.mem_append, List.mem_singleton]
    exact or_comm

/-- `insert_tail_state_spec` followed by the sift-up: the complete effect
of `insert` given the appended mid-state. -/
theorem insert_combined_spec (h g : MinHeap K V) (w : Nat) (k : K) (v : V)
    (fl2 : List Nat)
    (hib : InBounds h) (hbp : BackPtr h) (hord : HeapOrd h)
    (hgti : g.tree_index = h.tree_index ++ [w])
    (hgw : g.getNode w = ⟨k, v, h.tree_index.length⟩)
    (hgu : ∀ u, u ≠ w → g.getNode u = h.getNode u)
    (hwnot : w ∉ h.tree_index)
    (hwlt : w < g.node.length)
    (hmono : h.node.length ≤ g.node.length)
    (hgnl : g.node.length ≤ INVALID)
    (hfo2 : FreeOk g fl2) :
    InBounds (g.heap_up h.tree_index.length) ∧ BackPtr (g.heap_up h.tree_index.length) ∧
    HeapOrd (g.heap_up h.tree_index.length) ∧
    (g.heap_up h.tree_index.length).tree_index.length = h.tree_index.length + 1 ∧
    (g.heap_up h.tree_index.length).node.length ≤ INVALID ∧
    slotVal (g.heap_up h.tree_index.length) w = (k, v) ∧
    (∀ u, u ≠ w → slotVal (g.heap_up h.tree_index.length) u = slotVal h u) ∧
    (∀ t, t ∈ (g.heap_up h.tree_index.length).tree_index ↔ (t = w ∨ t ∈ h.tree_index)) ∧
    FreeOk (g.heap_up h.tree_index.length) fl2 := by
  obtain ⟨gib, gbp, gordU, glen, gsw, gsu, gmem⟩ :=
    insert_tail_state_spec h g w k v hib hbp hord hgti hgw hgu hwnot hwlt hmono
  have hn : h.tree_index.length < g.tree_index.length := by
    rw [glen]
    omega
  have hup := heap_up_spec g h.tree_index.length hn gib gbp gordU
  exact ⟨hup.1, hup.2.1, hup.2.2.1,
    (hup.2.2.2.1).trans glen,
    by rw [hup.2.2.2.2.1]; exact hgnl,
    (hup.2.2.2.2.2.2.1 w).trans gsw,
    fun u hu => (hup.2.2.2.2.2.2.1 u).trans (gsu u hu),
    fun t => (hup.2.2.2.2.2.2.2.1 t).trans (gmem t),
    hup.2.2.2.2.2.2.2.2.1 fl2 hfo2⟩

/-- Full specification of `insert`: the returned handle is a fresh valid
slot holding the inserted pair, the tree grows by that slot, every other
slot is untouched, and well-formedness is preserved. -/
theorem insert_spec (h : MinHeap K V) (k : K) (v : V) (fl : List Nat)
    (hib : InBounds h) (hbp : BackPtr h) (hord : HeapOrd h)
    (hnl : h.node.length ≤ INVALID) (htl : h.tree_index.length < INVALID)
    (hfo : FreeOk h fl) :
    (h.insert k v).1.val ∉ h.tree_index ∧
    (h.insert k v).1.val ≠ INVALID ∧
    InBounds (h.insert k v).2 ∧ BackPtr (h.insert k v).2 ∧ HeapOrd (h.insert k v).2 ∧
    (h.insert k v).2.tree_index.length = h.tree_index.length + 1 ∧
    (h.insert k v).2.node.length ≤ INVALID ∧
    slotVal (h.insert k v).2 (h.insert k v).1.val = (k, v) ∧
    (∀ u, u ≠ (h.insert k v).1.val → slotVal (h.insert k v).2 u = slotVal h u) ∧
    (∀ t, t ∈ (h.insert k v).2.tree_index ↔
      (t = (h.insert k v).1.val ∨ t ∈ h.tree_index)) ∧
    (∃ fl2, FreeOk (h.insert k v).2 fl2 ∧ ∀ u ∈ fl2, u ∈ fl) := by
  obtain ⟨hch, hnd, hdis, hcov⟩ := hfo
  by_cases hfree : h.free = INVALID
  · -- push branch: the free list is empty and a fresh slot is appended
    have hfl : fl = [] := by
      have hch2 := hch
      rw [hfree] at hch2
      cases hch2 with
      | nil => rfl
      | cons a rest h1 h2 h3 => exact absurd rfl h2
    have hcount : h.node.length ≤ h.tree_index.length := by
      have hsub : List.range h.node.length ⊆ h.tree_index := by
        intro u hu
        rcases hcov u (List.mem_range.mp hu) with h1 | h1
        · exact h1
        · rw [hfl] at h1
          exact absurd h1 (List.not_mem_nil u)
      have := (List.subperm_of_subset (List.nodup_range _) hsub).length_le
      simpa using this
    have hwINV : h.node.length < INVALID := lt_of_le_of_lt hcount htl
    set gA : MinHeap K V := { h with tree_index := h.tree_index ++ [h.node.length], node := h.node ++ [⟨k, v, h.tree_index.length⟩] } with hgA
    have heqA : h.insert k v = (⟨h.node.length⟩,
        MinHeap.heap_up gA h.tree_index.length) := by
      simp only [insert, node_take]
      rw [if_pos hfree, hgA]
    have hgAnode : gA.node = h.node ++ [⟨k, v, h.tree_index.length⟩] := by
      rw [hgA]
    have hgAti : gA.tree_index = h.tree_index ++ [h.node.length] := by
      rw [hgA]
    have hgAfree : gA.free = h.free := by
      rw [hgA]
    have hwnotA : h.node.length ∉ h.tree_index := by
      intro hmem
      rcases (mem_iff_getD _ _).mp hmem with ⟨c, hc, he⟩
      have := hib c hc
      rw [← he] at this
      exact absurd this (lt_irrefl _)
    have hgwA : gA.getNode h.node.length = ⟨k, v, h.tree_index.length⟩ := by
      show gA.node.getD h.node.length default = _
      rw [hgAnode]
      exact getD_append_length h.node _ _
    have hguA : ∀ u, u ≠ h.node.length → gA.getNode u = h.getNode u := by
      intro u hu
      show gA.node.getD u default = h.node.getD u default
      rw [hgAnode]
      by_cases hult : u < h.node.length
      · exact List.getD_append _ _ default u hult
      · rw [getD_ge_length _ u (by simp; omega) default,
          getD_ge_length _ u (by omega) default]
    have hgAlen : gA.node.length = h.node.length + 1 := by
      rw [hgAnode]
      simp
    have hfoA : FreeOk gA [] := by
      refine ⟨?_, List.nodup_nil, ?_, ?_⟩
      · rw [hgAfree, hfree]
        exact FreeChain.nil _
      · intro u hu
        exact absurd hu (List.not_mem_nil u)
      · intro u hu
        rw [hgAlen] at hu
        refine Or.inl ?_
        rw [hgAti, List.mem_append, List.mem_singleton]
        by_cases hun : u = h.node.length
        · exact Or.inr hun
        · refine Or.inl ?_
          rcases hcov u (by omega) with h1 | h1
          · exact h1
          · rw [hfl] at h1
            exact absurd h1 (List.not_mem_nil u)
    obtain ⟨c1, c2, c3, c4, c5, c6, c7, c8, c9⟩ :=
      insert_combined_spec h gA h.node.length k v [] hib hbp hord hgAti hgwA hguA
        hwnotA (by rw [hgAlen]; omega) (by rw [hgAlen]; omega) (by rw [hgAlen]; omega) hfoA
    rw [heqA]
    exact ⟨hwnotA, Nat.ne_of_lt hwINV, c1, c2, c3, c4, c5, c6, c7, c8,
      ⟨[], c9, fun u hu => absurd hu (List.not_mem_nil u)⟩⟩
  · -- reuse branch: pop the head of the free list
    obtain ⟨hflt, hchtail, hfltail⟩ := FreeChain_inv_cons h.node h.free fl hfree hch
    have hfnot : h.free ∉ h.tree_index := hdis h.free (by rw [hfltail]; exact List.mem_cons_self _ _)
    have hfnotail : h.free ∉ fl.tail := by
      have := hnd
      rw [hfltail] at this
      exact (List.nodup_cons.mp this).1
    set gB : MinHeap K V := { h with tree_index := h.tree_index ++ [h.free], node := h.node.set h.free ⟨k, v, h.tree_index.length⟩, free := (h.node.getD h.free default).index } with hgB
    have heqB : h.insert k v = (⟨h.free⟩,
        MinHeap.heap_up gB h.tree_index.length) := by
      simp only [insert, node_take]
      rw [if_neg hfree, hgB]
    have hgBnode : gB.node = h.node.set h.free ⟨k, v, h.tree_index.length⟩ := by
      rw [hgB]
    have hgBti : gB.tree_index = h.tree_index ++ [h.free] := by
      rw [hgB]
    have hgBfree : gB.free = (h.node.getD h.free default).index := by
      rw [hgB]
    have hgwB : gB.getNode h.free = ⟨k, v, h.tree_index.length⟩ := by
      show gB.node.getD h.free default = _
      rw [hgBnode]
      exact getD_set_self h.node h.free hflt _ _
    have hguB : ∀ u, u ≠ h.free → gB.getNode u = h.getNode u := by
      intro u hu
      show gB.node.getD u default = h.node.getD u default
      rw [hgBnode, getD_set_ne _ _ u (fun hh => hu hh.symm)]
    have hgBlen : gB.node.length = h.node.length := by
      rw [hgBnode]
      simp
    have hfoB : FreeOk gB fl.tail := by
      refine ⟨?_, ?_, ?_, ?_⟩
      · rw [hgBfree]
        refine FreeChain_congr h.node _ _ fl.tail (by rw [hgBlen]) hchtail ?_
        intro u hu
        have hune : u ≠ h.free := fun hh => hfnotail (hh ▸ hu)
        exact hguB u hune
      · have := hnd
        rw [hfltail] at this
        exact (List.nodup_cons.mp this).2
      · intro u hu hin
        rw [hgBti, List.mem_append, List.mem_singleton] at hin
        rcases hin with h1 | h1
        · exact hdis u (by rw [hfltail]; exact List.mem_cons_of_mem _ hu) h1
        · exact hfnotail (h1 ▸ hu)
      · intro u hu
        rw [hgBlen] at hu
        rcases hcov u hu with h1 | h1
        · refine Or.inl ?_
          rw [hgBti, List.mem_append]
          exact Or.inl h1
        · rw [hfltail] at h1
          rcases List.mem_cons.mp h1 with h2 | h2
          · refine Or.inl ?_
            rw [hgBti, List.mem_append, List.mem_singleton]
            exact Or.inr h2
          · exact Or.inr h2
    obtain ⟨c1, c2, c3, c4, c5, c6, c7, c8, c9⟩ :=
      insert_combined_spec h gB h.free k v fl.tail hib hbp hord hgBti hgwB hguB
        hfnot (by rw [hgBlen]; omega) (by rw [hgBlen]) (by rw [hgBlen]; exact hnl) hfoB
    rw [heqB]
    exact ⟨hfnot, hfree, c1, c2, c3, c4, c5, c6, c7, c8,
      ⟨fl.tail, c9, fun u hu => by rw [hfltail]; exact List.mem_cons_of_mem _ hu⟩⟩

/-- Full specification of `remove` on a handle that is live in the tree:
exactly that slot leaves the tree, every slot payload is preserved, the
heap order is restored, and the slot is pushed onto the free list. -/
theorem remove_spec (h : MinHeap K V) (nh : NodeHandle) (fl : List Nat)
    (hib : InBounds h) (hbp : BackPtr h) (hord : HeapOrd h)
    (hnl : h.node.length ≤ INVALID) (hfo : FreeOk h fl)
    (hmem : nh.val ∈ h.tree_index) :
    InBounds (h.remove nh) ∧ BackPtr (h.remove nh) ∧ HeapOrd (h.remove nh) ∧
    (h.remove nh).tree_index.length = h.tree_index.length - 1 ∧
    (h.remove nh).node.length = h.node.length ∧
    (∀ s, slotVal (h.remove nh) s = slotVal h s) ∧
    (∀ t, t ∈ (h.remove nh).tree_index ↔ (t ∈ h.tree_index ∧ t ≠ nh.val)) ∧
    (h.remove nh).free = nh.val ∧
    FreeOk (h.remove nh) (nh.val :: fl) := by
  rcases (mem_iff_getD _ _).mp hmem with ⟨c, hc, he⟩
  have he0 : h.tree_index.getD c 0 = nh.val := he
  have hidx : (h.node.getD nh.val default).index = c := by
    rw [← he0]
    exact hbp c hc
  have heq : h.remove nh = (h.remove_promote c).pop_min.2 := by
    simp only [remove, hidx]
  obtain ⟨rib, rbp, rord, rlen, rnode, rfree, rsv, rmem, rfok, rout, rroot⟩ :=
    remove_promote_spec h c hc hib hbp (HeapOrd.exceptAround h c hord)
  have hne : ¬ (h.remove_promote c).tree_index.length = 0 := by
    rw [rlen]
    omega
  obtain ⟨pfst, pib, pbp, pord2, plen, pnode, psv, pmem, pfree, pfok⟩ :=
    pop_min_spec (h.remove_promote c) fl hne rib rbp rord
      (by rw [rnode]; exact hnl) (rfok fl hfo)
  have hs0 : (h.remove_promote c).tree_index.getD 0 0 = nh.val := by
    rw [rroot, he0]
  rw [heq]
  refine ⟨pib, pbp, pord2, ?_, ?_, ?_, ?_, ?_, ?_⟩
  · rw [plen, rlen]
  · rw [pnode, rnode]
  · intro s
    rw [psv s, rsv s]
  · intro t
    rw [pmem t, hs0, rmem t]
  · rw [pfree, hs0]
  · have hthis := pfok
    rw [hs0] at hthis
    exact hthis

/-- `with_capacity` produces a well-formed empty heap. -/
theorem with_capacity_WF (c : Nat) : WF (with_capacity c : MinHeap K V) := by
  refine ⟨?_, ?_, ?_, ?_, ⟨[], ?_, ?_, ?_, ?_⟩⟩
  · intro i hi
    simp [with_capacity] at hi
  · intro i hi
    simp [with_capacity] at hi
  · intro i hi0 hi
    simp [with_capacity] at hi
  · simp [with_capacity]
  · exact FreeChain.nil _
  · exact List.nodup_nil
  · intro s hs
    exact absurd hs (List.not_mem_nil s)
  · intro s hs
    simp [with_capacity] at hs

/-- Reading the liveness list after a pop kills the popped slot. -/
theorem kill_getD (handles : List (Nat × K × V)) (live : List Bool) (s : Nat)
    (i : Nat) (hi : i < handles.length) (hlen : live.length = handles.length) :
    ((handles.zip live).map (fun q => q.2 && !(q.1.1 == s))).getD i false =
      (live.getD i false && !((handles.getD i (0, default, default)).1 == s)) := by
  have hzl : (handles.zip live).length = handles.length := by
    rw [List.length_zip, hlen, Nat.min_self]
  have hil : i < live.length := by omega
  have himap : i < ((handles.zip live).map (fun q => q.2 && !(q.1.1 == s))).length := by
    rw [List.length_map]
    omega
  rw [List.getD_eq_getElem?_getD, List.getElem?_eq_getElem himap, Option.getD_some,
    List.getElem_map, List.getElem_zip,
    List.getD_eq_getElem?_getD live, List.getElem?_eq_getElem hil, Option.getD_some,
    List.getD_eq_getElem?_getD handles, List.getElem?_eq_getElem hi, Option.getD_some]

/-- The liveness list keeps its length across a pop. -/
theorem kill_length (handles : List (Nat × K × V)) (live : List Bool) (s : Nat)
    (hlen : live.length = handles.length) :
    ((handles.zip live).map (fun q => q.2 && !(q.1.1 == s))).length = handles.length := by
  rw [List.length_map, List.length_zip, hlen, Nat.min_self]

/-- `getLast?` of a nonempty list, as a `getD`. -/
theorem getLast?_eq_getD {A : Type} [Inhabited A] (l : List A) (h0 : l ≠ []) :
    l.getLast? = some (l.getD (l.length - 1) default) := by
  have hl : 0 < l.length := List.length_pos.mpr h0
  rw [List.getLast?_eq_getElem?, List.getElem?_eq_getElem (by omega),
    List.getD_eq_getElem?_getD, List.getElem?_eq_getElem (by omega), Option.getD_some]

/-- Appending a pop record preserves the guarded chain property when the
new record is bounded below by the last one (if its flag demands it). -/
theorem ChainOk_append (l : List (Bool × K × V)) (x : Bool × K × V)
    (hc : ChainOk l)
    (hx : x.1 = false → ∀ p, l.getLast? = some p → p.2.1 ≤ x.2.1) :
    ChainOk (l ++ [x]) := by
  intro i hi hflag
  rw [List.length_append, List.length_singleton] at hi
  by_cases hilast : i + 1 < l.length
  · have e1 : (l ++ [x]).getD (i + 1) default = l.getD (i + 1) default :=
      List.getD_append l [x] default (i + 1) hilast
    have e2 : (l ++ [x]).getD i default = l.getD i default :=
      List.getD_append l [x] default i (by omega)
    rw [e1] at hflag
    rw [e1, e2]
    exact hc i hilast hflag
  · have hieq : i + 1 = l.length := by omega
    have e1 : (l ++ [x]).getD (i + 1) default = x := by
      rw [hieq]
      exact getD_append_length l x default
    have e2 : (l ++ [x]).getD i default = l.getD i default :=
      List.getD_append l [x] default i (by omega)
    rw [e1] at hflag
    rw [e1, e2]
    have hlast := getLast?_eq_getD l (List.length_pos.mp (by omega))
    have hres := hx hflag _ hlast
    have hieq2 : l.length - 1 = i := by omega
    rw [hieq2] at hres
    exact hres

/-- In a fully ordered heap the root slot's key is a lower bound for the
key of every live slot. -/
theorem root_slot_min (h : MinHeap K V) (hord : HeapOrd h)
    (t : Nat) (ht : t ∈ h.tree_index) :
    (slotVal h (h.tree_index.getD 0 0)).1 ≤ (slotVal h t).1 := by
  rcases (mem_iff_getD _ t).mp ht with ⟨c, hc, he⟩
  rw [← he]
  exact root_min h hord c hc

/-- Distinct entries of a payload-deduplicated handle list carry distinct
payloads. -/
theorem payload_ne (handles : List (Nat × K × V))
    (hnd : (handles.map (fun q => q.2.2)).Nodup) (i j : Nat)
    (hi : i < handles.length) (hj : j < handles.length) (hij : i ≠ j) :
    (handles.getD i (0, default, default)).2.2 ≠
      (handles.getD j (0, default, default)).2.2 := by
  intro he
  have hmi : i < (handles.map (fun q => q.2.2)).length := by
    rw [List.length_map]
    omega
  have hmj : j < (handles.map (fun q => q.2.2)).length := by
    rw [List.length_map]
    omega
  have hgi : (handles.map (fun q => q.2.2)).getD i default =
      (handles.getD i (0, default, default)).2.2 := by
    rw [List.getD_eq_getElem?_getD, List.getElem?_eq_getElem hmi, Option.getD_some,
      List.getElem_map, List.getD_eq_getElem?_getD, List.getElem?_eq_getElem hi,
      Option.getD_some]
  have hgj : (handles.map (fun q => q.2.2)).getD j default =
      (handles.getD j (0, default, default)).2.2 := by
    rw [List.getD_eq_getElem?_getD, List.getElem?_eq_getElem hmj, Option.getD_some,
      List.getElem_map, List.getD_eq_getElem?_getD, List.getElem?_eq_getElem hj,
      Option.getD_some]
  have hgij : (handles.map (fun q => q.2.2))[i] = (handles.map (fun q => q.2.2))[j] := by
    have h1 : (handles.map (fun q => q.2.2))[i] =
        (handles.map (fun q => q.2.2)).getD i default := by
      rw [List.getD_eq_getElem?_getD, List.getElem?_eq_getElem hmi, Option.getD_some]
    have h2 : (handles.map (fun q => q.2.2))[j] =
        (handles.map (fun q => q.2.2)).getD j default := by
      rw [List.getD_eq_getElem?_getD, List.getElem?_eq_getElem hmj, Option.getD_some]
    rw [h1, h2, hgi, hgj, he]
  exact hij ((List.Nodup.getElem_inj_iff hnd).mp hgij)

/-- A run-state entry is a member of its handle list. -/
theorem handles_getD_mem (handles : List (Nat × K × V)) (i : Nat)
    (hi : i < handles.length) :
    handles.getD i (0, default, default) ∈ handles := by
  apply (mem_iff_getD handles _).mpr
  exact ⟨i, hi, rfl⟩

/-- The master run lemma: a successful run from an invariant state ends in
an invariant state, the handle list only grows, the removed-payload list
only grows, and every executed `rem` records its target's payload. -/
theorem runOps_inv (ops : List (HeapOp K V)) : ∀ st st' : RunState K V,
    runOps st ops = some st' →
    Inv st →
    st.heap.tree_index.length + ops.length ≤ INVALID →
    (st.handles.map (fun q => q.2.2) ++ opsPayloads ops).Nodup →
    Inv st' ∧ (∃ tl, st'.handles = st.handles ++ tl) ∧
    (∀ v, v ∈ st.removedP → v ∈ st'.removedP) ∧
    (∀ idx, HeapOp.rem idx ∈ ops →
      (st'.handles.getD idx (0, default, default)).2.2 ∈ st'.removedP) := by
  induction ops with
  | nil =>
    intro st st' hrun hinv hlen hnd
    simp only [runOps, Option.some.injEq] at hrun
    subst hrun
    exact ⟨hinv, ⟨[], by simp⟩, fun v hv => hv,
      fun idx hidx => absurd hidx (List.not_mem_nil _)⟩
  | cons op rest ih =>
    intro st st' hrun hinv hlen hnd
    rw [List.length_cons] at hlen
    cases hop : heap_step st op with
    | none =>
      simp only [runOps, hop] at hrun
      exact Option.noConfusion hrun
    | some st2 =>
      simp only [runOps, hop] at hrun
      obtain ⟨hWF, hLL, hCoup, hCov, hInj, hLastMin, hChain, hRemNot, hLiveNot,
        hPopDead, hRemDead, hTB⟩ := hinv
      obtain ⟨hib, hbp, hord, hnl, fl, hfo⟩ := hWF
      have hndL : (st.handles.map (fun q => q.2.2)).Nodup := hnd.of_append_left
      cases op with
      | ins k v =>
        simp only [heap_step, Option.some.injEq] at hop
        obtain ⟨i1, i2, i3, i4, i5, i6, i7, i8, i9, i10, hEx⟩ :=
          insert_spec st.heap k v fl hib hbp hord hnl (by omega) hfo
        obtain ⟨fl2n, hfo2, hfl2sub⟩ := hEx
        have h2heap : st2.heap = (st.heap.insert k v).2 := by rw [← hop]
        have h2hand : st2.handles = st.handles ++ [((st.heap.insert k v).1.val, k, v)] := by
          rw [← hop]
        have h2live : st2.live = st.live ++ [true] := by rw [← hop]
        have h2since : st2.insSince = true := by rw [← hop]
        have h2pop : st2.popped = st.popped := by rw [← hop]
        have h2rem : st2.removedP = st.removedP := by rw [← hop]
        have hvA : v ∉ st.handles.map (fun q => q.2.2) := by
          simp only [opsPayloads] at hnd
          intro hv
          exact (List.nodup_append.mp hnd).2.2 hv (List.mem_cons_self _ _)
        have c1 : WF st2.heap := by
          rw [h2heap]
          exact ⟨i3, i4, i5, i7, fl2n, hfo2⟩
        have c2 : st2.live.length = st2.handles.length := by
          rw [h2live, h2hand, List.length_append, List.length_append,
            List.length_singleton, List.length_singleton, hLL]
        have c3 : ∀ i, i < st2.handles.length → st2.live.getD i false = true →
            (st2.handles.getD i (0, default, default)).1 ∈ st2.heap.tree_index ∧
            slotVal st2.heap (st2.handles.getD i (0, default, default)).1 =
              ((st2.handles.getD i (0, default, default)).2.1,
               (st2.handles.getD i (0, default, default)).2.2) := by
          intro i hi hlive
          rw [h2hand] at hi ⊢
          rw [h2live] at hlive
          rw [h2heap]
          rw [List.length_append, List.length_singleton] at hi
          by_cases hilen : i < st.handles.length
          · rw [List.getD_append st.handles _ (0, default, default) i hilen]
            rw [List.getD_append st.live [true] false i (by omega)] at hlive
            obtain ⟨hm, hv2⟩ := hCoup i hilen hlive
            have hne : (st.handles.getD i (0, default, default)).1 ≠
                (st.heap.insert k v).1.val := by
              intro hh
              exact i1 (hh ▸ hm)
            exact ⟨(i10 _).mpr (Or.inr hm), (i9 _ hne).trans hv2⟩
          · have hieq : i = st.handles.length := by omega
            subst hieq
            rw [getD_append_length st.handles _ _]
            exact ⟨(i10 _).mpr (Or.inl rfl), i8⟩
        have c4 : ∀ s, s ∈ st2.heap.tree_index → ∃ i, i < st2.handles.length ∧
            st2.live.getD i false = true ∧
            (st2.handles.getD i (0, default, default)).1 = s := by
          intro s hs
          rw [h2heap] at hs
          rcases (i10 s).mp hs with hsw | hold
          · refine ⟨st.handles.length, ?_, ?_, ?_⟩
            · rw [h2hand, List.length_append, List.length_singleton]
              omega
            · rw [h2live, ← hLL]
              exact getD_append_length st.live true false
            · rw [h2hand, getD_append_length st.handles _ _]
              exact hsw.symm
          · obtain ⟨i, hi, hlv, hsl⟩ := hCov s hold
            refine ⟨i, ?_, ?_, ?_⟩
            · rw [h2hand, List.length_append, List.length_singleton]
              omega
            · rw [h2live, List.getD_append st.live [true] false i (by omega)]
              exact hlv
            · rw [h2hand, List.getD_append st.handles _ (0, default, default) i hi]
              exact hsl
        have c5 : ∀ i j, i < st2.handles.length → j < st2.handles.length →
            st2.live.getD i false = true → st2.live.getD j false = true →
            (st2.handles.getD i (0, default, default)).1 =
              (st2.handles.getD j (0, default, default)).1 → i = j := by
          intro i j hi hj hli hlj heqs
          rw [h2hand, List.length_append, List.length_singleton] at hi hj
          rw [h2live] at hli hlj
          rw [h2hand] at heqs
          by_cases hilen : i < st.handles.length
          · by_cases hjlen : j < st.handles.length
            · rw [List.getD_append st.live [true] false i (by omega)] at hli
              rw [List.getD_append st.live [true] false j (by omega)] at hlj
              rw [List.getD_append st.handles _ (0, default, default) i hilen,
                List.getD_append st.handles _ (0, default, default) j hjlen] at heqs
              exact hInj i j hilen hjlen hli hlj heqs
            · have hjeq : j = st.handles.length := by omega
              subst hjeq
              rw [List.getD_append st.live [true] false i (by omega)] at hli
              rw [List.getD_append st.handles _ (0, default, default) i hilen,
                getD_append_length st.handles _ _] at heqs
              have hm := (hCoup i hilen hli).1
              rw [heqs] at hm
              exact absurd hm i1
          · have hieq : i = st.handles.length := by omega
            subst hieq
            by_cases hjlen : j < st.handles.length
            · rw [List.getD_append st.live [true] false j (by omega)] at hlj
              rw [getD_append_length st.handles _ _,
                List.getD_append st.handles _ (0, default, default) j hjlen] at heqs
              have hm := (hCoup j hjlen hlj).1
              rw [← heqs] at hm
              exact absurd hm i1
            · omega
        have c6 : st2.insSince = false → ∀ p, st2.popped.getLast? = some p →
            ∀ s, s ∈ st2.heap.tree_index → p.2.1 ≤ (slotVal st2.heap s).1 := by
          intro hfalse
          rw [h2since] at hfalse
          exact absurd hfalse (by simp)
        have c7 : ChainOk st2.popped := by
          rw [h2pop]
          exact hChain
        have c8 : ∀ v2, v2 ∈ st2.removedP → ∀ p, p ∈ st2.popped → p.2.2 ≠ v2 := by
          intro v2 hv2 p hp
          rw [h2rem] at hv2
          rw [h2pop] at hp
          exact hRemNot v2 hv2 p hp
        have c9 : ∀ i, i < st2.handles.length → st2.live.getD i false = true →
            ∀ p, p ∈ st2.popped → p.2.2 ≠ (st2.handles.getD i (0, default, default)).2.2 := by
          intro i hi hlive p hp
          rw [h2hand, List.length_append, List.length_singleton] at hi
          rw [h2live] at hlive
          rw [h2pop] at hp
          rw [h2hand]
          by_cases hilen : i < st.handles.length
          · rw [List.getD_append st.live [true] false i (by omega)] at hlive
            rw [List.getD_append st.handles _ (0, default, default) i hilen]
            exact hLiveNot i hilen hlive p hp
          · have hieq : i = st.handles.length := by omega
            subst hieq
            rw [getD_append_length st.handles _ _]
            obtain ⟨j, hj, hdead, hpj⟩ := hPopDead p hp
            intro hcontra
            apply hvA
            refine List.mem_map.mpr ⟨st.handles.getD j (0, default, default),
              handles_getD_mem st.handles j hj, ?_⟩
            rw [hpj] at hcontra
            exact hcontra
        have c10 : ∀ p, p ∈ st2.popped → ∃ i, i < st2.handles.length ∧
            st2.live.getD i false = false ∧
            p.2.2 = (st2.handles.getD i (0, default, default)).2.2 := by
          intro p hp
          rw [h2pop] at hp
          obtain ⟨i, hi, hdead, hpi⟩ := hPopDead p hp
          refine ⟨i, ?_, ?_, ?_⟩
          · rw [h2hand, List.length_append, List.length_singleton]
            omega
          · rw [h2live, List.getD_append st.live [true] false i (by omega)]
            exact hdead
          · rw [h2hand, List.getD_append st.handles _ (0, default, default) i hi]
            exact hpi
        have c11 : ∀ v2, v2 ∈ st2.removedP → ∃ i, i < st2.handles.length ∧
            st2.live.getD i false = false ∧
            (st2.handles.getD i (0, default, default)).2.2 = v2 := by
          intro v2 hv2
          rw [h2rem] at hv2
          obtain ⟨i, hi, hdead, hvi⟩ := hRemDead v2 hv2
          refine ⟨i, ?_, ?_, ?_⟩
          · rw [h2hand, List.length_append, List.length_singleton]
            omega
          · rw [h2live, List.getD_append st.live [true] false i (by omega)]
            exact hdead
          · rw [h2hand, List.getD_append st.handles _ (0, default, default) i hi]
            exact hvi
        have c12 : st2.heap.tree_index.length ≤ st2.handles.length := by
          rw [h2heap, h2hand, i6, List.length_append, List.length_singleton]
          omega
        have hinv2 : Inv st2 := ⟨c1, c2, c3, c4, c5, c6, c7, c8, c9, c10, c11, c12⟩
        have hlen2 : st2.heap.tree_index.length + rest.length ≤ INVALID := by
          rw [h2heap, i6]
          omega
        have hnd2 : (st2.handles.map (fun q => q.2.2) ++ opsPayloads rest).Nodup := by
          rw [h2hand, List.map_append, List.append_assoc]
          simp only [List.map_cons, List.map_nil, List.singleton_append]
          simp only [opsPayloads] at hnd
          exact hnd
        obtain ⟨hinv', ⟨tl, htl'⟩, hmono, hremc⟩ := ih st2 st' hrun hinv2 hlen2 hnd2
        refine ⟨hinv', ⟨((st.heap.insert k v).1.val, k, v) :: tl, ?_⟩, ?_, ?_⟩
        · rw [htl', h2hand, List.append_assoc, List.singleton_append]
        · intro vv hvv
          apply hmono
          rw [h2rem]
          exact hvv
        · intro idx hidx
          rcases List.mem_cons.mp hidx with hhd | htlm
          · exact HeapOp.noConfusion hhd
          · exact hremc idx htlm
      | rem idxr =>
        simp only [heap_step] at hop
        split at hop
        next hcond =>
          rw [Option.some.injEq] at hop
          obtain ⟨hmemr, hvalr⟩ := hCoup idxr hcond.1 hcond.2
          obtain ⟨r1, r2, r3, r4, r5, r6, r7, r8, r9⟩ :=
            remove_spec st.heap ⟨(st.handles.getD idxr (0, default, default)).1⟩ fl
              hib hbp hord hnl hfo hmemr
          have h2heap : st2.heap =
              st.heap.remove ⟨(st.handles.getD idxr (0, default, default)).1⟩ := by
            rw [← hop]
          have h2hand : st2.handles = st.handles := by rw [← hop]
          have h2live : st2.live = st.live.set idxr false := by rw [← hop]
          have h2since : st2.insSince = st.insSince := by rw [← hop]
          have h2pop : st2.popped = st.popped := by rw [← hop]
          have h2rem : st2.removedP =
              st.removedP ++ [(st.handles.getD idxr (0, default, default)).2.2] := by
            rw [← hop]
          have hidxl : idxr < st.live.length := by
            rw [hLL]
            exact hcond.1
          have c1 : WF st2.heap := by
            rw [h2heap]
            refine ⟨r1, r2, r3, ?_, _, r9⟩
            rw [r5]
            exact hnl
          have c2 : st2.live.length = st2.handles.length := by
            rw [h2live, h2hand, List.length_set, hLL]
          have c3 : ∀ i, i < st2.handles.length → st2.live.getD i false = true →
              (st2.handles.getD i (0, default, default)).1 ∈ st2.heap.tree_index ∧
              slotVal st2.heap (st2.handles.getD i (0, default, default)).1 =
                ((st2.handles.getD i (0, default, default)).2.1,
                 (st2.handles.getD i (0, default, default)).2.2) := by
            intro i hi hlive
            rw [h2hand] at hi ⊢
            rw [h2live] at hlive
            rw [h2heap]
            by_cases hii : i = idxr
            · subst hii
              rw [getD_set_self st.live i hidxl false false] at hlive
              exact absurd hlive (by simp)
            · rw [getD_set_ne st.live idxr i (fun hh => hii hh.symm) false false] at hlive
              obtain ⟨hm, hv2⟩ := hCoup i hi hlive
              have hne : (st.handles.getD i (0, default, default)).1 ≠
                  (st.handles.getD idxr (0, default, default)).1 := by
                intro hh
                exact hii (hInj i idxr hi hcond.1 hlive hcond.2 hh)
              exact ⟨(r7 _).mpr ⟨hm, hne⟩, (r6 _).trans hv2⟩
          have c4 : ∀ s, s ∈ st2.heap.tree_index → ∃ i, i < st2.handles.length ∧
              st2.live.getD i false = true ∧
              (st2.handles.getD i (0, default, default)).1 = s := by
            intro s hs
            rw [h2heap] at hs
            obtain ⟨hsm, hsne⟩ := (r7 s).mp hs
            obtain ⟨i, hi, hlv, hsl⟩ := hCov s hsm
            have hii : i ≠ idxr := by
              intro hh
              subst hh
              exact hsne hsl.symm
            refine ⟨i, ?_, ?_, ?_⟩
            · rw [h2hand]
              exact hi
            · rw [h2live, getD_set_ne st.live idxr i (fun hh => hii hh.symm) false false]
              exact hlv
            · rw [h2hand]
              exact hsl
          have c5 : ∀ i j, i < st2.handles.length → j < st2.handles.length →
              st2.live.getD i false = true → st2.live.getD j false = true →
              (st2.handles.getD i (0, default, default)).1 =
                (st2.handles.getD j (0, default, default)).1 → i = j := by
            intro i j hi hj hli hlj heqs
            rw [h2hand] at hi hj heqs
            rw [h2live] at hli hlj
            by_cases hii : i = idxr
            · subst hii
              rw [getD_set_self st.live i hidxl false false] at hli
              exact absurd hli (by simp)
            · by_cases hjj : j = idxr
              · subst hjj
                rw [getD_set_self st.live j hidxl false false] at hlj
                exact absurd hlj (by simp)
              · rw [getD_set_ne st.live idxr i (fun hh => hii hh.symm) false false] at hli
                rw [getD_set_ne st.live idxr j (fun hh => hjj hh.symm) false false] at hlj
                exact hInj i j hi hj hli hlj heqs
          have c6 : st2.insSince = false → ∀ p, st2.popped.getLast? = some p →
              ∀ s, s ∈ st2.heap.tree_index → p.2.1 ≤ (slotVal st2.heap s).1 := by
            intro hfalse p hp s hs
            rw [h2since] at hfalse
            rw [h2pop] at hp
            rw [h2heap] at hs
            rw [h2heap, r6 s]
            exact hLastMin hfalse p hp s ((r7 s).mp hs).1
          have c7 : ChainOk st2.popped := by
            rw [h2pop]
            exact hChain
          have c8 : ∀ v2, v2 ∈ st2.removedP → ∀ p, p ∈ st2.popped → p.2.2 ≠ v2 := by
            intro v2 hv2 p hp
            rw [h2rem] at hv2
            rw [h2pop] at hp
            rcases List.mem_append.mp hv2 with hvo | hvn
            · exact hRemNot v2 hvo p hp
            · rw [List.mem_singleton] at hvn
              subst hvn
              exact hLiveNot idxr hcond.1 hcond.2 p hp
          have c9 : ∀ i, i < st2.handles.length → st2.live.getD i false = true →
              ∀ p, p ∈ st2.popped →
              p.2.2 ≠ (st2.handles.getD i (0, default, default)).2.2 := by
            intro i hi hlive p hp
            rw [h2hand] at hi ⊢
            rw [h2live] at hlive
            rw [h2pop] at hp
            by_cases hii : i = idxr
            · subst hii
              rw [getD_set_self st.live i hidxl false false] at hlive
              exact absurd hlive (by simp)
            · rw [getD_set_ne st.live idxr i (fun hh => hii hh.symm) false false] at hlive
              exact hLiveNot i hi hlive p hp
          have c10 : ∀ p, p ∈ st2.popped → ∃ i, i < st2.handles.length ∧
              st2.live.getD i false = false ∧
              p.2.2 = (st2.handles.getD i (0, default, default)).2.2 := by
            intro p hp
            rw [h2pop] at hp
            obtain ⟨i, hi, hdead, hpi⟩ := hPopDead p hp
            refine ⟨i, ?_, ?_, ?_⟩
            · rw [h2hand]
              exact hi
            · rw [h2live]
              by_cases hii : i = idxr
              · subst hii
                rw [getD_set_self st.live i hidxl false false]
              · rw [getD_set_ne st.live idxr i (fun hh => hii hh.symm) false false]
                exact hdead
            · rw [h2hand]
              exact hpi
          have c11 : ∀ v2, v2 ∈ st2.removedP → ∃ i, i < st2.handles.length ∧
              st2.live.getD i false = false ∧
              (st2.handles.getD i (0, default, default)).2.2 = v2 := by
            intro v2 hv2
            rw [h2rem] at hv2
            rcases List.mem_append.mp hv2 with hvo | hvn
            · obtain ⟨i, hi, hdead, hvi⟩ := hRemDead v2 hvo
              refine ⟨i, ?_, ?_, ?_⟩
              · rw [h2hand]
                exact hi
              · rw [h2live]
                by_cases hii : i = idxr
                · subst hii
                  rw [getD_set_self st.live i hidxl false false]
                · rw [getD_set_ne st.live idxr i (fun hh => hii hh.symm) false false]
                  exact hdead
              · rw [h2hand]
                exact hvi
            · rw [List.mem_singleton] at hvn
              subst hvn
              refine ⟨idxr, ?_, ?_, ?_⟩
              · rw [h2hand]
                exact hcond.1
              · rw [h2live, getD_set_self st.live idxr hidxl false false]
              · rw [h2hand]
          have c12 : st2.heap.tree_index.length ≤ st2.handles.length := by
            rw [h2heap, h2hand, r4]
            omega
          have hinv2 : Inv st2 := ⟨c1, c2, c3, c4, c5, c6, c7, c8, c9, c10, c11, c12⟩
          have hlen2 : st2.heap.tree_index.length + rest.length ≤ INVALID := by
            rw [h2heap, r4]
            omega
          have hnd2 : (st2.handles.map (fun q => q.2.2) ++ opsPayloads rest).Nodup := by
            rw [h2hand]
            simp only [opsPayloads] at hnd
            exact hnd
          obtain ⟨hinv', ⟨tl, htl'⟩, hmono, hremc⟩ := ih st2 st' hrun hinv2 hlen2 hnd2
          have hhandles' : st'.handles = st.handles ++ tl := by
            rw [htl', h2hand]
          refine ⟨hinv', ⟨tl, hhandles'⟩, ?_, ?_⟩
          · intro vv hvv
            apply hmono
            rw [h2rem]
            exact List.mem_append.mpr (Or.inl hvv)
          · intro idx hidx
            rcases List.mem_cons.mp hidx with hhd | htlm
            · have hidxeq : idx = idxr := by
                injection hhd
              subst hidxeq
              have hgd : st'.handles.getD idx (0, default, default) =
                  st.handles.getD idx (0, default, default) := by
                rw [hhandles']
                exact List.getD_append st.handles tl (0, default, default) idx hcond.1
              rw [hgd]
              apply hmono
              rw [h2rem]
              exact List.mem_append.mpr (Or.inr (List.mem_singleton.mpr rfl))
            · exact hremc idx htlm
        next hcond =>
          exact Option.noConfusion hop
      | pop =>
        simp only [heap_step] at hop
        split at hop
        next h0 =>
          rw [Option.some.injEq] at hop
          subst hop
          obtain ⟨hinv', hpre, hmono, hremc⟩ := ih st st' hrun
            ⟨⟨hib, hbp, hord, hnl, fl, hfo⟩, hLL, hCoup, hCov, hInj, hLastMin, hChain,
              hRemNot, hLiveNot, hPopDead, hRemDead, hTB⟩
            (by omega) (by simp only [opsPayloads] at hnd; exact hnd)
          refine ⟨hinv', hpre, hmono, ?_⟩
          intro idx hidx
          rcases List.mem_cons.mp hidx with hhd | htlm
          · exact HeapOp.noConfusion hhd
          · exact hremc idx htlm
        next h0 =>
          rw [Option.some.injEq] at hop
          obtain ⟨p1, p2, p3, p4, p5, p6, p7, p8, p9, p10⟩ :=
            pop_min_spec st.heap fl h0 hib hbp (HeapOrd.exceptAround st.heap 0 hord) hnl hfo
          have hroot : st.heap.tree_index.getD 0 0 ∈ st.heap.tree_index :=
            getD_mem_ti st.heap 0 (by omega)
          obtain ⟨j, hj, hlivej, hslotj⟩ := hCov _ hroot
          have h2heap : st2.heap = st.heap.pop_min.2 := by rw [← hop]
          have h2hand : st2.handles = st.handles := by rw [← hop]
          have h2live : st2.live = (st.handles.zip st.live).map
              (fun q => q.2 && !(q.1.1 == st.heap.tree_index.getD 0 0)) := by
            rw [← hop]
          have h2since : st2.insSince = false := by rw [← hop]
          have h2pop : st2.popped = st.popped ++
              [(st.insSince, slotVal st.heap (st.heap.tree_index.getD 0 0))] := by
            rw [← hop]
          have h2rem : st2.removedP = st.removedP := by rw [← hop]
          have hrootpay : ((st.insSince,
              slotVal st.heap (st.heap.tree_index.getD 0 0)) : Bool × K × V).2.2 =
              (st.handles.getD j (0, default, default)).2.2 := by
            have h1 := congrArg Prod.snd (hCoup j hj hlivej).2
            rw [hslotj] at h1
            exact h1
          have c1 : WF st2.heap := by
            rw [h2heap]
            refine ⟨p2, p3, p4, ?_, _, p10⟩
            rw [p6]
            exact hnl
          have c2 : st2.live.length = st2.handles.length := by
            rw [h2live, h2hand]
            exact kill_length st.handles st.live _ hLL
          have c3 : ∀ i, i < st2.handles.length → st2.live.getD i false = true →
              (st2.handles.getD i (0, default, default)).1 ∈ st2.heap.tree_index ∧
              slotVal st2.heap (st2.handles.getD i (0, default, default)).1 =
                ((st2.handles.getD i (0, default, default)).2.1,
                 (st2.handles.getD i (0, default, default)).2.2) := by
            intro i hi hlive
            rw [h2hand] at hi ⊢
            rw [h2live, kill_getD st.handles st.live _ i hi hLL, Bool.and_eq_true] at hlive
            rw [h2heap]
            have hparts := hlive
            have hne : (st.handles.getD i (0, default, default)).1 ≠
                st.heap.tree_index.getD 0 0 := by
              have hh := hparts.2
              simpa using hh
            obtain ⟨hm, hv2⟩ := hCoup i hi hparts.1
            exact ⟨(p8 _).mpr ⟨hm, hne⟩, (p7 _).trans hv2⟩
          have c4 : ∀ s, s ∈ st2.heap.tree_index → ∃ i, i < st2.handles.length ∧
              st2.live.getD i false = true ∧
              (st2.handles.getD i (0, default, default)).1 = s := by
            intro s2 hs2
            rw [h2heap] at hs2
            obtain ⟨hs2m, hs2ne⟩ := (p8 s2).mp hs2
            obtain ⟨i, hi, hlv, hsl⟩ := hCov s2 hs2m
            refine ⟨i, ?_, ?_, ?_⟩
            · rw [h2hand]
              exact hi
            · rw [h2live, kill_getD st.handles st.live _ i hi hLL, hsl, Bool.and_eq_true]
              exact ⟨hlv, by simpa using hs2ne⟩
            · rw [h2hand]
              exact hsl
          have c5 : ∀ i j2, i < st2.handles.length → j2 < st2.handles.length →
              st2.live.getD i false = true → st2.live.getD j2 false = true →
              (st2.handles.getD i (0, default, default)).1 =
                (st2.handles.getD j2 (0, default, default)).1 → i = j2 := by
            intro i j2 hi hj2 hli hlj heqs
            rw [h2hand] at hi hj2 heqs
            rw [h2live, kill_getD st.handles st.live _ i hi hLL, Bool.and_eq_true] at hli
            rw [h2live, kill_getD st.handles st.live _ j2 hj2 hLL, Bool.and_eq_true] at hlj
            exact hInj i j2 hi hj2 hli.1 hlj.1 heqs
          have c6 : st2.insSince = false → ∀ p, st2.popped.getLast? = some p →
              ∀ s, s ∈ st2.heap.tree_index → p.2.1 ≤ (slotVal st2.heap s).1 := by
            intro _ p hp s2 hs2
            rw [h2pop, List.getLast?_concat, Option.some.injEq] at hp
            subst hp
            rw [h2heap] at hs2
            rw [h2heap, p7 s2]
            exact root_slot_min st.heap hord s2 ((p8 s2).mp hs2).1
          have c7 : ChainOk st2.popped := by
            rw [h2pop]
            refine ChainOk_append st.popped _ hChain ?_
            intro hflag p hp
            have hsince : st.insSince = false := hflag
            exact hLastMin hsince p hp _ hroot
          have c8 : ∀ v2, v2 ∈ st2.removedP → ∀ p, p ∈ st2.popped → p.2.2 ≠ v2 := by
            intro v2 hv2 p hp
            rw [h2rem] at hv2
            rw [h2pop] at hp
            rcases List.mem_append.mp hp with hpo | hpn
            · exact hRemNot v2 hv2 p hpo
            · rw [List.mem_singleton] at hpn
              subst hpn
              obtain ⟨iR, hiR, hdeadR, hvR⟩ := hRemDead v2 hv2
              have hj_iR : j ≠ iR := by
                intro hji
                rw [hji] at hlivej
                exact absurd (hlivej.symm.trans hdeadR) (by simp)
              intro hcontra
              have hcontra2 : (st.handles.getD j (0, default, default)).2.2 = v2 := by
                rw [← hrootpay]
                exact hcontra
              exact payload_ne st.handles hndL j iR hj hiR hj_iR (hcontra2.trans hvR.symm)
          have c9 : ∀ i, i < st2.handles.length → st2.live.getD i false = true →
              ∀ p, p ∈ st2.popped →
              p.2.2 ≠ (st2.handles.getD i (0, default, default)).2.2 := by
            intro i hi hlive p hp
            rw [h2hand] at hi ⊢
            rw [h2live, kill_getD st.handles st.live _ i hi hLL, Bool.and_eq_true] at hlive
            have hparts := hlive
            rw [h2pop] at hp
            rcases List.mem_append.mp hp with hpo | hpn
            · exact hLiveNot i hi hparts.1 p hpo
            · rw [List.mem_singleton] at hpn
              subst hpn
              have hne : (st.handles.getD i (0, default, default)).1 ≠
                  st.heap.tree_index.getD 0 0 := by
                have hh := hparts.2
                simpa using hh
              have hij : i ≠ j := by
                intro hij0
                rw [hij0] at hne
                exact hne hslotj
              rw [hrootpay]
              exact payload_ne st.handles hndL j i hj hi (Ne.symm hij)
          have c10 : ∀ p, p ∈ st2.popped → ∃ i, i < st2.handles.length ∧
              st2.live.getD i false = false ∧
              p.2.2 = (st2.handles.getD i (0, default, default)).2.2 := by
            intro p hp
            rw [h2pop] at hp
            rcases List.mem_append.mp hp with hpo | hpn
            · obtain ⟨i2, hi2, hdead2, hpi2⟩ := hPopDead p hpo
              refine ⟨i2, ?_, ?_, ?_⟩
              · rw [h2hand]
                exact hi2
              · rw [h2live, kill_getD st.handles st.live _ i2 hi2 hLL, hdead2]
                simp
              · rw [h2hand]
                exact hpi2
            · rw [List.mem_singleton] at hpn
              subst hpn
              refine ⟨j, ?_, ?_, ?_⟩
              · rw [h2hand]
                exact hj
              · rw [h2live, kill_getD st.handles st.live _ j hj hLL, hslotj]
                simp
              · rw [h2hand]
                exact hrootpay
          have c11 : ∀ v2, v2 ∈ st2.removedP → ∃ i, i < st2.handles.length ∧
              st2.live.getD i false = false ∧
              (st2.handles.getD i (0, default, default)).2.2 = v2 := by
            intro v2 hv2
            rw [h2rem] at hv2
            obtain ⟨i2, hi2, hdead2, hvi2⟩ := hRemDead v2 hv2
            refine ⟨i2, ?_, ?_, ?_⟩
            · rw [h2hand]
              exact hi2
            · rw [h2live, kill_getD st.handles st.live _ i2 hi2 hLL, hdead2]
              simp
            · rw [h2hand]
              exact hvi2
          have c12 : st2.heap.tree_index.length ≤ st2.handles.length := by
            rw [h2heap, h2hand, p5]
            omega
          have hinv2 : Inv st2 := ⟨c1, c2, c3, c4, c5, c6, c7, c8, c9, c10, c11, c12⟩
          have hlen2 : st2.heap.tree_index.length + rest.length ≤ INVALID := by
            rw [h2heap, p5]
            omega
          have hnd2 : (st2.handles.map (fun q => q.2.2) ++ opsPayloads rest).Nodup := by
            rw [h2hand]
            simp only [opsPayloads] at hnd
            exact hnd
          obtain ⟨hinv', ⟨tl, htl'⟩, hmono, hremc⟩ := ih st2 st' hrun hinv2 hlen2 hnd2
          refine ⟨hinv', ⟨tl, by rw [htl', h2hand]⟩, ?_, ?_⟩
          · intro vv hvv
            apply hmono
            rw [h2rem]
            exact hvv
          · intro idx hidx
            rcases List.mem_cons.mp hidx with hhd | htlm
            · exact HeapOp.noConfusion hhd
            · exact hremc idx htlm

/-- The initial run state satisfies the coupling invariant. -/
theorem Inv_initRun : Inv (initRun : RunState K V) := by
  refine ⟨with_capacity_WF 0, rfl, ?_, ?_, ?_, ?_, ?_, ?_, ?_, ?_, ?_, ?_⟩
  · intro i hi
    simp [initRun] at hi
  · intro s hs
    simp [initRun, with_capacity] at hs
  · intro i j hi
    simp [initRun] at hi
  · intro _ p hp
    simp [initRun] at hp
  · intro i hi
    simp [initRun] at hi
  · intro v hv
    simp [initRun] at hv
  · intro i hi
    simp [initRun] at hi
  · intro p hp
    simp [initRun] at hp
  · intro v hv
    simp [initRun] at hv
  · simp [initRun, with_capacity]

/-- **C3, counterexample**: a run in which an insert occurs between two
pops makes the second pop return a strictly smaller key (5 then 3),
refuting the frozen claim's unconditional "successive `pop_min` calls
return payloads in non-decreasing key order" for arbitrary operation
sequences. -/
theorem C3_counterexample :
    (runOps (initRun : RunState Int Nat)
        [HeapOp.ins 5 0, HeapOp.pop, HeapOp.ins 3 1, HeapOp.pop]).map
      (fun st => st.popped) = some [(true, 5, 0), (true, 3, 1)] ∧
    ¬ ((5 : Int) ≤ 3) := by
  constructor
  · have hINV : ¬ ((0 : Nat) = INVALID) := by decide
    simp [runOps, heap_step, initRun, with_capacity, insert, node_take, heap_up,
      pop_min, node_drop, slotVal, getNode, hINV]
  · decide

/-- **C3** (amended): for every valid sequence of insert / remove / pop
operations with pairwise distinct payloads (and fewer than `usize::MAX`
operations), successive `pop_min` calls not separated by an insert return
payloads in non-decreasing key order (the recorded flag marks pops preceded
by an insert since the previous pop), and once `remove` has been called on
a live handle, no `pop_min` — in particular no later one — ever returns the
payload that handle referred to.  The frozen claim's unconditional ordering
of all successive pops is refuted by `C3_counterexample`. -/
theorem C3_heap_pop_order_and_remove (ops : List (HeapOp K V)) (st' : RunState K V)
    (hrun : runOps initRun ops = some st')
    (hops : ops.length ≤ INVALID)
    (hnd : (opsPayloads ops).Nodup) :
    ChainOk st'.popped ∧
    (∀ idx, HeapOp.rem idx ∈ ops → ∀ p, p ∈ st'.popped →
      p.2.2 ≠ (st'.handles.getD idx (0, default, default)).2.2) := by
  obtain ⟨hinv', _, _, hremc⟩ := runOps_inv ops initRun st' hrun Inv_initRun
    (by simpa [initRun, with_capacity] using hops) (by simpa [initRun] using hnd)
  obtain ⟨_, _, _, _, _, _, hChain, hRemNot, _, _, _, _⟩ := hinv'
  exact ⟨hChain, fun idx hidx p hp => hRemNot _ (hremc idx hidx) p hp⟩

/-- Witness for `C3_heap_pop_order_and_remove` at a concrete run:
insert (5, 7), remove it, insert (3, 8), pop — the only pop returns
payload 8, never the removed payload 7. -/
theorem C3_heap_pop_order_and_remove_witness :
    ChainOk ({ heap := { tree_index := [], node := [⟨3, 8, INVALID⟩], free := 0 }, handles := [(0, 5, 7), (0, 3, 8)], live := [false, false], insSince := false, popped := [(true, 3, 8)], removedP := [7] } : RunState Int Nat).popped ∧
    (∀ idx, HeapOp.rem idx ∈
        [HeapOp.ins (5 : Int) (7 : Nat), HeapOp.rem 0, HeapOp.ins 3 8, HeapOp.pop] →
      ∀ p, p ∈ ({ heap := { tree_index := [], node := [⟨3, 8, INVALID⟩], free := 0 }, handles := [(0, 5, 7), (0, 3, 8)], live := [false, false], insSince := false, popped := [(true, 3, 8)], removedP := [7] } : RunState Int Nat).popped →
        p.2.2 ≠ (({ heap := { tree_index := [], node := [⟨3, 8, INVALID⟩], free := 0 }, handles := [(0, 5, 7), (0, 3, 8)], live := [false, false], insSince := false, popped := [(true, 3, 8)], removedP := [7] } : RunState Int Nat).handles.getD idx (0, default, default)).2.2) :=
  C3_heap_pop_order_and_remove
    [HeapOp.ins 5 7, HeapOp.rem 0, HeapOp.ins 3 8, HeapOp.pop]
    ({ heap := { tree_index := [], node := [⟨3, 8, INVALID⟩], free := 0 }, handles := [(0, 5, 7), (0, 3, 8)], live := [false, false], insSince := false, popped := [(true, 3, 8)], removedP := [7] } : RunState Int Nat)
    (by
      have hINV : ¬ ((0 : Nat) = INVALID) := by decide
      simp [runOps, heap_step, initRun, with_capacity, insert, node_take, heap_up,
        pop_min, node_drop, slotVal, getNode, remove, remove_promote, hINV])
    (by decide) (by decide)

end MinHeap











/-! ## Claims about the driver and the least-squares solver -/

/-- **C7** (amended): the driver classifies a pixel as foreground iff
`R+G+B < (color_max/2)·3` with *integer* halving — equivalently, iff
`R+G+B` is below `3/2` times `color_max` rounded *down to the nearest even
number*; for odd `color_max` this is a strictly lower threshold than the
claimed `color_max·3/2` (see the counterexample). -/
theorem C7_foreground_threshold (color_max r g b : Nat)
    (hcm : 1 ≤ color_max ∧ color_max ≤ 65535) :
    pixel_is_foreground color_max r g b = true ↔
      ((r + g + b : Nat) : ℚ) < 3 * ((color_max - color_max % 2 : Nat) : ℚ) / 2 := by
  rw [pixel_is_foreground, decide_eq_true_eq]
  have h2 : (color_max - color_max % 2) = 2 * (color_max / 2) := by omega
  rw [h2]
  have h3 : (3 : ℚ) * ((2 * (color_max / 2) : Nat) : ℚ) / 2 =
      (((color_max / 2) * 3 : Nat) : ℚ) := by
    push_cast
    ring
  rw [h3, Nat.cast_lt]

/-- Witness for `C7_foreground_threshold` at `color_max = 2`, pixel
`(0, 0, 0)`. -/
theorem C7_foreground_threshold_witness :
    (1 ≤ 2 ∧ 2 ≤ 65535) ∧
    (pixel_is_foreground 2 0 0 0 = true ↔
      ((0 + 0 + 0 : Nat) : ℚ) < 3 * ((2 - 2 % 2 : Nat) : ℚ) / 2) :=
  ⟨by decide, C7_foreground_threshold 2 0 0 0 ⟨by decide, by decide⟩⟩

/-- **C7, counterexample**: with `color_max = 3` the code's threshold is
`(3/2)·3 = 3` (integer division), so the pixel `(1,1,1)` with sum `3` is
*not* foreground, while the claimed real threshold `3·3/2 = 4.5` would
classify it as foreground. -/
theorem C7_counterexample :
    pixel_is_foreground 3 1 1 1 = false ∧
    ((1 + 1 + 1 : Nat) : ℚ) < (3 : ℚ) * 3 / 2 := by
  constructor
  · decide
  · norm_num

/-- **C8** (amended): the process exit code is `1` exactly when help was
not requested and parameter parsing failed; it is `101` (the Rust panic
exit code, from `File::create(..).expect(..)` in `trace_image`) exactly
when the image was read but the output file could not be created; an
image-read failure or a failure of the SVG writes after the output file
was created is only printed, after which `main` returns normally with
exit code `0`. -/
theorem C8_exit_codes (show_help parse_ok image_load_ok output_create_ok write_ok : Bool) :
    main_exit_code show_help parse_ok image_load_ok output_create_ok write_ok =
      if show_help = false ∧ parse_ok = false then 1
      else if show_help = false ∧ image_load_ok = true ∧ output_create_ok = false then 101
      else 0 := by
  cases show_help <;> cases parse_ok <;> cases image_load_ok <;>
    cases output_create_ok <;> cases write_ok <;> rfl

/-- **C8, counterexample**: when the image cannot be read (parsing
succeeded, no help requested, and the output stage untouched), `main`
exits with code `0`, not the claimed `1`. -/
theorem C8_counterexample :
    main_exit_code false true false true true = 0 ∧ (0 : Nat) ≠ 1 := by
  constructor
  · rfl
  · decide

/-- **C6** (amended): when the normal-equation determinant
`c00·c11 − c01·c10` is almost zero, the solver substitutes
`det = c00·c11·10⁻¹¹` — the Rust literal `10e-12` denotes `10×10⁻¹²` —
as the safety floor, and returns no cubic whenever either resulting alpha
fails `alpha ≥ 0`. -/
theorem C6_least_square_floor (points : List V2) (tan_l tan_r : V2) (u_prime : List ℚ)
    (x0 x1 c00 c01 c11 : ℚ)
    (hacc : (points.zip u_prime).foldl
      (least_square_acc (getV points 0) (getV points (points.length - 1)) tan_l tan_r)
      (0, 0, 0, 0, 0) = (x0, x1, c00, c01, c11))
    (halmost : is_almost_zero (c00 * c11 - c01 * c01) = true) :
    cubic_solve_least_square_calc points tan_l tan_r u_prime =
      (if ¬ ((x0 * c11 - x1 * c01) / (c00 * c11 * lit_10e_minus_12) ≥ 0) ∨
          ¬ ((x1 * c00 - x0 * c01) / (c00 * c11 * lit_10e_minus_12) ≥ 0) then none
       else some ⟨getV points 0,
         msub_vnvn_fl (getV points 0) tan_l
           ((x0 * c11 - x1 * c01) / (c00 * c11 * lit_10e_minus_12)),
         madd_vnvn_fl (getV points (points.length - 1)) tan_r
           ((x1 * c00 - x0 * c01) / (c00 * c11 * lit_10e_minus_12)),
         getV points (points.length - 1)⟩) ∧
    lit_10e_minus_12 = 1 / 10 ^ 11 := by
  constructor
  · have hdet : (if ¬ (is_almost_zero (c00 * c11 - c01 * c01) = true) then
        c00 * c11 - c01 * c01 else c00 * c11 * lit_10e_minus_12) =
        c00 * c11 * lit_10e_minus_12 := if_neg (fun hc => hc halmost)
    simp only [cubic_solve_least_square_calc, hacc, hdet]
  · norm_num [lit_10e_minus_12]

/-- Witness for `C6_least_square_floor` at the empty input (all
accumulators zero, determinant exactly zero hence almost zero). -/
theorem C6_least_square_floor_witness :
    (cubic_solve_least_square_calc [] (0, 0) (0, 0) [] =
      (if ¬ (((0 : ℚ) * 0 - 0 * 0) / (0 * 0 * lit_10e_minus_12) ≥ 0) ∨
          ¬ (((0 : ℚ) * 0 - 0 * 0) / (0 * 0 * lit_10e_minus_12) ≥ 0) then none
       else some ⟨getV [] 0,
         msub_vnvn_fl (getV [] 0) (0, 0)
           (((0 : ℚ) * 0 - 0 * 0) / (0 * 0 * lit_10e_minus_12)),
         madd_vnvn_fl (getV [] (List.length ([] : List V2) - 1)) (0, 0)
           (((0 : ℚ) * 0 - 0 * 0) / (0 * 0 * lit_10e_minus_12)),
         getV [] (List.length ([] : List V2) - 1)⟩)) ∧
    lit_10e_minus_12 = 1 / 10 ^ 11 :=
  C6_least_square_floor [] (0, 0) (0, 0) [] 0 0 0 0 0 rfl
    (by rw [is_almost_zero, is_almost_zero_ex, decide_eq_true_eq]; norm_num [EPS])

/-- **C6, counterexample**: a one-point input whose normal equations have
an almost-zero determinant but nonzero `c00·c11`.  The code's safety floor
`c00·c11·10⁻¹¹` (Rust literal `10e-12` = 10×10⁻¹²) yields the left handle
abscissa `1 − 8·10¹¹/3`, whereas the claimed floor `c00·c11·10⁻¹²` would
yield `1 − 8·10¹²/3`. -/
theorem C6_counterexample :
    cubic_solve_least_square_calc [((1 : ℚ), (0 : ℚ))] (1 / 100, 0) (0, 1 / 100)
        [1 / 2] =
      some ⟨(1, 0), (1 - 800000000000 / 3, 0), (1, 0), (1, 0)⟩ ∧
    ((1 : ℚ) - 800000000000 / 3) ≠ 1 - 8000000000000 / 3 := by
  constructor
  · norm_num [cubic_solve_least_square_calc, least_square_acc, getV, bezier_b1,
      bezier_b2, bezier_b0_plus_b1, bezier_b2_plus_b3, mul_vn_fl, msub_vnvn_fl,
      madd_vnvn_fl, is_almost_zero, is_almost_zero_ex, EPS, lit_10e_minus_12,
      Cubic.mk.injEq, Prod.mk.injEq]
  · norm_num

/-! ## Claim C9: the edge-stamping pass -/

/-- Bit 3 test of the `U` mask. -/
theorem testBit8 (k : Nat) : (8 : Nat).testBit k = (k == 3) := by
  have h : ((2 : Nat) ^ 3).testBit k = decide (3 = k) := Nat.testBit_two_pow
  rw [show (8 : Nat) = 2 ^ 3 from rfl, h]
  rcases Nat.decEq 3 k with hne | he
  · simp [hne, Ne.symm hne]
  · subst he
    simp

/-- Bit 2 test of the `D` mask. -/
theorem testBit4 (k : Nat) : (4 : Nat).testBit k = (k == 2) := by
  have h : ((2 : Nat) ^ 2).testBit k = decide (2 = k) := Nat.testBit_two_pow
  rw [show (4 : Nat) = 2 ^ 2 from rfl, h]
  rcases Nat.decEq 2 k with hne | he
  · simp [hne, Ne.symm hne]
  · subst he
    simp

/-- Bit 1 test of the `R` mask. -/
theorem testBit2 (k : Nat) : (2 : Nat).testBit k = (k == 1) := by
  have h : ((2 : Nat) ^ 1).testBit k = decide (1 = k) := Nat.testBit_two_pow
  rw [show (2 : Nat) = 2 ^ 1 from rfl, h]
  rcases Nat.decEq 1 k with hne | he
  · simp [hne, Ne.symm hne]
  · subst he
    simp

/-- Bit 0 test of the `L` mask. -/
theorem testBit1 (k : Nat) : (1 : Nat).testBit k = (k == 0) := by
  have h : ((2 : Nat) ^ 0).testBit k = decide (0 = k) := Nat.testBit_two_pow
  rw [show (1 : Nat) = 2 ^ 0 from rfl, h]
  rcases Nat.decEq 0 k with hne | he
  · simp [hne, Ne.symm hne]
  · subst he
    simp

/-- Or-ing a mask into one list entry, observed bitwise at any index. -/
theorem set_or_getD_testBit (l : List Nat) (c b i k : Nat) (hc : c < l.length) :
    ((l.set c ((l.getD c 0) ||| b)).getD i 0).testBit k =
      ((l.getD i 0).testBit k || (b.testBit k && (i == c))) := by
  by_cases hic : i = c
  · subst hic
    rw [getD_set_self l i hc _ _, Nat.testBit_or]
    simp
  · rw [getD_set_ne l c i (fun hh => hic hh.symm) _ _]
    simp [hic]

/-- `set_or_getD_testBit` in `getElem?` normal form. -/
theorem set_or_getElem_testBit (l : List Nat) (c b i k : Nat) (hc : c < l.length) :
    (((l.set c (getElem l c hc ||| b))[i]?).getD 0).testBit k =
      ((l[i]?.getD 0).testBit k || (b.testBit k && (i == c))) := by
  have h0 := set_or_getD_testBit l c b i k hc
  have hgd : l.getD c 0 = getElem l c hc := by
    rw [List.getD_eq_getElem?_getD, List.getElem?_eq_getElem hc, Option.getD_some]
  rw [hgd] at h0
  simpa [List.getD_eq_getElem?_getD] using h0

/-- One stamping step preserves the corner-image length. -/
theorem stamp_pixel_length (image : List Bool) (size : Nat × Nat)
    (pm : List Nat) (st : Nat) (x y : Nat) :
    (stamp_pixel image size pm st x y).1.length = pm.length := by
  simp only [stamp_pixel]
  split
  · split <;> split <;> split <;> split <;> simp [List.length_set]
  · rfl

set_option maxHeartbeats 1600000 in
/-- One stamping step, observed bitwise: exactly the bits of
`stampBit` for this pixel are added. -/
theorem stamp_pixel_getD_testBit (image : List Bool) (size : Nat × Nat)
    (pm : List Nat) (st : Nat) (x y i k : Nat)
    (hx : x < size.1) (hy : y < size.2)
    (hlen : (size.1 + 1) * (size.2 + 1) ≤ pm.length) :
    ((stamp_pixel image size pm st x y).1.getD i 0).testBit k =
      ((pm.getD i 0).testBit k || stampBit image size (x, y) i k) := by
  have hc1 : xy x y (size.1 + 1) < pm.length := by
    simp only [xy]
    nlinarith
  have hc2 : xy (x + 1) (y + 1) (size.1 + 1) < pm.length := by
    simp only [xy]
    nlinarith
  have hc3 : xy (x + 1) y (size.1 + 1) < pm.length := by
    simp only [xy]
    nlinarith
  have hc4 : xy x (y + 1) (size.1 + 1) < pm.length := by
    simp only [xy]
    nlinarith
  simp only [stamp_pixel, stampBit]
  split
  · split <;> split <;> split <;> split <;>
      simp_all [set_or_getD_testBit, set_or_getElem_testBit, List.length_set,
        dir_U, dir_D, dir_L, dir_R, testBit8, testBit4, testBit2, testBit1,
        Bool.or_assoc]
  · simp_all

/-- Folding a list (`flatMap`) distributes over `foldl`. -/
theorem foldl_flatMap {A B C : Type} (l : List A) (f : A → List B) (g : C → B → C)
    (init : C) :
    (l.flatMap f).foldl g init = l.foldl (fun acc a => (f a).foldl g acc) init := by
  induction l generalizing init with
  | nil => rfl
  | cons a rest ih => simp [List.flatMap_cons, List.foldl_append, ih]

/-- The stamping fold over an arbitrary in-range pixel list, observed
bitwise. -/
theorem stamp_fold_testBit (image : List Bool) (size : Nat × Nat) :
    ∀ (P : List (Nat × Nat)) (pm : List Nat) (st : Nat),
    (∀ p ∈ P, p.1 < size.1 ∧ p.2 < size.2) →
    (size.1 + 1) * (size.2 + 1) ≤ pm.length →
    ((∀ i k, ((P.foldl (fun acc p => stamp_pixel image size acc.1 acc.2 p.1 p.2)
        (pm, st)).1.getD i 0).testBit k =
      ((pm.getD i 0).testBit k || P.any (fun p => stampBit image size p i k))) ∧
    (P.foldl (fun acc p => stamp_pixel image size acc.1 acc.2 p.1 p.2)
        (pm, st)).1.length = pm.length) := by
  intro P
  induction P with
  | nil =>
    intro pm st _ _
    exact ⟨fun i k => by simp, rfl⟩
  | cons p rest ih =>
    intro pm st hin hlen
    have hp := hin p (List.mem_cons_self _ _)
    have hstep := stamp_pixel_getD_testBit image size pm st p.1 p.2
    have hslen := stamp_pixel_length image size pm st p.1 p.2
    have hres := ih (stamp_pixel image size pm st p.1 p.2).1
      (stamp_pixel image size pm st p.1 p.2).2
      (fun q hq => hin q (List.mem_cons_of_mem _ hq)) (by rw [hslen]; exact hlen)
    constructor
    · intro i k
      rw [List.foldl_cons]
      have h1 := (hres.1) i k
      rw [show ((stamp_pixel image size pm st p.1 p.2).1,
          (stamp_pixel image size pm st p.1 p.2).2) =
          stamp_pixel image size pm st p.1 p.2 from rfl] at h1
      rw [h1, hstep i k hp.1 hp.2 hlen, List.any_cons, Bool.or_assoc]
    · rw [List.foldl_cons]
      have h2 := hres.2
      rw [show ((stamp_pixel image size pm st p.1 p.2).1,
          (stamp_pixel image size pm st p.1 p.2).2) =
          stamp_pixel image size pm st p.1 p.2 from rfl] at h2
      rw [h2, hslen]

/-- **C9**: in the edge-stamping pass, direction bit `k` is set at corner
index `i` exactly when some raster pixel stamps it there by the four
rules of `stampBit` — a filled pixel with an empty left / right / down /
up neighbour sets `U` at `(x, y)` / `D` at `(x+1, y+1)` / `L` at
`(x+1, y)` / `R` at `(x, y+1)` respectively, and no other direction bits
are ever set. -/
theorem C9_stamping (image : List Bool) (size : Nat × Nat) (i k : Nat) :
    ((extract_outline_stamp image size).1.getD i 0).testBit k =
      (pixList size).any (fun p => stampBit image size p i k) := by
  have hrw : extract_outline_stamp image size =
      (pixList size).foldl (fun acc p => stamp_pixel image size acc.1 acc.2 p.1 p.2)
        (List.replicate ((size.1 + 1) * (size.2 + 1)) 0, 0) := by
    rw [extract_outline_stamp, pixList, foldl_flatMap]
    simp only [List.foldl_map]
  have hin : ∀ p ∈ pixList size, p.1 < size.1 ∧ p.2 < size.2 := by
    intro p hp
    simp only [pixList, List.mem_flatMap, List.mem_map, List.mem_range] at hp
    obtain ⟨y, hy, x, hx, hxy⟩ := hp
    rw [← hxy]
    exact ⟨hx, hy⟩
  have hlen : (size.1 + 1) * (size.2 + 1) ≤
      (List.replicate ((size.1 + 1) * (size.2 + 1)) (0 : Nat)).length := by
    simp
  have hmain := (stamp_fold_testBit image size (pixList size)
    (List.replicate ((size.1 + 1) * (size.2 + 1)) 0) 0 hin hlen).1 i k
  rw [hrw, hmain]
  have hz : (List.replicate ((size.1 + 1) * (size.2 + 1)) (0 : Nat)).getD i 0 = 0 := by
    rcases Nat.lt_or_ge i ((size.1 + 1) * (size.2 + 1)) with h1 | h1
    · rw [List.getD_eq_getElem?_getD, List.getElem?_replicate, if_pos h1]
      rfl
    · rw [getD_ge_length _ i (by simpa using h1)]
  rw [hz]
  simp

/-! ## Claim C4: the polygon simplifier -/

/-- Overwriting one entry with a `p`-satisfying value never shrinks the
`p`-filtered length. -/
theorem filter_set_ge {A : Type} (p : A → Bool) :
    ∀ (l : List A) (j : Nat) (v : A), p v = true →
    ((l.set j v).filter p).length ≥ (l.filter p).length := by
  intro l
  induction l with
  | nil =>
    intro j v _
    simp
  | cons a rest ih =>
    intro j v hv
    cases j with
    | zero =>
      cases hpa : p a <;> simp [List.filter_cons, hv, hpa] <;> omega
    | succ j =>
      simp only [List.set_cons_succ, List.filter_cons]
      cases hpa : p a <;> simp [hpa]
      · exact ih j v hv
      · have := ih j v hv
        omega

/-- Overwriting one entry shrinks the `p`-filtered length by at most one. -/
theorem filter_set_ge_sub {A : Type} (p : A → Bool) :
    ∀ (l : List A) (j : Nat) (v : A),
    ((l.set j v).filter p).length + 1 ≥ (l.filter p).length := by
  intro l
  induction l with
  | nil =>
    intro j v
    simp
  | cons a rest ih =>
    intro j v
    cases j with
    | zero =>
      cases hpa : p a <;> cases hpv : p v <;> simp [List.filter_cons, hpa, hpv] <;> omega
    | succ j =>
      simp only [List.set_cons_succ, List.filter_cons]
      cases hpa : p a <;> simp [hpa]
      · exact ih j v
      · have := ih j v
        omega

/-- `List.set` never changes the length (also when the index is out of
range). -/
theorem set_length {A : Type} (l : List A) (j : Nat) (v : A) :
    (l.set j v).length = l.length := List.length_set l j v

/-- Writing one entry (possibly out of range) and reading anywhere: the
read is the old entry, the written value, or — for the second write — the
sentinel. -/
theorem set_set_getD_cases (pe : List V2) (K D : Nat) (co : V2) (j : Nat) :
    ((pe.set K co).set D INVALID_CO).getD j (0, 0) = pe.getD j (0, 0) ∨
    ((pe.set K co).set D INVALID_CO).getD j (0, 0) = co ∨
    ((pe.set K co).set D INVALID_CO).getD j (0, 0) = INVALID_CO := by
  by_cases hjD : D = j
  · subst hjD
    by_cases hD : D < (pe.set K co).length
    · rw [getD_set_self _ _ hD]
      exact Or.inr (Or.inr rfl)
    · rw [List.set_eq_of_length_le (by omega)]
      by_cases hjK : K = D
      · subst hjK
        by_cases hK : K < pe.length
        · rw [getD_set_self _ _ hK]
          exact Or.inr (Or.inl rfl)
        · rw [List.set_eq_of_length_le (by omega)]
          exact Or.inl rfl
      · rw [getD_set_ne _ _ _ hjK]
        exact Or.inl rfl
  · rw [getD_set_ne _ _ _ hjD]
    by_cases hjK : K = j
    · subst hjK
      by_cases hK : K < pe.length
      · rw [getD_set_self _ _ hK]
        exact Or.inr (Or.inl rfl)
      · rw [List.set_eq_of_length_le (by omega)]
        exact Or.inl rfl
    · rw [getD_set_ne _ _ _ hjK]
      exact Or.inl rfl

/-- The shape of a completed simplifier loop run: the polygon buffer keeps
its length, the popped-candidate trace only grows, and every buffer entry
is an original entry, a popped candidate's collapse target, or the
sentinel. -/
theorem poly_simplify_loop_shape (t : ℚ) (min_len : Nat) :
    ∀ (fuel : Nat) (pe : List V2) (qs : List Quadric) (hp : MinHeap ℚ EdgeRemove)
      (eds : List Edge) (eh : List NodeHandle) (rem : Nat) (popped : List EdgeRemove)
      (st : List V2 × List Quadric × MinHeap ℚ EdgeRemove × List Edge ×
            List NodeHandle × Nat × List EdgeRemove),
    poly_simplify_loop t min_len fuel pe qs hp eds eh rem popped = some st →
    (∃ tl, st.2.2.2.2.2.2 = popped ++ tl) ∧
    st.1.length = pe.length ∧
    (∀ j, st.1.getD j (0, 0) = pe.getD j (0, 0) ∨
      (∃ r, r ∈ st.2.2.2.2.2.2 ∧ st.1.getD j (0, 0) = r.collapse_co) ∨
      st.1.getD j (0, 0) = INVALID_CO) := by
  intro fuel
  induction fuel with
  | zero =>
    intro pe qs hp eds eh rem popped st hrun
    simp only [poly_simplify_loop] at hrun
    split at hrun
    · rw [Option.some.injEq] at hrun
      subst hrun
      exact ⟨⟨[], by simp⟩, rfl, fun j => Or.inl rfl⟩
    · exact Option.noConfusion hrun
  | succ fuel ih =>
    intro pe qs hp eds eh rem popped st hrun
    rcases hpop : hp.pop_min with ⟨o, heap1⟩
    cases o with
    | none =>
      simp only [poly_simplify_loop, hpop] at hrun
      rw [Option.some.injEq] at hrun
      subst hrun
      exact ⟨⟨[], by simp⟩, rfl, fun j => Or.inl rfl⟩
    | some r =>
      simp only [poly_simplify_loop, hpop] at hrun
      split at hrun
      next hbreak =>
        rw [Option.some.injEq] at hrun
        subst hrun
        exact ⟨⟨[r], rfl⟩, rfl, fun j => Or.inl rfl⟩
      next hcont =>
        obtain ⟨⟨tl, htl⟩, hlen, hprov⟩ := ih _ _ _ _ _ _ _ _ hrun
        obtain ⟨K, D, hpe1⟩ : ∃ K D,
            (edge_heap_collapse pe qs heap1 eds (eh.set r.edge_index NodeHandle.INVAL)
              r.edge_index r.collapse_co t).1 =
            (pe.set K r.collapse_co).set D INVALID_CO := ⟨_, _, rfl⟩
        rw [hpe1] at hlen hprov
        have hrmem : r ∈ st.2.2.2.2.2.2 := by
          rw [htl, List.append_assoc, List.singleton_append]
          exact List.mem_append.mpr (Or.inr (List.mem_cons_self _ _))
        refine ⟨⟨r :: tl, by rw [htl, List.append_assoc, List.singleton_append]⟩, ?_, ?_⟩
        · rw [hlen, set_length, set_length]
        · intro j
          rcases hprov j with h1 | h1 | h1
          · rw [h1]
            rcases set_set_getD_cases pe K D r.collapse_co j with h2 | h2 | h2
            · exact Or.inl h2
            · exact Or.inr (Or.inl ⟨r, hrmem, h2⟩)
            · exact Or.inr (Or.inr h2)
          · obtain ⟨r2, hr2m, hr2e⟩ := h1
            exact Or.inr (Or.inl ⟨r2, hr2m, hr2e⟩)
          · exact Or.inr (Or.inr h1)

/-- The vertex-count bound of a completed simplifier loop run: provided no
popped candidate carries the sentinel as its collapse target, the number
of surviving (non-sentinel) vertices stays at least the remaining-length
counter, which itself never drops below `min rem min_len`. -/
theorem poly_simplify_loop_count (t : ℚ) (min_len : Nat) :
    ∀ (fuel : Nat) (pe : List V2) (qs : List Quadric) (hp : MinHeap ℚ EdgeRemove)
      (eds : List Edge) (eh : List NodeHandle) (rem : Nat) (popped : List EdgeRemove)
      (st : List V2 × List Quadric × MinHeap ℚ EdgeRemove × List Edge ×
            List NodeHandle × Nat × List EdgeRemove),
    poly_simplify_loop t min_len fuel pe qs hp eds eh rem popped = some st →
    (∀ r ∈ st.2.2.2.2.2.2, r.collapse_co ≠ INVALID_CO) →
    (pe.filter (fun co => co ≠ INVALID_CO)).length ≥ rem →
    (st.1.filter (fun co => co ≠ INVALID_CO)).length ≥ st.2.2.2.2.2.1 ∧
    st.2.2.2.2.2.1 ≥ min rem min_len := by
  intro fuel
  induction fuel with
  | zero =>
    intro pe qs hp eds eh rem popped st hrun hsent hcnt
    simp only [poly_simplify_loop] at hrun
    split at hrun
    · rw [Option.some.injEq] at hrun
      subst hrun
      exact ⟨hcnt, Nat.min_le_left _ _⟩
    · exact Option.noConfusion hrun
  | succ fuel ih =>
    intro pe qs hp eds eh rem popped st hrun hsent hcnt
    rcases hpop : hp.pop_min with ⟨o, heap1⟩
    cases o with
    | none =>
      simp only [poly_simplify_loop, hpop] at hrun
      rw [Option.some.injEq] at hrun
      subst hrun
      exact ⟨hcnt, Nat.min_le_left _ _⟩
    | some r =>
      simp only [poly_simplify_loop, hpop] at hrun
      split at hrun
      next hbreak =>
        rw [Option.some.injEq] at hrun
        subst hrun
        exact ⟨hcnt, Nat.min_le_left _ _⟩
      next hcont =>
        have hshape := poly_simplify_loop_shape t min_len fuel _ _ _ _ _ _ _ _ hrun
        obtain ⟨⟨tl, htl⟩, _, _⟩ := hshape
        have hrmem : r ∈ st.2.2.2.2.2.2 := by
          rw [htl, List.append_assoc, List.singleton_append]
          exact List.mem_append.mpr (Or.inr (List.mem_cons_self _ _))
        have hrco := hsent r hrmem
        obtain ⟨K, D, hpe1⟩ : ∃ K D,
            (edge_heap_collapse pe qs heap1 eds (eh.set r.edge_index NodeHandle.INVAL)
              r.edge_index r.collapse_co t).1 =
            (pe.set K r.collapse_co).set D INVALID_CO := ⟨_, _, rfl⟩
        have hcnt1 : (((pe.set K r.collapse_co).set D INVALID_CO).filter
            (fun co => co ≠ INVALID_CO)).length ≥ rem - 1 := by
          have h1 := filter_set_ge (fun co => decide (co ≠ INVALID_CO)) pe K
            r.collapse_co (decide_eq_true hrco)
          have h2 := filter_set_ge_sub (fun co => decide (co ≠ INVALID_CO))
            (pe.set K r.collapse_co) D INVALID_CO
          omega
        rw [← hpe1] at hcnt1
        have hres := ih _ _ _ _ _ _ _ _ hrun hsent hcnt1
        refine ⟨hres.1, ?_⟩
        have h3 := hres.2
        omega

/-- **C4** (amended): an edge-collapse candidate is inserted into the heap
exactly when its cost is strictly below the squared threshold; collapsing
stops before the remaining-length counter drops below 4 (cyclic) or
2 (open); and — provided no input vertex and no popped candidate's
collapse target equals the in-band sentinel `INVALID_CO = [f64::MAX; 2]` —
the returned polygon has at least `min (input length) 4` vertices when
cyclic and `min (input length) 2` when open, and is the in-order filter of
a buffer whose every entry is the input vertex at that position, a popped
candidate's computed collapse target, or the sentinel. -/
theorem C4_simplify_bounds (ops : RealOps) (is_cyclic : Bool) (poly : List V2)
    (simplify_threshold : ℚ) (fuel : Nat) (out : List V2) (popped : List EdgeRemove)
    (hrun : poly_simplify ops is_cyclic poly simplify_threshold fuel =
      some (out, popped))
    (hin : ∀ v ∈ poly, v ≠ INVALID_CO)
    (hpop : ∀ r ∈ popped, r.collapse_co ≠ INVALID_CO) :
    (∀ (pe2 : List V2) (qs2 : List Quadric) (hp2 : MinHeap ℚ EdgeRemove) (e : Edge)
      (i : Nat) (t2 : ℚ),
      (edge_collapse_cost qs2 e (edge_collapse_target pe2 qs2 e) < t2 →
        edge_heap_insert pe2 qs2 hp2 e i t2 =
          ((hp2.insert (edge_collapse_cost qs2 e (edge_collapse_target pe2 qs2 e))
            ⟨i, edge_collapse_target pe2 qs2 e⟩).2,
           (hp2.insert (edge_collapse_cost qs2 e (edge_collapse_target pe2 qs2 e))
            ⟨i, edge_collapse_target pe2 qs2 e⟩).1)) ∧
      (¬ edge_collapse_cost qs2 e (edge_collapse_target pe2 qs2 e) < t2 →
        edge_heap_insert pe2 qs2 hp2 e i t2 = (hp2, NodeHandle.INVAL))) ∧
    out.length ≥ min poly.length (if is_cyclic then 4 else 2) ∧
    (∃ pe : List V2, out = pe.filter (fun co => co ≠ INVALID_CO) ∧
      pe.length = poly.length ∧
      ∀ j, pe.getD j (0, 0) = poly.getD j (0, 0) ∨
        (∃ r, r ∈ popped ∧ pe.getD j (0, 0) = r.collapse_co) ∨
        pe.getD j (0, 0) = INVALID_CO) := by
  refine ⟨?_, ?_⟩
  · intro pe2 qs2 hp2 e i t2
    constructor
    · intro hlt
      simp only [edge_heap_insert]
      rw [if_pos hlt]
    · intro hge
      simp only [edge_heap_insert]
      rw [if_neg hge]
  · by_cases hguard : poly.length = 0 ∨ (¬ is_cyclic = true ∧ poly.length < 2)
    · rw [poly_simplify, if_pos hguard] at hrun
      exact Option.noConfusion hrun
    · rw [poly_simplify, if_neg hguard] at hrun
      split at hrun
      next hcyc =>
        rw [if_pos hcyc]
        simp only [] at hrun
        split at hrun
        next hloop =>
          exact Option.noConfusion hrun
        next st hloop =>
          rw [Option.some.injEq, Prod.mk.injEq] at hrun
          obtain ⟨hout, hpopped⟩ := hrun
          obtain ⟨⟨tl, htl⟩, hlen, hprov⟩ :=
            poly_simplify_loop_shape _ _ _ _ _ _ _ _ _ _ _ hloop
          rw [List.nil_append] at htl
          have hsent : ∀ r ∈ st.2.2.2.2.2.2, r.collapse_co ≠ INVALID_CO := by
            intro r hr
            apply hpop
            rw [← hpopped]
            exact hr
          have hcnt0 : (poly.filter (fun co => co ≠ INVALID_CO)).length ≥ poly.length := by
            rw [List.filter_length_eq_length.mpr (fun a ha => decide_eq_true (hin a ha))]
          obtain ⟨hc1, hc2⟩ :=
            poly_simplify_loop_count _ _ _ _ _ _ _ _ _ _ _ hloop hsent hcnt0
          constructor
          · rw [← hout]
            omega
          · refine ⟨st.1, hout.symm, hlen, ?_⟩
            intro j
            rcases hprov j with h1 | h1 | h1
            · exact Or.inl h1
            · obtain ⟨r, hr, he⟩ := h1
              exact Or.inr (Or.inl ⟨r, by rw [← hpopped]; exact hr, he⟩)
            · exact Or.inr (Or.inr h1)
      next hcyc =>
        rw [if_neg hcyc]
        simp only [] at hrun
        split at hrun
        next hloop =>
          exact Option.noConfusion hrun
        next st hloop =>
          rw [Option.some.injEq, Prod.mk.injEq] at hrun
          obtain ⟨hout, hpopped⟩ := hrun
          obtain ⟨⟨tl, htl⟩, hlen, hprov⟩ :=
            poly_simplify_loop_shape _ _ _ _ _ _ _ _ _ _ _ hloop
          rw [List.nil_append] at htl
          have hsent : ∀ r ∈ st.2.2.2.2.2.2, r.collapse_co ≠ INVALID_CO := by
            intro r hr
            apply hpop
            rw [← hpopped]
            exact hr
          have hcnt0 : (poly.filter (fun co => co ≠ INVALID_CO)).length ≥ poly.length := by
            rw [List.filter_length_eq_length.mpr (fun a ha => decide_eq_true (hin a ha))]
          obtain ⟨hc1, hc2⟩ :=
            poly_simplify_loop_count _ _ _ _ _ _ _ _ _ _ _ hloop hsent hcnt0
          constructor
          · rw [← hout]
            omega
          · refine ⟨st.1, hout.symm, hlen, ?_⟩
            intro j
            rcases hprov j with h1 | h1 | h1
            · exact Or.inl h1
            · obtain ⟨r, hr, he⟩ := h1
              exact Or.inr (Or.inl ⟨r, by rw [← hpopped]; exact hr, he⟩)
            · exact Or.inr (Or.inr h1)

theorem C4_simplify_bounds_witness :
    poly_simplify zeroOps false [(((0:ℚ)), ((0:ℚ))), (((1:ℚ)), ((0:ℚ)))] 1 1 =
      some ([(((0:ℚ)), ((0:ℚ))), (((1:ℚ)), ((0:ℚ)))], []) ∧
    ([(((0:ℚ)), ((0:ℚ))), (((1:ℚ)), ((0:ℚ)))] : List V2).length ≥
      min ([(((0:ℚ)), ((0:ℚ))), (((1:ℚ)), ((0:ℚ)))] : List V2).length
        (if (false : Bool) then 4 else 2) := by
  have hq0 : (0:ℚ) ≠ f64_MAX := by rw [f64_MAX]; norm_num
  have hq1 : (1:ℚ) ≠ f64_MAX := by rw [f64_MAX]; norm_num
  have h0 : ((0 : V2)) ≠ INVALID_CO := fun hc => hq0 (congrArg Prod.fst hc)
  have h1 : ((((1:ℚ)), ((0:ℚ))) : V2) ≠ INVALID_CO := fun hc => hq1 (congrArg Prod.fst hc)
  have hrun : poly_simplify zeroOps false [(((0:ℚ)), ((0:ℚ))), (((1:ℚ)), ((0:ℚ)))] 1 1 =
      some ([(((0:ℚ)), ((0:ℚ))), (((1:ℚ)), ((0:ℚ)))], []) := by
    simp [poly_simplify, poly_simplify_edges_open, poly_simplify_loop,
      MinHeap.pop_min, MinHeap.with_capacity, h0, h1]
  have hin : ∀ v ∈ [(((0:ℚ)), ((0:ℚ))), (((1:ℚ)), ((0:ℚ)))], v ≠ INVALID_CO := by
    intro v hv
    rcases List.mem_cons.mp hv with rfl | hv
    · exact h0
    rcases List.mem_cons.mp hv with rfl | hv
    · exact h1
    · exact absurd hv (List.not_mem_nil v)
  have hpop : ∀ r ∈ ([] : List EdgeRemove), r.collapse_co ≠ INVALID_CO :=
    fun r hr => absurd hr (List.not_mem_nil r)
  exact ⟨hrun, (C4_simplify_bounds zeroOps false _ 1 1 _ _ hrun hin hpop).2.1⟩

/-- The unamended C4 sentence fails on an input containing the in-band
sentinel `[f64::MAX; 2]`: the open 2-gon below performs no collapse at all
(the candidate index range is empty), yet the output has 1 < min 2 2
vertices, because the final filter drops the sentinel vertex. -/
theorem C4_counterexample :
    poly_simplify zeroOps false [((f64_MAX), (f64_MAX)), (((0:ℚ)), ((0:ℚ)))] 1 1 =
      some ([(((0:ℚ)), ((0:ℚ)))], []) ∧
    ([(((0:ℚ)), ((0:ℚ)))] : List V2).length <
      min ([((f64_MAX), (f64_MAX)), (((0:ℚ)), ((0:ℚ)))] : List V2).length 2 := by
  have hq0 : (0:ℚ) ≠ f64_MAX := by rw [f64_MAX]; norm_num
  have h0 : ((0 : V2)) ≠ INVALID_CO := fun hc => hq0 (congrArg Prod.fst hc)
  have hEq : (((f64_MAX), (f64_MAX)) : V2) = INVALID_CO := rfl
  constructor
  · simp [poly_simplify, poly_simplify_edges_open, poly_simplify_loop,
      MinHeap.pop_min, MinHeap.with_capacity, hEq, h0]
  · simp

theorem emit_walk_length (points tangents : List V2) (knots : List Knot) :
    ∀ (n s : Nat), (emit_walk points tangents knots n s).length = n := by
  intro n
  induction n with
  | zero => intro s; rfl
  | succ n ih => intro s; simp [emit_walk, ih]

theorem walk_pos_shift (knots : List Knot) :
    ∀ (j s : Nat), walk_pos knots ((getKnot knots s).next) j = walk_pos knots s (j + 1) := by
  intro j
  induction j with
  | zero => intro s; rfl
  | succ j ih => intro s; simp only [walk_pos, ih]

theorem emit_walk_getD (points tangents : List V2) (knots : List Knot) :
    ∀ (n s j : Nat), j < n →
      (emit_walk points tangents knots n s).getD j default =
        emit_triple points tangents knots (walk_pos knots s j) := by
  intro n
  induction n with
  | zero => intro s j hj; exact absurd hj (Nat.not_lt_zero j)
  | succ n ih =>
    intro s j hj
    cases j with
    | zero => rfl
    | succ j =>
      have h := ih (getKnot knots s).next j (Nat.lt_of_succ_lt_succ hj)
      rw [emit_walk, List.getD_cons_succ, h, walk_pos_shift]

/-- **C1** (amended): after the fitting phases finish, `fit_poly_single`
walks the ring from the first live knot and emits for the `j`-th visited
knot the triple `(p + tan[0]·handles[0], p, p + tan[1]·handles[1])` — the
left handle is produced by `madd` (addition) exactly like the right one;
the sign convention lives in the stored handle lengths, not in the
emission formula. -/
theorem C1_emission (ops : RealOps) (points_orig : List V2) (is_cyclic : Bool)
    (error_threshold corner_angle : ℚ) (use_optimize_exhaustive : Bool) (fuel : Nat)
    (pd : PointData) (knots : List Knot) (rem : Nat)
    (hph : fit_phases ops points_orig is_cyclic error_threshold corner_angle
      use_optimize_exhaustive fuel = some (pd, knots, rem)) :
    ∃ out, fit_poly_single ops points_orig is_cyclic error_threshold corner_angle
        use_optimize_exhaustive fuel = some out ∧
      out.length = rem ∧
      ∀ j, j < rem → out.getD j default =
        emit_triple pd.points pd.tangents knots
          (walk_pos knots (first_live_index knots) j) := by
  refine ⟨emit_walk pd.points pd.tangents knots rem (first_live_index knots), ?_, ?_, ?_⟩
  · rw [fit_poly_single, hph]
  · exact emit_walk_length _ _ _ _ _
  · intro j hj
    exact emit_walk_getD _ _ _ _ _ j hj

theorem C1_emission_witness :
    fit_phases zeroOps [(((0:ℚ)), ((0:ℚ)))] false 1 4 false 1 = some (⟨[(((0:ℚ)), ((0:ℚ)))], 1, [0], [((0:ℚ), (0:ℚ)), ((0:ℚ), (0:ℚ))]⟩, [⟨INVALID, INVALID, 0, true, false, false, ((0:ℚ), (0:ℚ)), 0, (0, 1)⟩], 1) ∧
    (∃ out, fit_poly_single zeroOps [(((0:ℚ)), ((0:ℚ)))] false 1 4 false 1 = some out ∧
      out.length = 1 ∧
      ∀ j, j < 1 → out.getD j default =
        emit_triple [(((0:ℚ)), ((0:ℚ)))] [((0:ℚ), (0:ℚ)), ((0:ℚ), (0:ℚ))]
          [⟨INVALID, INVALID, 0, true, false, false, ((0:ℚ), (0:ℚ)), 0, (0, 1)⟩]
          (walk_pos [⟨INVALID, INVALID, 0, true, false, false, ((0:ℚ), (0:ℚ)), 0, (0, 1)⟩]
            (first_live_index [⟨INVALID, INVALID, 0, true, false, false, ((0:ℚ), (0:ℚ)), 0, (0, 1)⟩]) j)) := by
  have hpi : ¬((4:ℚ) < f64_PI) := by rw [f64_PI]; norm_num
  have hph : fit_phases zeroOps [(((0:ℚ)), ((0:ℚ)))] false 1 4 false 1 = some (⟨[(((0:ℚ)), ((0:ℚ)))], 1, [0], [((0:ℚ), (0:ℚ)), ((0:ℚ), (0:ℚ))]⟩, [⟨INVALID, INVALID, 0, true, false, false, ((0:ℚ), (0:ℚ)), 0, (0, 1)⟩], 1) := by
    norm_num [fit_phases, getKnot, updateKnot, List.range_succ, sq,
      curve_incremental_simplify, refine_remove_scan, refine_remove_loop,
      MinHeap.pop_min_with_value, MinHeap.with_capacity,
      curve_incremental_simplify_refit, refine_refit_scan, refine_refit_loop,
      MinHeap.pop_min, USE_REFIT, hpi, INVALID, List.replicate_succ]
  exact ⟨hph, C1_emission zeroOps _ false 1 4 false 1 _ _ 1 hph⟩

/-- The C1 sentence as frozen is refuted on a concrete open 2-gon: the
source emits the left handle with `madd` while the spec-modelled
`fit_poly_single_spec` (which subtracts, per the spec text) produces a
different first handle, so the two disagree. -/
theorem C1_counterexample :
    fit_poly_single sqrt9Ops [(((0:ℚ)), ((0:ℚ))), (((3:ℚ)), ((0:ℚ)))] false 1 4 false 1 =
      some [((((-1:ℚ)), ((0:ℚ))), (((0:ℚ)), ((0:ℚ))), (((1:ℚ)), ((0:ℚ)))),
            ((((2:ℚ)), ((0:ℚ))), (((3:ℚ)), ((0:ℚ))), (((4:ℚ)), ((0:ℚ))))] ∧
    fit_poly_single_spec sqrt9Ops [(((0:ℚ)), ((0:ℚ))), (((3:ℚ)), ((0:ℚ)))] false 1 4 false 1 =
      some [((((1:ℚ)), ((0:ℚ))), (((0:ℚ)), ((0:ℚ))), (((1:ℚ)), ((0:ℚ)))),
            ((((4:ℚ)), ((0:ℚ))), (((3:ℚ)), ((0:ℚ))), (((4:ℚ)), ((0:ℚ))))] ∧
    fit_poly_single sqrt9Ops [(((0:ℚ)), ((0:ℚ))), (((3:ℚ)), ((0:ℚ)))] false 1 4 false 1 ≠
      fit_poly_single_spec sqrt9Ops [(((0:ℚ)), ((0:ℚ))), (((3:ℚ)), ((0:ℚ)))] false 1 4 false 1 := by
  have hpi : ¬((4:ℚ) < f64_PI) := by rw [f64_PI]; norm_num
  have h1 : fit_poly_single sqrt9Ops [(((0:ℚ)), ((0:ℚ))), (((3:ℚ)), ((0:ℚ)))] false 1 4 false 1 =
      some [((((-1:ℚ)), ((0:ℚ))), (((0:ℚ)), ((0:ℚ))), (((1:ℚ)), ((0:ℚ)))),
            ((((2:ℚ)), ((0:ℚ))), (((3:ℚ)), ((0:ℚ))), (((4:ℚ)), ((0:ℚ))))] := by
    norm_num [fit_poly_single, fit_phases, fit_init_open, getKnot, updateKnot,
      List.range_succ, sq, normalized_vnvn_with_len, normalize_vn, sub_vnvn,
      len_squared_vn, mul_vn_fl, getV, sqrt9Ops,
      curve_incremental_simplify, refine_remove_scan, refine_remove_loop,
      MinHeap.pop_min_with_value, MinHeap.with_capacity,
      curve_incremental_simplify_refit, refine_refit_scan, refine_refit_loop,
      MinHeap.pop_min, USE_REFIT, hpi, INVALID, first_live_index, emit_walk,
      madd_vnvn_fl, List.replicate_succ, List.findIdx_cons]
  have h2 : fit_poly_single_spec sqrt9Ops [(((0:ℚ)), ((0:ℚ))), (((3:ℚ)), ((0:ℚ)))] false 1 4 false 1 =
      some [((((1:ℚ)), ((0:ℚ))), (((0:ℚ)), ((0:ℚ))), (((1:ℚ)), ((0:ℚ)))),
            ((((4:ℚ)), ((0:ℚ))), (((3:ℚ)), ((0:ℚ))), (((4:ℚ)), ((0:ℚ))))] := by
    norm_num [fit_poly_single_spec, fit_phases, fit_init_open, getKnot, updateKnot,
      List.range_succ, sq, normalized_vnvn_with_len, normalize_vn, sub_vnvn,
      len_squared_vn, mul_vn_fl, getV, sqrt9Ops,
      curve_incremental_simplify, refine_remove_scan, refine_remove_loop,
      MinHeap.pop_min_with_value, MinHeap.with_capacity,
      curve_incremental_simplify_refit, refine_refit_scan, refine_refit_loop,
      MinHeap.pop_min, USE_REFIT, hpi, INVALID, first_live_index, emit_walk_spec,
      madd_vnvn_fl, msub_vnvn_fl, List.replicate_succ, List.findIdx_cons]
  refine ⟨h1, h2, ?_⟩
  rw [h1, h2]
  intro hc
  simp only [Option.some.injEq, List.cons.injEq, Prod.mk.injEq] at hc
  exact absurd hc.1.1.1 (by norm_num)

theorem knot_calc_pair_above_lt (ops : RealOps) (pd : PointData) (kp kr kn : Knot)
    (b : ℚ) (frr : (ℚ × ℚ) × ℚ × (ℚ × ℚ) × ℚ)
    (h : knot_calc_curve_error_value_pair_above_error_or_none ops pd kp kr kn b =
      some frr) : frr.2.1 < b ∧ frr.2.2.2 < b := by
  unfold knot_calc_curve_error_value_pair_above_error_or_none at h
  simp only [] at h
  split at h
  next hrp =>
    split at h
    next hrn =>
      rw [Option.some.injEq] at h
      subst h
      exact ⟨hrp, hrn⟩
    next => exact Option.noConfusion h
  next => exact Option.noConfusion h

theorem refit_exhaustive_above (ops : RealOps) (pd : PointData) (knots : List Knot)
    (kp kn : Knot) (ci : Nat) :
    ∀ (fuel t0 : Nat) (cb : ℚ) (kr : Nat)
      (res : Option ((ℚ × ℚ) × ℚ × (ℚ × ℚ) × ℚ)) (b0 : ℚ),
      cb ≤ b0 → (∀ frr, res = some frr → max frr.2.1 frr.2.2.2 < b0) →
      ∀ frr,
        (refit_exhaustive_loop ops pd knots kp kn ci fuel t0 cb kr res).2.2 = some frr →
        max frr.2.1 frr.2.2.2 < b0 := by
  intro fuel
  induction fuel with
  | zero =>
    intro t0 cb kr res b0 hcb hres frr h
    exact hres frr h
  | succ fuel ih =>
    intro t0 cb kr res b0 hcb hres frr h
    simp only [refit_exhaustive_loop] at h
    split at h
    all_goals
      split at h
      · exact hres frr h
      · split at h
        · split at h
          next f hf =>
            refine ih _ _ _ _ b0 ?_ ?_ frr h
            · obtain ⟨ha, hb⟩ := knot_calc_pair_above_lt ops pd _ _ _ _ f hf
              have hlt := max_lt ha hb
              linarith
            · intro frr2 he
              rw [Option.some.injEq] at he
              subst he
              obtain ⟨ha, hb⟩ := knot_calc_pair_above_lt ops pd _ _ _ _ f hf
              have hlt := max_lt ha hb
              linarith
          next => exact ih _ _ _ _ b0 hcb hres frr h
        · exact ih _ _ _ _ b0 hcb hres frr h

/-- **C5** (amended): in the Phase C refit pass, a removal candidate whose
bypass fit error `err` is below `error_threshold²` is inserted with key
`err − error_threshold²` (negative), and a re-anchoring candidate — in
both the exhaustive and the non-exhaustive mode — is inserted with key
`cost_sq_src_max − max(err_prev, err_next)`, where
`cost_sq_src_max = max(k_prev.fit_error_sq_next, k.fit_error_sq_next)` is
the immutable pre-scan cost: the *old* cost minus the *new* one, the
negation of the claimed formula.  The key is strictly positive whenever
the insertion happens (in exhaustive mode every accepted candidate's
errors are below the running bound, which never exceeds
`cost_sq_src_max`), so removal candidates (negative keys) still sort
before re-anchoring candidates (positive keys). -/
theorem C5_refit_keys (ops : RealOps) (pd : PointData) (heap : MinHeap ℚ KnotRefitState)
    (knots : List Knot) (knots_handle : List NodeHandle) (k_curr : Knot)
    (error_max_sq : ℚ) (use_optimize_exhaustive : Bool) :
    ((knot_calc_curve_error_value_and_index ops pd (getKnot knots k_curr.prev) (getKnot knots k_curr.next) (getV pd.tangents (getKnot knots k_curr.prev).tan.2) (getV pd.tangents (getKnot knots k_curr.next).tan.1)).1 < error_max_sq →
      knot_refit_error_recalculate ops pd heap knots knots_handle k_curr error_max_sq use_optimize_exhaustive =
        (((if knots_handle.getD k_curr.index NodeHandle.INVAL ≠ NodeHandle.INVAL then heap.remove (knots_handle.getD k_curr.index NodeHandle.INVAL) else heap).insert ((knot_calc_curve_error_value_and_index ops pd (getKnot knots k_curr.prev) (getKnot knots k_curr.next) (getV pd.tangents (getKnot knots k_curr.prev).tan.2) (getV pd.tangents (getKnot knots k_curr.next).tan.1)).1 - error_max_sq) (⟨k_curr.index, INVALID, (((knot_calc_curve_error_value_and_index ops pd (getKnot knots k_curr.prev) (getKnot knots k_curr.next) (getV pd.tangents (getKnot knots k_curr.prev).tan.2) (getV pd.tangents (getKnot knots k_curr.next).tan.1)).2.2.1, 0), (0, (knot_calc_curve_error_value_and_index ops pd (getKnot knots k_curr.prev) (getKnot knots k_curr.next) (getV pd.tangents (getKnot knots k_curr.prev).tan.2) (getV pd.tangents (getKnot knots k_curr.next).tan.1)).2.2.2)), ((knot_calc_curve_error_value_and_index ops pd (getKnot knots k_curr.prev) (getKnot knots k_curr.next) (getV pd.tangents (getKnot knots k_curr.prev).tan.2) (getV pd.tangents (getKnot knots k_curr.next).tan.1)).1, (knot_calc_curve_error_value_and_index ops pd (getKnot knots k_curr.prev) (getKnot knots k_curr.next) (getV pd.tangents (getKnot knots k_curr.prev).tan.2) (getV pd.tangents (getKnot knots k_curr.next).tan.1)).1)⟩ : KnotRefitState)).2, knots_handle.set k_curr.index ((if knots_handle.getD k_curr.index NodeHandle.INVAL ≠ NodeHandle.INVAL then heap.remove (knots_handle.getD k_curr.index NodeHandle.INVAL) else heap).insert ((knot_calc_curve_error_value_and_index ops pd (getKnot knots k_curr.prev) (getKnot knots k_curr.next) (getV pd.tangents (getKnot knots k_curr.prev).tan.2) (getV pd.tangents (getKnot knots k_curr.next).tan.1)).1 - error_max_sq) (⟨k_curr.index, INVALID, (((knot_calc_curve_error_value_and_index ops pd (getKnot knots k_curr.prev) (getKnot knots k_curr.next) (getV pd.tangents (getKnot knots k_curr.prev).tan.2) (getV pd.tangents (getKnot knots k_curr.next).tan.1)).2.2.1, 0), (0, (knot_calc_curve_error_value_and_index ops pd (getKnot knots k_curr.prev) (getKnot knots k_curr.next) (getV pd.tangents (getKnot knots k_curr.prev).tan.2) (getV pd.tangents (getKnot knots k_curr.next).tan.1)).2.2.2)), ((knot_calc_curve_error_value_and_index ops pd (getKnot knots k_curr.prev) (getKnot knots k_curr.next) (getV pd.tangents (getKnot knots k_curr.prev).tan.2) (getV pd.tangents (getKnot knots k_curr.next).tan.1)).1, (knot_calc_curve_error_value_and_index ops pd (getKnot knots k_curr.prev) (getKnot knots k_curr.next) (getV pd.tangents (getKnot knots k_curr.prev).tan.2) (getV pd.tangents (getKnot knots k_curr.next).tan.1)).1)⟩ : KnotRefitState)).1) ∧
      (knot_calc_curve_error_value_and_index ops pd (getKnot knots k_curr.prev) (getKnot knots k_curr.next) (getV pd.tangents (getKnot knots k_curr.prev).tan.2) (getV pd.tangents (getKnot knots k_curr.next).tan.1)).1 - error_max_sq < 0) ∧
    (¬ (knot_calc_curve_error_value_and_index ops pd (getKnot knots k_curr.prev) (getKnot knots k_curr.next) (getV pd.tangents (getKnot knots k_curr.prev).tan.2) (getV pd.tangents (getKnot knots k_curr.next).tan.1)).1 < error_max_sq →
      ¬ (use_optimize_exhaustive = false ∧ ((knot_calc_curve_error_value_and_index ops pd (getKnot knots k_curr.prev) (getKnot knots k_curr.next) (getV pd.tangents (getKnot knots k_curr.prev).tan.2) (getV pd.tangents (getKnot knots k_curr.next).tan.1)).2.1 = INVALID ∨ (knot_calc_curve_error_value_and_index ops pd (getKnot knots k_curr.prev) (getKnot knots k_curr.next) (getV pd.tangents (getKnot knots k_curr.prev).tan.2) (getV pd.tangents (getKnot knots k_curr.next).tan.1)).2.1 = k_curr.index) ∧ knots_handle.getD k_curr.index NodeHandle.INVAL ≠ NodeHandle.INVAL) →
      ∀ frr, (if use_optimize_exhaustive = true then refit_exhaustive_loop ops pd knots (getKnot knots k_curr.prev) (getKnot knots k_curr.next) k_curr.index (knots.length + 2) ((getKnot knots k_curr.prev).index + 1) (max (getKnot knots k_curr.prev).fit_error_sq_next k_curr.fit_error_sq_next) (knot_calc_curve_error_value_and_index ops pd (getKnot knots k_curr.prev) (getKnot knots k_curr.next) (getV pd.tangents (getKnot knots k_curr.prev).tan.2) (getV pd.tangents (getKnot knots k_curr.next).tan.1)).2.1 none else ((knot_calc_curve_error_value_and_index ops pd (getKnot knots k_curr.prev) (getKnot knots k_curr.next) (getV pd.tangents (getKnot knots k_curr.prev).tan.2) (getV pd.tangents (getKnot knots k_curr.next).tan.1)).2.1, max (getKnot knots k_curr.prev).fit_error_sq_next k_curr.fit_error_sq_next, knot_calc_curve_error_value_pair_above_error_or_none ops pd (getKnot knots k_curr.prev) (getKnot knots (knot_calc_curve_error_value_and_index ops pd (getKnot knots k_curr.prev) (getKnot knots k_curr.next) (getV pd.tangents (getKnot knots k_curr.prev).tan.2) (getV pd.tangents (getKnot knots k_curr.next).tan.1)).2.1) (getKnot knots k_curr.next) (max (getKnot knots k_curr.prev).fit_error_sq_next k_curr.fit_error_sq_next))).2.2 = some frr →
      knot_refit_error_recalculate ops pd heap knots knots_handle k_curr error_max_sq use_optimize_exhaustive =
        (((if knots_handle.getD k_curr.index NodeHandle.INVAL ≠ NodeHandle.INVAL then heap.remove (knots_handle.getD k_curr.index NodeHandle.INVAL) else heap).insert (max (getKnot knots k_curr.prev).fit_error_sq_next k_curr.fit_error_sq_next - max frr.2.1 frr.2.2.2) (⟨k_curr.index, (if use_optimize_exhaustive = true then refit_exhaustive_loop ops pd knots (getKnot knots k_curr.prev) (getKnot knots k_curr.next) k_curr.index (knots.length + 2) ((getKnot knots k_curr.prev).index + 1) (max (getKnot knots k_curr.prev).fit_error_sq_next k_curr.fit_error_sq_next) (knot_calc_curve_error_value_and_index ops pd (getKnot knots k_curr.prev) (getKnot knots k_curr.next) (getV pd.tangents (getKnot knots k_curr.prev).tan.2) (getV pd.tangents (getKnot knots k_curr.next).tan.1)).2.1 none else ((knot_calc_curve_error_value_and_index ops pd (getKnot knots k_curr.prev) (getKnot knots k_curr.next) (getV pd.tangents (getKnot knots k_curr.prev).tan.2) (getV pd.tangents (getKnot knots k_curr.next).tan.1)).2.1, max (getKnot knots k_curr.prev).fit_error_sq_next k_curr.fit_error_sq_next, knot_calc_curve_error_value_pair_above_error_or_none ops pd (getKnot knots k_curr.prev) (getKnot knots (knot_calc_curve_error_value_and_index ops pd (getKnot knots k_curr.prev) (getKnot knots k_curr.next) (getV pd.tangents (getKnot knots k_curr.prev).tan.2) (getV pd.tangents (getKnot knots k_curr.next).tan.1)).2.1) (getKnot knots k_curr.next) (max (getKnot knots k_curr.prev).fit_error_sq_next k_curr.fit_error_sq_next))).1, (frr.1, frr.2.2.1), (frr.2.1, frr.2.2.2)⟩ : KnotRefitState)).2, knots_handle.set k_curr.index ((if knots_handle.getD k_curr.index NodeHandle.INVAL ≠ NodeHandle.INVAL then heap.remove (knots_handle.getD k_curr.index NodeHandle.INVAL) else heap).insert (max (getKnot knots k_curr.prev).fit_error_sq_next k_curr.fit_error_sq_next - max frr.2.1 frr.2.2.2) (⟨k_curr.index, (if use_optimize_exhaustive = true then refit_exhaustive_loop ops pd knots (getKnot knots k_curr.prev) (getKnot knots k_curr.next) k_curr.index (knots.length + 2) ((getKnot knots k_curr.prev).index + 1) (max (getKnot knots k_curr.prev).fit_error_sq_next k_curr.fit_error_sq_next) (knot_calc_curve_error_value_and_index ops pd (getKnot knots k_curr.prev) (getKnot knots k_curr.next) (getV pd.tangents (getKnot knots k_curr.prev).tan.2) (getV pd.tangents (getKnot knots k_curr.next).tan.1)).2.1 none else ((knot_calc_curve_error_value_and_index ops pd (getKnot knots k_curr.prev) (getKnot knots k_curr.next) (getV pd.tangents (getKnot knots k_curr.prev).tan.2) (getV pd.tangents (getKnot knots k_curr.next).tan.1)).2.1, max (getKnot knots k_curr.prev).fit_error_sq_next k_curr.fit_error_sq_next, knot_calc_curve_error_value_pair_above_error_or_none ops pd (getKnot knots k_curr.prev) (getKnot knots (knot_calc_curve_error_value_and_index ops pd (getKnot knots k_curr.prev) (getKnot knots k_curr.next) (getV pd.tangents (getKnot knots k_curr.prev).tan.2) (getV pd.tangents (getKnot knots k_curr.next).tan.1)).2.1) (getKnot knots k_curr.next) (max (getKnot knots k_curr.prev).fit_error_sq_next k_curr.fit_error_sq_next))).1, (frr.1, frr.2.2.1), (frr.2.1, frr.2.2.2)⟩ : KnotRefitState)).1) ∧
      0 < (max (getKnot knots k_curr.prev).fit_error_sq_next k_curr.fit_error_sq_next - max frr.2.1 frr.2.2.2)) := by
  constructor
  · intro hA
    constructor
    · simp only [knot_refit_error_recalculate]
      rw [if_pos ⟨rfl, hA⟩]
    · linarith
  · intro hge hns frr hfrr
    cases use_optimize_exhaustive with
    | false =>
      rw [if_neg (by norm_num)] at hfrr
      simp only [] at hfrr
      constructor
      · simp only [knot_refit_error_recalculate]
        rw [if_neg (fun hc => hge hc.2), if_neg (fun hc => hns ⟨rfl, hc.2⟩)]
        simp only [Bool.false_eq_true, if_false, hfrr]
      · obtain ⟨h1, h2⟩ := knot_calc_pair_above_lt ops pd _ _ _ _ frr hfrr
        have hm : max frr.2.1 frr.2.2.2 < max (getKnot knots k_curr.prev).fit_error_sq_next k_curr.fit_error_sq_next :=
          max_lt h1 h2
        linarith
    | true =>
      rw [if_pos rfl] at hfrr
      constructor
      · simp only [knot_refit_error_recalculate]
        rw [if_neg (fun hc => hge hc.2)]
        simp only [false_and, if_false, if_true, hfrr]
        rw [if_neg (fun hc => Bool.noConfusion hc.1)]
      · have hlt := refit_exhaustive_above ops pd knots (getKnot knots k_curr.prev)
          (getKnot knots k_curr.next) k_curr.index (knots.length + 2)
          ((getKnot knots k_curr.prev).index + 1) (max (getKnot knots k_curr.prev).fit_error_sq_next k_curr.fit_error_sq_next)
          (knot_calc_curve_error_value_and_index ops pd (getKnot knots k_curr.prev) (getKnot knots k_curr.next) (getV pd.tangents (getKnot knots k_curr.prev).tan.2) (getV pd.tangents (getKnot knots k_curr.next).tan.1)).2.1 none (max (getKnot knots k_curr.prev).fit_error_sq_next k_curr.fit_error_sq_next)
          (le_refl _) (fun frr2 he => Option.noConfusion he) frr hfrr
        linarith

theorem C5_refit_keys_witness :
    (¬ ((0:ℚ)) < 0) ∧
    (¬ ((((0:Nat)) = INVALID ∨ ((0:Nat)) = 2) ∧ NodeHandle.INVAL ≠ NodeHandle.INVAL)) ∧
    knot_calc_curve_error_value_pair_above_error_or_none zeroOps (⟨[(((0:ℚ)), ((0:ℚ)))], 1, [((3:ℚ))], [(((1:ℚ)), ((0:ℚ))), (((1:ℚ)), ((0:ℚ))), (((1:ℚ)), ((0:ℚ))), (((1:ℚ)), ((0:ℚ)))]⟩ : PointData) (⟨1, INVALID, 0, false, false, false, (((0:ℚ)), ((0:ℚ))), 10, (0, 1)⟩ : Knot) (⟨1, INVALID, 0, false, false, false, (((0:ℚ)), ((0:ℚ))), 10, (0, 1)⟩ : Knot) (⟨2, 0, 1, false, false, false, (((0:ℚ)), ((0:ℚ))), 0, (2, 3)⟩ : Knot) (max ((10:ℚ)) 2) = some ((((1:ℚ)), ((1:ℚ))), ((0:ℚ)), (((1:ℚ)), ((1:ℚ))), ((0:ℚ))) ∧
    (knot_refit_error_recalculate zeroOps (⟨[(((0:ℚ)), ((0:ℚ)))], 1, [((3:ℚ))], [(((1:ℚ)), ((0:ℚ))), (((1:ℚ)), ((0:ℚ))), (((1:ℚ)), ((0:ℚ))), (((1:ℚ)), ((0:ℚ)))]⟩ : PointData) (MinHeap.with_capacity 3 : MinHeap ℚ KnotRefitState) [(⟨1, INVALID, 0, false, false, false, (((0:ℚ)), ((0:ℚ))), 10, (0, 1)⟩ : Knot), (⟨2, 0, 1, false, false, false, (((0:ℚ)), ((0:ℚ))), 0, (2, 3)⟩ : Knot), (⟨1, 0, 2, false, false, false, (((0:ℚ)), ((0:ℚ))), 2, (4, 5)⟩ : Knot)] [NodeHandle.INVAL, NodeHandle.INVAL, NodeHandle.INVAL] (⟨1, 0, 2, false, false, false, (((0:ℚ)), ((0:ℚ))), 2, (4, 5)⟩ : Knot) 0 false =
      (((MinHeap.with_capacity 3 : MinHeap ℚ KnotRefitState).insert (max ((10:ℚ)) 2 - max ((0:ℚ)) 0) (⟨2, 0, (((((1:ℚ)), ((1:ℚ)))), ((((1:ℚ)), ((1:ℚ))))), (((0:ℚ)), ((0:ℚ)))⟩ : KnotRefitState)).2, [NodeHandle.INVAL, NodeHandle.INVAL, NodeHandle.INVAL].set 2 ((MinHeap.with_capacity 3 : MinHeap ℚ KnotRefitState).insert (max ((10:ℚ)) 2 - max ((0:ℚ)) 0) (⟨2, 0, (((((1:ℚ)), ((1:ℚ)))), ((((1:ℚ)), ((1:ℚ))))), (((0:ℚ)), ((0:ℚ)))⟩ : KnotRefitState)).1) ∧
     0 < (max ((10:ℚ)) 2 - max ((0:ℚ)) 0)) := by
  have h1 : ¬ ((0:ℚ)) < 0 := lt_irrefl 0
  have h2 : ¬ ((((0:Nat)) = INVALID ∨ ((0:Nat)) = 2) ∧ NodeHandle.INVAL ≠ NodeHandle.INVAL) :=
    fun hc => hc.2 rfl
  have h3 : knot_calc_curve_error_value_pair_above_error_or_none zeroOps (⟨[(((0:ℚ)), ((0:ℚ)))], 1, [((3:ℚ))], [(((1:ℚ)), ((0:ℚ))), (((1:ℚ)), ((0:ℚ))), (((1:ℚ)), ((0:ℚ))), (((1:ℚ)), ((0:ℚ)))]⟩ : PointData) (⟨1, INVALID, 0, false, false, false, (((0:ℚ)), ((0:ℚ))), 10, (0, 1)⟩ : Knot) (⟨1, INVALID, 0, false, false, false, (((0:ℚ)), ((0:ℚ))), 10, (0, 1)⟩ : Knot) (⟨2, 0, 1, false, false, false, (((0:ℚ)), ((0:ℚ))), 0, (2, 3)⟩ : Knot) (max ((10:ℚ)) 2) = some ((((1:ℚ)), ((1:ℚ))), ((0:ℚ)), (((1:ℚ)), ((1:ℚ))), ((0:ℚ))) := by
    have hmax : max ((10:ℚ)) 2 = 10 := max_eq_left (by norm_num)
    norm_num [knot_calc_curve_error_value_pair_above_error_or_none,
      knot_calc_curve_error_value, getKnot, getQ, getV, hmax]
  exact ⟨h1, h2, h3,
    (C5_refit_keys zeroOps (⟨[(((0:ℚ)), ((0:ℚ)))], 1, [((3:ℚ))], [(((1:ℚ)), ((0:ℚ))), (((1:ℚ)), ((0:ℚ))), (((1:ℚ)), ((0:ℚ))), (((1:ℚ)), ((0:ℚ)))]⟩ : PointData) (MinHeap.with_capacity 3 : MinHeap ℚ KnotRefitState) [(⟨1, INVALID, 0, false, false, false, (((0:ℚ)), ((0:ℚ))), 10, (0, 1)⟩ : Knot), (⟨2, 0, 1, false, false, false, (((0:ℚ)), ((0:ℚ))), 0, (2, 3)⟩ : Knot), (⟨1, 0, 2, false, false, false, (((0:ℚ)), ((0:ℚ))), 2, (4, 5)⟩ : Knot)] [NodeHandle.INVAL, NodeHandle.INVAL, NodeHandle.INVAL] (⟨1, 0, 2, false, false, false, (((0:ℚ)), ((0:ℚ))), 2, (4, 5)⟩ : Knot) 0 false).2 h1 (fun hc => h2 hc.2) ((((1:ℚ)), ((1:ℚ))), ((0:ℚ)), (((1:ℚ)), ((1:ℚ))), ((0:ℚ))) (by rw [if_neg (by norm_num)]; exact h3)⟩

/-- The C5 sentence as frozen is refuted on a concrete refit state: the
re-anchoring candidate actually enters the heap with the *positive* key
`max(old fit errors) − max(new fit errors) = 10`, whereas the claimed
formula `max(err_prev, err_next) − max(fit_error_sq_next's)` evaluates to
`−10` there. -/
theorem C5_counterexample :
    (knot_refit_error_recalculate zeroOps (⟨[(((0:ℚ)), ((0:ℚ)))], 1, [((3:ℚ))], [(((1:ℚ)), ((0:ℚ))), (((1:ℚ)), ((0:ℚ))), (((1:ℚ)), ((0:ℚ))), (((1:ℚ)), ((0:ℚ)))]⟩ : PointData) (MinHeap.with_capacity 3 : MinHeap ℚ KnotRefitState) [(⟨1, INVALID, 0, false, false, false, (((0:ℚ)), ((0:ℚ))), 10, (0, 1)⟩ : Knot), (⟨2, 0, 1, false, false, false, (((0:ℚ)), ((0:ℚ))), 0, (2, 3)⟩ : Knot), (⟨1, 0, 2, false, false, false, (((0:ℚ)), ((0:ℚ))), 2, (4, 5)⟩ : Knot)] [NodeHandle.INVAL, NodeHandle.INVAL, NodeHandle.INVAL] (⟨1, 0, 2, false, false, false, (((0:ℚ)), ((0:ℚ))), 2, (4, 5)⟩ : Knot) 0 false).1.pop_min_with_value.1 =
      some (((10:ℚ)), (⟨2, 0, (((((1:ℚ)), ((1:ℚ)))), ((((1:ℚ)), ((1:ℚ))))), (((0:ℚ)), ((0:ℚ)))⟩ : KnotRefitState)) ∧
    max ((0:ℚ)) 0 - max ((10:ℚ)) 2 = -10 ∧
    ¬ ((10:ℚ)) = max ((0:ℚ)) 0 - max ((10:ℚ)) 2 := by
  have hmax : max ((10:ℚ)) 2 = 10 := max_eq_left (by norm_num)
  have hmax0 : max ((0:ℚ)) 0 = 0 := max_self 0
  refine ⟨?_, by rw [hmax0, hmax]; norm_num, by rw [hmax0, hmax]; norm_num⟩
  have h3 : knot_calc_curve_error_value_pair_above_error_or_none zeroOps (⟨[(((0:ℚ)), ((0:ℚ)))], 1, [((3:ℚ))], [(((1:ℚ)), ((0:ℚ))), (((1:ℚ)), ((0:ℚ))), (((1:ℚ)), ((0:ℚ))), (((1:ℚ)), ((0:ℚ)))]⟩ : PointData) (⟨1, INVALID, 0, false, false, false, (((0:ℚ)), ((0:ℚ))), 10, (0, 1)⟩ : Knot) (⟨1, INVALID, 0, false, false, false, (((0:ℚ)), ((0:ℚ))), 10, (0, 1)⟩ : Knot) (⟨2, 0, 1, false, false, false, (((0:ℚ)), ((0:ℚ))), 0, (2, 3)⟩ : Knot) (max ((10:ℚ)) 2) = some ((((1:ℚ)), ((1:ℚ))), ((0:ℚ)), (((1:ℚ)), ((1:ℚ))), ((0:ℚ))) := by
    norm_num [knot_calc_curve_error_value_pair_above_error_or_none,
      knot_calc_curve_error_value, getKnot, getQ, getV, hmax]
  have hri1 : (knot_calc_curve_error_value_and_index zeroOps (⟨[(((0:ℚ)), ((0:ℚ)))], 1, [((3:ℚ))], [(((1:ℚ)), ((0:ℚ))), (((1:ℚ)), ((0:ℚ))), (((1:ℚ)), ((0:ℚ))), (((1:ℚ)), ((0:ℚ)))]⟩ : PointData) (⟨1, INVALID, 0, false, false, false, (((0:ℚ)), ((0:ℚ))), 10, (0, 1)⟩ : Knot) (⟨2, 0, 1, false, false, false, (((0:ℚ)), ((0:ℚ))), 0, (2, 3)⟩ : Knot) (getV (⟨[(((0:ℚ)), ((0:ℚ)))], 1, [((3:ℚ))], [(((1:ℚ)), ((0:ℚ))), (((1:ℚ)), ((0:ℚ))), (((1:ℚ)), ((0:ℚ))), (((1:ℚ)), ((0:ℚ)))]⟩ : PointData).tangents (⟨1, INVALID, 0, false, false, false, (((0:ℚ)), ((0:ℚ))), 10, (0, 1)⟩ : Knot).tan.2) (getV (⟨[(((0:ℚ)), ((0:ℚ)))], 1, [((3:ℚ))], [(((1:ℚ)), ((0:ℚ))), (((1:ℚ)), ((0:ℚ))), (((1:ℚ)), ((0:ℚ))), (((1:ℚ)), ((0:ℚ)))]⟩ : PointData).tangents (⟨2, 0, 1, false, false, false, (((0:ℚ)), ((0:ℚ))), 0, (2, 3)⟩ : Knot).tan.1)).1 = 0 := by
    norm_num [knot_calc_curve_error_value_and_index, getQ]
  have hri21 : (knot_calc_curve_error_value_and_index zeroOps (⟨[(((0:ℚ)), ((0:ℚ)))], 1, [((3:ℚ))], [(((1:ℚ)), ((0:ℚ))), (((1:ℚ)), ((0:ℚ))), (((1:ℚ)), ((0:ℚ))), (((1:ℚ)), ((0:ℚ)))]⟩ : PointData) (⟨1, INVALID, 0, false, false, false, (((0:ℚ)), ((0:ℚ))), 10, (0, 1)⟩ : Knot) (⟨2, 0, 1, false, false, false, (((0:ℚ)), ((0:ℚ))), 0, (2, 3)⟩ : Knot) (getV (⟨[(((0:ℚ)), ((0:ℚ)))], 1, [((3:ℚ))], [(((1:ℚ)), ((0:ℚ))), (((1:ℚ)), ((0:ℚ))), (((1:ℚ)), ((0:ℚ))), (((1:ℚ)), ((0:ℚ)))]⟩ : PointData).tangents (⟨1, INVALID, 0, false, false, false, (((0:ℚ)), ((0:ℚ))), 10, (0, 1)⟩ : Knot).tan.2) (getV (⟨[(((0:ℚ)), ((0:ℚ)))], 1, [((3:ℚ))], [(((1:ℚ)), ((0:ℚ))), (((1:ℚ)), ((0:ℚ))), (((1:ℚ)), ((0:ℚ))), (((1:ℚ)), ((0:ℚ)))]⟩ : PointData).tangents (⟨2, 0, 1, false, false, false, (((0:ℚ)), ((0:ℚ))), 0, (2, 3)⟩ : Knot).tan.1)).2.1 = 0 := by
    norm_num [knot_calc_curve_error_value_and_index, getQ]
  have hres : knot_refit_error_recalculate zeroOps (⟨[(((0:ℚ)), ((0:ℚ)))], 1, [((3:ℚ))], [(((1:ℚ)), ((0:ℚ))), (((1:ℚ)), ((0:ℚ))), (((1:ℚ)), ((0:ℚ))), (((1:ℚ)), ((0:ℚ)))]⟩ : PointData) (MinHeap.with_capacity 3 : MinHeap ℚ KnotRefitState) [(⟨1, INVALID, 0, false, false, false, (((0:ℚ)), ((0:ℚ))), 10, (0, 1)⟩ : Knot), (⟨2, 0, 1, false, false, false, (((0:ℚ)), ((0:ℚ))), 0, (2, 3)⟩ : Knot), (⟨1, 0, 2, false, false, false, (((0:ℚ)), ((0:ℚ))), 2, (4, 5)⟩ : Knot)] [NodeHandle.INVAL, NodeHandle.INVAL, NodeHandle.INVAL] (⟨1, 0, 2, false, false, false, (((0:ℚ)), ((0:ℚ))), 2, (4, 5)⟩ : Knot) 0 false =
      (((MinHeap.with_capacity 3 : MinHeap ℚ KnotRefitState).insert (max ((10:ℚ)) 2 - max ((0:ℚ)) 0) (⟨2, 0, (((((1:ℚ)), ((1:ℚ)))), ((((1:ℚ)), ((1:ℚ))))), (((0:ℚ)), ((0:ℚ)))⟩ : KnotRefitState)).2, [NodeHandle.INVAL, NodeHandle.INVAL, NodeHandle.INVAL].set 2 ((MinHeap.with_capacity 3 : MinHeap ℚ KnotRefitState).insert (max ((10:ℚ)) 2 - max ((0:ℚ)) 0) (⟨2, 0, (((((1:ℚ)), ((1:ℚ)))), ((((1:ℚ)), ((1:ℚ))))), (((0:ℚ)), ((0:ℚ)))⟩ : KnotRefitState)).1) := by
    simp only [knot_refit_error_recalculate,
      show getKnot [(⟨1, INVALID, 0, false, false, false, (((0:ℚ)), ((0:ℚ))), 10, (0, 1)⟩ : Knot), (⟨2, 0, 1, false, false, false, (((0:ℚ)), ((0:ℚ))), 0, (2, 3)⟩ : Knot), (⟨1, 0, 2, false, false, false, (((0:ℚ)), ((0:ℚ))), 2, (4, 5)⟩ : Knot)] ((⟨1, 0, 2, false, false, false, (((0:ℚ)), ((0:ℚ))), 2, (4, 5)⟩ : Knot)).prev = (⟨1, INVALID, 0, false, false, false, (((0:ℚ)), ((0:ℚ))), 10, (0, 1)⟩ : Knot) from rfl,
      show getKnot [(⟨1, INVALID, 0, false, false, false, (((0:ℚ)), ((0:ℚ))), 10, (0, 1)⟩ : Knot), (⟨2, 0, 1, false, false, false, (((0:ℚ)), ((0:ℚ))), 0, (2, 3)⟩ : Knot), (⟨1, 0, 2, false, false, false, (((0:ℚ)), ((0:ℚ))), 2, (4, 5)⟩ : Knot)] ((⟨1, 0, 2, false, false, false, (((0:ℚ)), ((0:ℚ))), 2, (4, 5)⟩ : Knot)).next = (⟨2, 0, 1, false, false, false, (((0:ℚ)), ((0:ℚ))), 0, (2, 3)⟩ : Knot) from rfl]
    rw [if_neg (fun hc => by rw [hri1] at hc; exact absurd hc.2 (lt_irrefl 0))]
    rw [if_neg (fun hc => hc.2.2 rfl)]
    simp only [Bool.false_eq_true, if_false, hri21,
      show getKnot [(⟨1, INVALID, 0, false, false, false, (((0:ℚ)), ((0:ℚ))), 10, (0, 1)⟩ : Knot), (⟨2, 0, 1, false, false, false, (((0:ℚ)), ((0:ℚ))), 0, (2, 3)⟩ : Knot), (⟨1, 0, 2, false, false, false, (((0:ℚ)), ((0:ℚ))), 2, (4, 5)⟩ : Knot)] 0 = (⟨1, INVALID, 0, false, false, false, (((0:ℚ)), ((0:ℚ))), 10, (0, 1)⟩ : Knot) from rfl, h3]
    rfl
  rw [hres]
  have hINV : ¬ ((0 : Nat) = INVALID) := by decide
  simp only []
  simp [MinHeap.insert, MinHeap.node_take, MinHeap.heap_up, MinHeap.with_capacity,
    MinHeap.pop_min_with_value, MinHeap.node_drop, MinHeap.getNode, hINV, hmax, hmax0]

theorem KIdx_updateKnot (knots : List Knot) (n i : Nat) (f : Knot → Knot)
    (hidx : ∀ k, (f k).index = k.index) (h : KIdx knots n) :
    KIdx (updateKnot knots i f) n := by
  obtain ⟨hl, hi⟩ := h
  refine ⟨by simp [updateKnot, hl], ?_⟩
  intro j hj
  by_cases hji : j = i
  · subst hji
    by_cases hlt : j < knots.length
    · rw [getKnot, updateKnot, getD_set_self _ _ hlt]
      rw [hidx]
      exact hi j hj
    · rw [updateKnot, List.set_eq_of_length_le (le_of_not_lt hlt)]
      exact hi j hj
  · rw [getKnot, updateKnot, getD_set_ne _ i j (fun he => hji he.symm)]
    exact hi j hj

theorem KIdx_update (knots : List Knot) (n i : Nat) (f : Knot → Knot)
    (h : KIdx knots n) (hidx : ∀ k, (f k).index = k.index) :
    KIdx (updateKnot knots i f) n := KIdx_updateKnot knots n i f hidx h

theorem refine_remove_loop_KIdx (ops : RealOps) (pd : PointData) (emx : ℚ) (n : Nat) :
    ∀ (fuel : Nat) (heap : MinHeap ℚ KnotRemoveState) (knots : List Knot)
      (kh : List NodeHandle) (rem : Nat) (knots' : List Knot) (kh' : List NodeHandle)
      (rem' : Nat),
    refine_remove_loop ops pd emx fuel heap knots kh rem = some (knots', kh', rem') →
    KIdx knots n → KIdx knots' n := by
  intro fuel
  induction fuel with
  | zero =>
    intro heap knots kh rem knots' kh' rem' hrun hk
    rw [refine_remove_loop] at hrun
    split at hrun
    · rw [Option.some.injEq, Prod.mk.injEq] at hrun
      rw [← hrun.1]
      exact hk
    · exact Option.noConfusion hrun
  | succ fuel ih =>
    intro heap knots kh rem knots' kh' rem' hrun hk
    rw [refine_remove_loop] at hrun
    rcases hpop : heap.pop_min_with_value with ⟨o, heap1⟩
    cases o with
    | none =>
      rw [hpop] at hrun
      simp only at hrun
      rw [Option.some.injEq, Prod.mk.injEq] at hrun
      rw [← hrun.1]
      exact hk
    | some ev =>
      rw [hpop] at hrun
      simp only at hrun
      split at hrun
      · exact ih _ _ _ _ _ _ _ hrun hk
      · refine ih _ _ _ _ _ _ _ hrun ?_
        apply KIdx_update
        · apply KIdx_update
          · apply KIdx_update
            · apply KIdx_update
              · apply KIdx_update
                · apply KIdx_update
                  · exact hk
                  · exact fun k => rfl
                · exact fun k => rfl
              · exact fun k => rfl
            · exact fun k => rfl
          · exact fun k => rfl
        · exact fun k => rfl

theorem refine_corner_loop_KIdx (n : Nat) :
    ∀ (fuel : Nat) (heap : MinHeap ℚ KnotCornerState) (knots : List Knot)
      (kh : List NodeHandle) (rem : Nat) (knots' : List Knot) (kh' : List NodeHandle)
      (rem' : Nat),
    refine_corner_loop fuel heap knots kh rem = some (knots', kh', rem') →
    KIdx knots n → KIdx knots' n := by
  intro fuel
  induction fuel with
  | zero =>
    intro heap knots kh rem knots' kh' rem' hrun hk
    rw [refine_corner_loop] at hrun
    split at hrun
    · rw [Option.some.injEq, Prod.mk.injEq] at hrun
      rw [← hrun.1]
      exact hk
    · exact Option.noConfusion hrun
  | succ fuel ih =>
    intro heap knots kh rem knots' kh' rem' hrun hk
    rw [refine_corner_loop] at hrun
    rcases hpop : heap.pop_min with ⟨o, heap1⟩
    cases o with
    | none =>
      rw [hpop] at hrun
      simp only at hrun
      rw [Option.some.injEq, Prod.mk.injEq] at hrun
      rw [← hrun.1]
      exact hk
    | some c =>
      rw [hpop] at hrun
      simp only at hrun
      refine ih _ _ _ _ _ _ _ hrun ?_
      apply KIdx_update
      · apply KIdx_update
        · apply KIdx_update
          · exact hk
          · exact fun k => rfl
        · exact fun k => rfl
      · exact fun k => rfl

theorem refine_refit_loop_KIdx (ops : RealOps) (pd : PointData) (emx : ℚ) (uoe : Bool)
    (n : Nat) :
    ∀ (fuel : Nat) (heap : MinHeap ℚ KnotRefitState) (knots : List Knot)
      (kh : List NodeHandle) (rem : Nat) (knots' : List Knot) (kh' : List NodeHandle)
      (rem' : Nat),
    refine_refit_loop ops pd emx uoe fuel heap knots kh rem = some (knots', kh', rem') →
    KIdx knots n → KIdx knots' n := by
  intro fuel
  induction fuel with
  | zero =>
    intro heap knots kh rem knots' kh' rem' hrun hk
    rw [refine_refit_loop] at hrun
    split at hrun
    · rw [Option.some.injEq, Prod.mk.injEq] at hrun
      rw [← hrun.1]
      exact hk
    · exact Option.noConfusion hrun
  | succ fuel ih =>
    intro heap knots kh rem knots' kh' rem' hrun hk
    rw [refine_refit_loop] at hrun
    rcases hpop : heap.pop_min with ⟨o, heap1⟩
    cases o with
    | none =>
      rw [hpop] at hrun
      simp only at hrun
      rw [Option.some.injEq, Prod.mk.injEq] at hrun
      rw [← hrun.1]
      exact hk
    | some r =>
      rw [hpop] at hrun
      simp only at hrun
      have hk3 : ∀ kn : List Knot, KIdx kn n →
          KIdx (updateKnot (updateKnot kn
            (getKnot knots r.index).prev
            (fun k => { k with handles := (k.handles.1, r.handle_pair.1.1) }))
            (getKnot knots r.index).next
            (fun k => { k with handles := (r.handle_pair.2.2, k.handles.2) })) n := by
        intro kn hkn
        apply KIdx_update
        · apply KIdx_update
          · exact hkn
          · exact fun k => rfl
        · exact fun k => rfl
      have hk1 : KIdx (if r.index_refit = INVALID then knots
          else updateKnot knots r.index_refit
            (fun k => { k with handles := (r.handle_pair.1.2, r.handle_pair.2.1) })) n := by
        split
        · exact hk
        · apply KIdx_update
          · exact hk
          · exact fun k => rfl
      split at hrun
      · exact ih _ _ _ _ _ _ _ hrun (hk3 _ hk1)
      · split at hrun
        · try simp only at hrun
          refine ih _ _ _ _ _ _ _ hrun ?_
          apply KIdx_update
          · apply KIdx_update
            · apply KIdx_update
              · exact hk3 _ hk
              · exact fun k => rfl
            · exact fun k => rfl
          · exact fun k => rfl
        · try simp only at hrun
          refine ih _ _ _ _ _ _ _ hrun ?_
          apply KIdx_update
          · apply KIdx_update
            · apply KIdx_update
              · apply KIdx_update
                · apply hk3
                  apply KIdx_update
                  · exact hk
                  · exact fun k => rfl
                · exact fun k => rfl
              · exact fun k => rfl
            · exact fun k => rfl
          · exact fun k => rfl

theorem foldl_preserve {A B : Type} (P : A → Prop) (f : A → B → A) :
    ∀ (l : List B) (a : A), P a → (∀ x b, P x → P (f x b)) → P (l.foldl f a) := by
  intro l
  induction l with
  | nil => intro a h _; exact h
  | cons b l ih => intro a h hstep; exact ih _ (hstep a b h) hstep

theorem fit_init_cyclic_KIdx (ops : RealOps) (points : List V2) (knots_len : Nat)
    (knots : List Knot) (cache : List ℚ) (tangents : List V2) (n : Nat)
    (hk : KIdx knots n) :
    KIdx (fit_init_cyclic ops points knots_len knots cache tangents).1 n := by
  unfold fit_init_cyclic
  simp only []
  apply foldl_preserve (fun (st : V2 × ℚ × Nat × List Knot × List ℚ × List V2) => KIdx st.2.2.2.1 n)
  · exact hk
  · intro x b hx
    exact KIdx_update x.2.2.2.1 n x.2.2.1
      (fun k => { k with handles := (x.2.1 / 3,
        (normalized_vnvn_with_len ops (getV points x.2.2.1) (getV points b)).2 / (-3)) })
      hx (fun k => rfl)

theorem fit_init_open_KIdx (ops : RealOps) (points : List V2) (knots_len : Nat)
    (knots : List Knot) (cache : List ℚ) (tangents : List V2) (n : Nat)
    (hk : KIdx knots n) :
    KIdx (fit_init_open ops points knots_len knots cache tangents).1 n := by
  unfold fit_init_open
  simp only []
  apply KIdx_update
  · apply foldl_preserve (fun (st : V2 × ℚ × Nat × List Knot × List ℚ × List V2) => KIdx st.2.2.2.1 n)
    · exact KIdx_update knots n 0
        (fun k => { k with handles :=
          ((normalized_vnvn_with_len ops (getV points 0) (getV points 1)).2 / 3,
           (normalized_vnvn_with_len ops (getV points 0) (getV points 1)).2 / (-3)) })
        hk (fun k => rfl)
    · intro x b hx
      exact KIdx_update x.2.2.2.1 n x.2.2.1
        (fun k => { k with handles := (x.2.1 / 3,
          (normalized_vnvn_with_len ops (getV points x.2.2.1) (getV points b)).2 / (-3)) })
        hx (fun k => rfl)
  · exact fun k => rfl

theorem curve_incremental_simplify_KIdx (ops : RealOps) (pd : PointData)
    (knots : List Knot) (kh : List NodeHandle) (rem : Nat) (emx : ℚ) (fuel : Nat)
    (knots' : List Knot) (kh' : List NodeHandle) (rem' : Nat) (n : Nat)
    (h : curve_incremental_simplify ops pd knots kh rem emx fuel =
      some (knots', kh', rem'))
    (hk : KIdx knots n) : KIdx knots' n :=
  refine_remove_loop_KIdx ops pd emx n fuel _ _ _ _ _ _ _ h hk

theorem curve_incremental_simplify_corners_KIdx (ops : RealOps) (pd : PointData)
    (knots : List Knot) (kh : List NodeHandle) (rem : Nat) (emx escm ca : ℚ)
    (fuel : Nat) (knots' : List Knot) (kh' : List NodeHandle) (rem' : Nat) (n : Nat)
    (h : curve_incremental_simplify_corners ops pd knots kh rem emx escm ca fuel =
      some (knots', kh', rem'))
    (hk : KIdx knots n) : KIdx knots' n :=
  refine_corner_loop_KIdx n fuel _ _ _ _ _ _ _ h hk

theorem curve_incremental_simplify_refit_KIdx (ops : RealOps) (pd : PointData)
    (knots : List Knot) (kh : List NodeHandle) (rem : Nat) (emx : ℚ) (uoe : Bool)
    (fuel : Nat) (knots' : List Knot) (kh' : List NodeHandle) (rem' : Nat) (n : Nat)
    (h : curve_incremental_simplify_refit ops pd knots kh rem emx uoe fuel =
      some (knots', kh', rem'))
    (hk : KIdx knots n) : KIdx knots' n :=
  refine_refit_loop_KIdx ops pd emx uoe n fuel _ _ _ _ _ _ _ h hk

theorem KIdx_knots0 (n : Nat) : KIdx ((List.range n).map (fun i =>
    ({ next := i + 1, prev := if i = 0 then INVALID else i - 1, index := i,
       no_remove := false, is_remove := false, is_corner := false,
       handles := (-1, -1), fit_error_sq_next := 0,
       tan := (i * 2, i * 2 + 1) } : Knot))) n := by
  constructor
  · simp
  · intro i hi
    rw [getKnot, List.getD_eq_getElem?_getD]
    simp [List.getElem?_map, List.getElem?_range, hi]

theorem fit_phases_inv (ops : RealOps) (points_orig : List V2) (is_cyclic : Bool)
    (et ca : ℚ) (uoe : Bool) (fuel : Nat) (pd : PointData) (knots : List Knot)
    (rem : Nat)
    (h : fit_phases ops points_orig is_cyclic et ca uoe fuel = some (pd, knots, rem)) :
    0 < points_orig.length ∧
    pd.points = (if is_cyclic then points_orig ++ points_orig else points_orig) ∧
    KIdx knots points_orig.length := by
  cases is_cyclic with
  | false =>
    simp only [fit_phases, Bool.false_eq_true, if_false] at h
    split at h
    next h0 => exact Option.noConfusion h
    next h0 =>
    split at h
    next hA => exact Option.noConfusion h
    next stA hA =>
    split at h
    next hB => exact Option.noConfusion h
    next stB hB =>
    split at h
    next hC => exact Option.noConfusion h
    next stC hC =>
    rcases stC with ⟨k3, kh3, r3⟩
    rcases stB with ⟨k2, kh2, r2⟩
    rcases stA with ⟨k1, kh1, r1⟩
    rw [Option.some.injEq, Prod.mk.injEq, Prod.mk.injEq] at h
    obtain ⟨hpd, hknots, hrem⟩ := h
    refine ⟨by omega, ?_, ?_⟩
    · rw [← hpd]
      simp
    · rw [← hknots]
      rw [if_pos (show USE_REFIT = true from rfl)] at hC
      refine curve_incremental_simplify_refit_KIdx _ _ _ _ _ _ _ _ _ _ _ _ hC ?_
      split at hB
      next hca =>
        refine curve_incremental_simplify_corners_KIdx _ _ _ _ _ _ _ _ _ _ _ _ _ hB ?_
        refine curve_incremental_simplify_KIdx _ _ _ _ _ _ _ _ _ _ _ hA ?_
        split
        next hlen =>
          simp only []
          apply KIdx_update
          · apply KIdx_update
            · apply KIdx_update
              · apply KIdx_update
                · apply KIdx_update
                  · exact KIdx_knots0 _
                  · exact fun k => rfl
                · exact fun k => rfl
              · exact fun k => rfl
            · exact fun k => rfl
          · exact fun k => rfl
        next hlen =>
          refine fit_init_open_KIdx _ _ _ _ _ _ _ ?_
          apply KIdx_update
          · apply KIdx_update
            · apply KIdx_update
              · apply KIdx_update
                · exact KIdx_knots0 _
                · exact fun k => rfl
              · exact fun k => rfl
            · exact fun k => rfl
          · exact fun k => rfl
      next hca =>
        rw [Option.some.injEq, Prod.mk.injEq, Prod.mk.injEq] at hB
        obtain ⟨hB1, hB2, hB3⟩ := hB
        rw [← hB1]
        refine curve_incremental_simplify_KIdx _ _ _ _ _ _ _ _ _ _ _ hA ?_
        split
        next hlen =>
          simp only []
          apply KIdx_update
          · apply KIdx_update
            · apply KIdx_update
              · apply KIdx_update
                · apply KIdx_update
                  · exact KIdx_knots0 _
                  · exact fun k => rfl
                · exact fun k => rfl
              · exact fun k => rfl
            · exact fun k => rfl
          · exact fun k => rfl
        next hlen =>
          refine fit_init_open_KIdx _ _ _ _ _ _ _ ?_
          apply KIdx_update
          · apply KIdx_update
            · apply KIdx_update
              · apply KIdx_update
                · exact KIdx_knots0 _
                · exact fun k => rfl
              · exact fun k => rfl
            · exact fun k => rfl
          · exact fun k => rfl
  | true =>
    simp only [fit_phases, if_true] at h
    split at h
    next h0 => exact Option.noConfusion h
    next h0 =>
    split at h
    next hA => exact Option.noConfusion h
    next stA hA =>
    split at h
    next hB => exact Option.noConfusion h
    next stB hB =>
    split at h
    next hC => exact Option.noConfusion h
    next stC hC =>
    rcases stC with ⟨k3, kh3, r3⟩
    rcases stB with ⟨k2, kh2, r2⟩
    rcases stA with ⟨k1, kh1, r1⟩
    rw [Option.some.injEq, Prod.mk.injEq, Prod.mk.injEq] at h
    obtain ⟨hpd, hknots, hrem⟩ := h
    refine ⟨by omega, ?_, ?_⟩
    · rw [← hpd]
      simp
    · rw [← hknots]
      rw [if_pos (show USE_REFIT = true from rfl)] at hC
      refine curve_incremental_simplify_refit_KIdx _ _ _ _ _ _ _ _ _ _ _ _ hC ?_
      split at hB
      next hca =>
        refine curve_incremental_simplify_corners_KIdx _ _ _ _ _ _ _ _ _ _ _ _ _ hB ?_
        refine curve_incremental_simplify_KIdx _ _ _ _ _ _ _ _ _ _ _ hA ?_
        split
        next hlen =>
          simp only []
          apply KIdx_update
          · apply KIdx_update
            · apply KIdx_update
              · exact KIdx_knots0 _
              · exact fun k => rfl
            · exact fun k => rfl
          · exact fun k => rfl
        next hlen =>
          refine fit_init_cyclic_KIdx _ _ _ _ _ _ _ ?_
          apply KIdx_update
          · apply KIdx_update
            · exact KIdx_knots0 _
            · exact fun k => rfl
          · exact fun k => rfl
      next hca =>
        rw [Option.some.injEq, Prod.mk.injEq, Prod.mk.injEq] at hB
        obtain ⟨hB1, hB2, hB3⟩ := hB
        rw [← hB1]
        refine curve_incremental_simplify_KIdx _ _ _ _ _ _ _ _ _ _ _ hA ?_
        split
        next hlen =>
          simp only []
          apply KIdx_update
          · apply KIdx_update
            · apply KIdx_update
              · exact KIdx_knots0 _
              · exact fun k => rfl
            · exact fun k => rfl
          · exact fun k => rfl
        next hlen =>
          refine fit_init_cyclic_KIdx _ _ _ _ _ _ _ ?_
          apply KIdx_update
          · apply KIdx_update
            · exact KIdx_knots0 _
            · exact fun k => rfl
          · exact fun k => rfl

theorem getV_mem (l : List V2) (i : Nat) (hi : i < l.length) : getV l i ∈ l := by
  rw [getV, List.getD_eq_getElem?_getD, List.getElem?_eq_getElem hi]
  simp only [Option.getD_some]
  exact List.getElem_mem hi

theorem emit_walk_mid_mem (points tangents : List V2) (knots : List Knot)
    (orig : List V2)
    (hall : ∀ w, getV points (getKnot knots w).index ∈ orig) :
    ∀ (n s : Nat) (t : V2 × V2 × V2), t ∈ emit_walk points tangents knots n s →
      t.2.1 ∈ orig := by
  intro n
  induction n with
  | zero => intro s t ht; simp [emit_walk] at ht
  | succ n ih =>
    intro s t ht
    rw [emit_walk] at ht
    rcases List.mem_cons.mp ht with rfl | ht
    · exact hall s
    · exact ih _ t ht

/-- **C10**: every knot position emitted by `fit_poly_single` (the middle
element of an output triple) is one of the input polygon's vertex
coordinates — the refinement phases rewire links and handle lengths but
never write a knot's `index`, and the emitted position is read from the
input point array at that index. -/
theorem C10_knot_positions (ops : RealOps) (points_orig : List V2) (is_cyclic : Bool)
    (error_threshold corner_angle : ℚ) (use_optimize_exhaustive : Bool) (fuel : Nat)
    (out : List (V2 × V2 × V2))
    (hrun : fit_poly_single ops points_orig is_cyclic error_threshold corner_angle
      use_optimize_exhaustive fuel = some out) :
    ∀ t ∈ out, t.2.1 ∈ points_orig := by
  rw [fit_poly_single] at hrun
  rcases hph : fit_phases ops points_orig is_cyclic error_threshold corner_angle
    use_optimize_exhaustive fuel with _ | st
  · rw [hph] at hrun
    exact Option.noConfusion hrun
  · rw [hph] at hrun
    simp only at hrun
    rw [Option.some.injEq] at hrun
    obtain ⟨hlen, hpts, hk⟩ := fit_phases_inv _ _ _ _ _ _ _ _ _ _ hph
    intro t ht
    rw [← hrun] at ht
    refine emit_walk_mid_mem _ _ _ points_orig ?_ _ _ t ht
    intro w
    have hidx : (getKnot st.2.1 w).index < points_orig.length := by
      by_cases hw : w < st.2.1.length
      · rw [hk.1] at hw
        rw [hk.2 w hw]
        exact hw
      · rw [getKnot, getD_ge_length _ _ (le_of_not_lt hw)]
        exact hlen
    rw [hpts]
    cases is_cyclic with
    | false =>
      rw [if_neg (Bool.false_ne_true)]
      exact getV_mem _ _ hidx
    | true =>
      rw [if_pos rfl]
      have hN : (getKnot st.2.1 w).index < points_orig.length := hidx
      rw [show getV (points_orig ++ points_orig) (getKnot st.2.1 w).index =
          getV points_orig (getKnot st.2.1 w).index from by
        rw [getV, getV, List.getD_append _ _ _ _ hN]]
      exact getV_mem _ _ hidx

theorem C10_knot_positions_witness :
    fit_poly_single zeroOps [(((0:ℚ)), ((0:ℚ)))] false 1 4 false 1 =
      some [((((0:ℚ)), ((0:ℚ))), (((0:ℚ)), ((0:ℚ))), (((0:ℚ)), ((0:ℚ))))] ∧
    ∀ t ∈ [((((0:ℚ)), ((0:ℚ))), (((0:ℚ)), ((0:ℚ))), (((0:ℚ)), ((0:ℚ))))],
      t.2.1 ∈ [(((0:ℚ)), ((0:ℚ)))] := by
  have hpi : ¬((4:ℚ) < f64_PI) := by rw [f64_PI]; norm_num
  have hrun : fit_poly_single zeroOps [(((0:ℚ)), ((0:ℚ)))] false 1 4 false 1 =
      some [((((0:ℚ)), ((0:ℚ))), (((0:ℚ)), ((0:ℚ))), (((0:ℚ)), ((0:ℚ))))] := by
    norm_num [fit_poly_single, fit_phases, getKnot, updateKnot, List.range_succ, sq,
      curve_incremental_simplify, refine_remove_scan, refine_remove_loop,
      MinHeap.pop_min_with_value, MinHeap.with_capacity,
      curve_incremental_simplify_refit, refine_refit_scan, refine_refit_loop,
      MinHeap.pop_min, USE_REFIT, hpi, INVALID, List.replicate_succ,
      first_live_index, emit_walk, madd_vnvn_fl, getV, List.findIdx_cons]
  exact ⟨hrun, C10_knot_positions zeroOps _ false 1 4 false 1 _ hrun⟩

theorem updateKnot_length (knots : List Knot) (i : Nat) (f : Knot → Knot) :
    (updateKnot knots i f).length = knots.length := by
  simp [updateKnot]

theorem getKnot_update_ne (knots : List Knot) (i : Nat) (f : Knot → Knot) (j : Nat)
    (hij : i ≠ j) : getKnot (updateKnot knots i f) j = getKnot knots j := by
  rw [getKnot, updateKnot, getD_set_ne _ i j hij]
  rfl

theorem getKnot_update_self (knots : List Knot) (i : Nat) (f : Knot → Knot)
    (hi : i < knots.length) :
    getKnot (updateKnot knots i f) i = f (getKnot knots i) := by
  rw [getKnot, updateKnot, getD_set_self _ _ hi]

theorem getKnot_update_oob (knots : List Knot) (i : Nat) (f : Knot → Knot)
    (hi : ¬ i < knots.length) : updateKnot knots i f = knots := by
  rw [updateKnot, List.set_eq_of_length_le (le_of_not_lt hi)]

theorem liveK_update (knots : List Knot) (i : Nat) (f : Knot → Knot) (j : Nat)
    (hrem : ∀ k, (f k).is_remove = k.is_remove) :
    liveK (updateKnot knots i f) j = liveK knots j := by
  by_cases hij : i = j
  · subst hij
    by_cases hi : i < knots.length
    · rw [liveK, liveK, updateKnot_length, getKnot_update_self _ _ _ hi, hrem]
    · rw [getKnot_update_oob _ _ _ hi]
  · rw [liveK, liveK, updateKnot_length, getKnot_update_ne _ _ _ _ hij]

theorem ti_nodup {V : Type} [Inhabited V] (h : MinHeap ℚ V)
    (hbp : MinHeap.BackPtr h) : h.tree_index.Nodup := by
  rw [List.nodup_iff_injective_get]
  intro a b hab
  have ha := hbp a.1 a.2
  have hb := hbp b.1 b.2
  have hga : h.tree_index.getD a.1 0 = h.tree_index.get a := by
    rw [List.getD_eq_getElem?_getD, List.getElem?_eq_getElem a.2]
    rfl
  have hgb : h.tree_index.getD b.1 0 = h.tree_index.get b := by
    rw [List.getD_eq_getElem?_getD, List.getElem?_eq_getElem b.2]
    rfl
  rw [hga, hab] at ha
  rw [hgb] at hb
  exact Fin.ext (ha.symm.trans hb)

theorem tree_mem_lt_node {V : Type} [Inhabited V] (h : MinHeap ℚ V)
    (hib : MinHeap.InBounds h) (t : Nat) (ht : t ∈ h.tree_index) :
    t < h.node.length := by
  rcases (mem_iff_getD _ _).mp ht with ⟨c, hc, he⟩
  rw [← he]
  exact hib c hc

theorem Coupled_tree_len {V : Type} [Inhabited V] (h : MinHeap ℚ V)
    (kh : List NodeHandle) (idxOf : V → Nat) (P : V → Prop)
    (hc : Coupled h kh idxOf P) : h.tree_index.length ≤ kh.length := by
  obtain ⟨⟨hib, hbp, _, hnl, _⟩, h2, h3⟩ := hc
  have hnd := ti_nodup h hbp
  have hmap : (h.tree_index.map (fun t => idxOf (MinHeap.slotVal h t).2)).Nodup := by
    refine List.Nodup.map_on ?_ hnd
    intro x hx y hy hxy
    simp only [] at hxy
    have hkx := (h3 x hx).1
    have hky := (h3 y hy).1
    rw [hxy] at hkx
    rw [hkx] at hky
    exact congrArg NodeHandle.val hky
  have hsub : (h.tree_index.map (fun t => idxOf (MinHeap.slotVal h t).2)) ⊆
      List.range kh.length := by
    intro m hm
    rcases List.mem_map.mp hm with ⟨t, ht, he⟩
    rw [List.mem_range]
    by_contra hge
    have hd : kh.getD (idxOf (MinHeap.slotVal h t).2) NodeHandle.INVAL =
        NodeHandle.INVAL := getD_ge_length _ _ (le_of_not_lt (by rw [he]; exact hge)) _
    have hx := (h3 t ht).1
    rw [hd] at hx
    have htv : t < h.node.length := tree_mem_lt_node h hib t ht
    have : INVALID = t := congrArg NodeHandle.val hx
    omega
  have := (List.subperm_of_subset hmap hsub).length_le
  rw [List.length_map, List.length_range] at this
  exact this

theorem Coupled_with_capacity {V : Type} [Inhabited V] (c : Nat)
    (kh : List NodeHandle) (idxOf : V → Nat) (P : V → Prop)
    (hkh : ∀ i, kh.getD i NodeHandle.INVAL = NodeHandle.INVAL) :
    Coupled (MinHeap.with_capacity c) kh idxOf P := by
  refine ⟨MinHeap.with_capacity_WF c, ?_, ?_⟩
  · intro i hi
    exact absurd (hkh i) hi
  · intro t ht
    simp [MinHeap.with_capacity] at ht

theorem Coupled_pop {V : Type} [Inhabited V] (h : MinHeap ℚ V)
    (kh : List NodeHandle) (idxOf : V → Nat) (P : V → Prop)
    (hc : Coupled h kh idxOf P) (h0 : ¬ h.tree_index.length = 0) :
    ∃ r, h.pop_min.1 = some r ∧ P r ∧ idxOf r < kh.length ∧
      kh.getD (idxOf r) NodeHandle.INVAL = ⟨h.tree_index.getD 0 0⟩ ∧
      ∀ (P2 : V → Prop),
        (∀ v, P v → idxOf v ≠ idxOf r → P2 v) →
        Coupled h.pop_min.2 (kh.set (idxOf r) NodeHandle.INVAL) idxOf P2 := by
  obtain ⟨⟨hib, hbp, hord, hnl, fl, hfo⟩, h2, h3⟩ := hc
  obtain ⟨hp1, pib, pbp, pord, ptl, pnl, psv, pmem, pfree, pfo⟩ :=
    MinHeap.pop_min_spec h fl h0 hib hbp (MinHeap.HeapOrd.exceptAround h 0 hord) hnl hfo
  have hroot : h.tree_index.getD 0 0 ∈ h.tree_index :=
    MinHeap.getD_mem_ti h 0 (by omega)
  obtain ⟨hk3, hP3⟩ := h3 _ hroot
  have hrootINV : h.tree_index.getD 0 0 ≠ INVALID := by
    have := tree_mem_lt_node h hib _ hroot
    omega
  have hlt : idxOf (MinHeap.slotVal h (h.tree_index.getD 0 0)).2 < kh.length := by
    by_contra hge
    have hz := getD_ge_length kh _ (le_of_not_lt hge) NodeHandle.INVAL
    rw [hz] at hk3
    exact hrootINV (congrArg NodeHandle.val hk3.symm)
  refine ⟨(MinHeap.slotVal h (h.tree_index.getD 0 0)).2, hp1, hP3, hlt, hk3, ?_⟩
  intro P2 htrans
  refine ⟨⟨pib, pbp, pord, by rw [pnl]; exact hnl, _, pfo⟩, ?_, ?_⟩
  · intro i hi
    by_cases hieq : i = idxOf (MinHeap.slotVal h (h.tree_index.getD 0 0)).2
    · subst hieq
      rw [getD_set_self _ _ hlt] at hi
      exact absurd rfl hi
    · rw [getD_set_ne _ _ _ (fun he => hieq he.symm)] at hi ⊢
      obtain ⟨hmem2, hidx2⟩ := h2 i hi
      have hvne : (kh.getD i NodeHandle.INVAL).val ≠ h.tree_index.getD 0 0 := by
        intro he
        apply hieq
        rw [← hidx2, he]
      refine ⟨(pmem _).mpr ⟨hmem2, hvne⟩, ?_⟩
      rw [psv]
      exact hidx2
  · intro t ht
    obtain ⟨htold, htne⟩ := (pmem t).mp ht
    obtain ⟨hk3t, hP3t⟩ := h3 t htold
    have hidne : idxOf (MinHeap.slotVal h t).2 ≠
        idxOf (MinHeap.slotVal h (h.tree_index.getD 0 0)).2 := by
      intro he
      rw [he, hk3] at hk3t
      exact htne (congrArg NodeHandle.val hk3t).symm
    rw [psv]
    refine ⟨?_, htrans _ hP3t hidne⟩
    rw [getD_set_ne _ _ _ (fun he => hidne he.symm)]
    exact hk3t

theorem Coupled_removeEntry {V : Type} [Inhabited V] (h : MinHeap ℚ V)
    (kh : List NodeHandle) (idxOf : V → Nat) (P : V → Prop) (i : Nat)
    (hc : Coupled h kh idxOf P) (hne : kh.getD i NodeHandle.INVAL ≠ NodeHandle.INVAL) :
    Coupled (h.remove (kh.getD i NodeHandle.INVAL)) (kh.set i NodeHandle.INVAL) idxOf P := by
  obtain ⟨⟨hib, hbp, hord, hnl, fl, hfo⟩, h2, h3⟩ := hc
  obtain ⟨hmem2, hidx2⟩ := h2 i hne
  obtain ⟨rib, rbp, rord, rtl, rnl, rsv, rmem, rfree, rfo⟩ :=
    MinHeap.remove_spec h _ fl hib hbp hord hnl hfo hmem2
  have hilt : i < kh.length := by
    by_contra hge
    exact hne (getD_ge_length _ _ (le_of_not_lt hge) _)
  refine ⟨⟨rib, rbp, rord, by rw [rnl]; exact hnl, _, rfo⟩, ?_, ?_⟩
  · intro j hj
    by_cases hij : j = i
    · subst hij
      rw [getD_set_self _ _ hilt] at hj
      exact absurd rfl hj
    · rw [getD_set_ne _ _ _ (fun he => hij he.symm)] at hj ⊢
      obtain ⟨hm, hx⟩ := h2 j hj
      have hvne : (kh.getD j NodeHandle.INVAL).val ≠ (kh.getD i NodeHandle.INVAL).val := by
        intro he
        apply hij
        rw [← hx, he, hidx2]
      refine ⟨(rmem _).mpr ⟨hm, hvne⟩, ?_⟩
      rw [rsv]
      exact hx
  · intro t ht
    obtain ⟨htold, htne⟩ := (rmem t).mp ht
    obtain ⟨hk3t, hP3t⟩ := h3 t htold
    have hidne : idxOf (MinHeap.slotVal h t).2 ≠ i := by
      intro he
      rw [he] at hk3t
      apply htne
      rw [hk3t]
    rw [rsv]
    refine ⟨?_, hP3t⟩
    rw [getD_set_ne _ _ _ (fun he => hidne he.symm)]
    exact hk3t

theorem Coupled_insertEntry {V : Type} [Inhabited V] (h : MinHeap ℚ V)
    (kh : List NodeHandle) (idxOf : V → Nat) (P : V → Prop) (i : Nat) (k : ℚ) (v : V)
    (hc : Coupled h kh idxOf P) (hcur : kh.getD i NodeHandle.INVAL = NodeHandle.INVAL)
    (hkhlen : kh.length < INVALID) (hidx : idxOf v = i) (hP : P v)
    (hi : i < kh.length) :
    Coupled (h.insert k v).2 (kh.set i (h.insert k v).1) idxOf P := by
  have htl : h.tree_index.length < INVALID :=
    lt_of_le_of_lt (Coupled_tree_len h kh idxOf P hc) hkhlen
  obtain ⟨⟨hib, hbp, hord, hnl, fl, hfo⟩, h2, h3⟩ := hc
  obtain ⟨ifr, iINV, iib, ibp, iord, itl, inl, isv, isv2, imem, fl2, ifo, _⟩ :=
    MinHeap.insert_spec h k v fl hib hbp hord hnl htl hfo
  refine ⟨⟨iib, ibp, iord, inl, fl2, ifo⟩, ?_, ?_⟩
  · intro j hj
    by_cases hij : j = i
    · subst hij
      rw [getD_set_self _ _ hi] at hj ⊢
      refine ⟨(imem _).mpr (Or.inl rfl), ?_⟩
      rw [isv, hidx]
    · rw [getD_set_ne _ _ _ (fun he => hij he.symm)] at hj ⊢
      obtain ⟨hm, hx⟩ := h2 j hj
      have hvne : (kh.getD j NodeHandle.INVAL).val ≠ (h.insert k v).1.val := by
        intro he
        rw [he] at hm
        exact ifr hm
      refine ⟨(imem _).mpr (Or.inr hm), ?_⟩
      rw [isv2 _ hvne]
      exact hx
  · intro t ht
    rcases (imem t).mp ht with rfl | htold
    · rw [isv, hidx, getD_set_self _ _ hi]
      exact ⟨rfl, hP⟩
    · have htne : t ≠ (h.insert k v).1.val := fun he => ifr (he ▸ htold)
      rw [isv2 _ htne]
      obtain ⟨hk3t, hP3t⟩ := h3 t htold
      have hidne : idxOf (MinHeap.slotVal h t).2 ≠ i := by
        intro he
        rw [he, hcur] at hk3t
        have htlt := tree_mem_lt_node h hib t htold
        have : INVALID = t := congrArg NodeHandle.val hk3t
        omega
      rw [getD_set_ne _ _ _ (fun he => hidne he.symm)]
      exact ⟨hk3t, hP3t⟩

theorem liveK_oob (knots : List Knot) (i : Nat) (hi : ¬ i < knots.length) :
    liveK knots i = false := by
  rw [liveK]
  simp [hi]

theorem liveK_lt (knots : List Knot) (i : Nat) (h : liveK knots i = true) :
    i < knots.length := by
  rw [liveK, Bool.and_eq_true] at h
  exact of_decide_eq_true h.1

theorem liveK_not_removed (knots : List Knot) (i : Nat) (h : liveK knots i = true) :
    (getKnot knots i).is_remove = false := by
  rw [liveK, Bool.and_eq_true] at h
  simpa using h.2

theorem liveK_of (knots : List Knot) (i : Nat) (hi : i < knots.length)
    (hr : (getKnot knots i).is_remove = false) : liveK knots i = true := by
  rw [liveK, Bool.and_eq_true]
  exact ⟨decide_eq_true hi, by simp [hr]⟩

theorem NoRemP_congr (k1 k2 : List Knot) (hlen : k2.length = k1.length)
    (h : ∀ j, (getKnot k2 j).no_remove = (getKnot k1 j).no_remove)
    (hn : NoRemP k1) : NoRemP k2 := by
  intro i hi
  rw [hlen] at hi
  rw [h i, hlen]
  exact hn i hi

theorem ChainOpen_congr (k1 k2 : List Knot) (hlen : k2.length = k1.length)
    (hlive : ∀ j, liveK k2 j = liveK k1 j)
    (hnext : ∀ j, (getKnot k2 j).next = (getKnot k1 j).next)
    (hprev : ∀ j, (getKnot k2 j).prev = (getKnot k1 j).prev)
    (hch : ChainOpen k1) : ChainOpen k2 := by
  obtain ⟨hpos, hl0, hll, hp0, hnl, hnc, hpc⟩ := hch
  refine ⟨by omega, by rw [hlive]; exact hl0, by rw [hlive, hlen]; exact hll,
    by rw [hprev]; exact hp0, by rw [hnext, hlen]; exact hnl, ?_, ?_⟩
  · intro i hi hne
    rw [hlive] at hi
    rw [hlen] at hne
    obtain ⟨h1, h2, h3⟩ := hnc i hi hne
    rw [hnext]
    refine ⟨h1, by rw [hlive]; exact h2, ?_⟩
    intro m hm1 hm2
    rw [hlive]
    exact h3 m hm1 hm2
  · intro i hi hne
    rw [hlive] at hi
    obtain ⟨h1, h2, h3⟩ := hpc i hi hne
    rw [hprev]
    refine ⟨h1, by rw [hlive]; exact h2, ?_⟩
    intro m hm1 hm2
    rw [hlive]
    exact h3 m hm1 hm2

theorem chain_pred_unique (knots : List Knot) (hch : ChainOpen knots) (m i : Nat)
    (hm : liveK knots m = true) (hm0 : m ≠ 0) (hi : liveK knots i = true)
    (hlt : i < m) (hdead : ∀ j, i < j → j < m → liveK knots j = false) :
    i = (getKnot knots m).prev := by
  obtain ⟨_, _, _, _, _, _, hpc⟩ := hch
  obtain ⟨h1, h2, h3⟩ := hpc m hm hm0
  rcases lt_trichotomy i ((getKnot knots m).prev) with h | h | h
  · have := hdead _ h h1
    rw [this] at h2
    exact absurd h2 (by simp)
  · exact h
  · have := h3 i h hlt
    rw [this] at hi
    exact absurd hi (by simp)

theorem chain_succ_unique (knots : List Knot) (hch : ChainOpen knots) (m i : Nat)
    (hm : liveK knots m = true) (hml : m ≠ knots.length - 1) (hi : liveK knots i = true)
    (hlt : m < i) (hdead : ∀ j, m < j → j < i → liveK knots j = false) :
    i = (getKnot knots m).next := by
  obtain ⟨_, _, _, _, _, hnc, _⟩ := hch
  obtain ⟨h1, h2, h3⟩ := hnc m hm hml
  rcases lt_trichotomy i ((getKnot knots m).next) with h | h | h
  · have := h3 i hlt h
    rw [this] at hi
    exact absurd hi (by simp)
  · exact h
  · have := hdead _ h1 h
    rw [this] at h2
    exact absurd h2 (by simp)

theorem chain_adj_prev (knots : List Knot) (hch : ChainOpen knots) (p q : Nat)
    (hp : liveK knots p = true) (hq : liveK knots q = true)
    (hpq : (getKnot knots p).next = q) (hpl : p ≠ knots.length - 1) :
    (getKnot knots q).prev = p ∧ p < q ∧ (∀ m, p < m → m < q → liveK knots m = false) := by
  obtain ⟨_, _, _, _, _, hnc, _⟩ := id hch
  obtain ⟨h1, h2, h3⟩ := hnc p hp hpl
  rw [hpq] at h1 h2 h3
  have hq0 : q ≠ 0 := by omega
  have := chain_pred_unique knots hch q p hq hq0 hp h1 h3
  exact ⟨this.symm, h1, h3⟩

theorem ChainOpen_kill (knots knots2 : List Knot) (m : Nat) (hch : ChainOpen knots)
    (hm : liveK knots m = true) (hm0 : m ≠ 0) (hml : m ≠ knots.length - 1)
    (hlen : knots2.length = knots.length)
    (hlive : ∀ j, liveK knots2 j = if j = m then false else liveK knots j)
    (hnextp : (getKnot knots2 ((getKnot knots m).prev)).next = (getKnot knots m).next)
    (hprevq : (getKnot knots2 ((getKnot knots m).next)).prev = (getKnot knots m).prev)
    (hnexto : ∀ j, j ≠ (getKnot knots m).prev → (getKnot knots2 j).next = (getKnot knots j).next)
    (hprevo : ∀ j, j ≠ (getKnot knots m).next → (getKnot knots2 j).prev = (getKnot knots j).prev) :
    ChainOpen knots2 := by
  obtain ⟨hpos, hl0, hll, hp0, hnl, hnc, hpc⟩ := id hch
  obtain ⟨hmq, hqlive, hmqdead⟩ := hnc m hm hml
  obtain ⟨hpm, hplive, hpmdead⟩ := hpc m hm hm0
  have hqlt : (getKnot knots m).next < knots.length := liveK_lt _ _ hqlive
  have hplt : (getKnot knots m).prev < knots.length := liveK_lt _ _ hplive
  refine ⟨by omega, ?_, ?_, ?_, ?_, ?_, ?_⟩
  · rw [hlive, if_neg (by omega)]
    exact hl0
  · rw [hlive, hlen, if_neg (by omega)]
    exact hll
  · rw [hprevo 0 (by omega)]
    exact hp0
  · rw [hlen, hnexto _ (by omega)]
    exact hnl
  · intro i hi hil
    have him : i ≠ m := by
      intro he
      rw [hlive, if_pos he] at hi
      exact absurd hi (by simp)
    rw [hlive, if_neg him] at hi
    rw [hlen] at hil
    by_cases hip : i = (getKnot knots m).prev
    · subst hip
      rw [hnextp]
      refine ⟨by omega, ?_, ?_⟩
      · rw [hlive, if_neg (by omega)]
        exact hqlive
      · intro j hj1 hj2
        rw [hlive]
        rcases eq_or_ne j m with hjm | hjm
        · rw [if_pos hjm]
        · rw [if_neg hjm]
          rcases lt_trichotomy j m with h | h | h
          · exact hpmdead j hj1 h
          · exact absurd h hjm
          · exact hmqdead j h hj2
    · obtain ⟨h1, h2, h3⟩ := hnc i hi hil
      have hnim : (getKnot knots i).next ≠ m := by
        intro he
        apply hip
        apply chain_pred_unique knots hch m i hm hm0 hi (he ▸ h1)
        intro j hj1 hj2
        exact h3 j hj1 (he ▸ hj2)
      have hmgap : ¬ (i < m ∧ m < (getKnot knots i).next) := by
        rintro ⟨ha, hb⟩
        have := h3 m ha hb
        rw [this] at hm
        exact absurd hm (by simp)
      rw [hnexto i hip]
      refine ⟨h1, ?_, ?_⟩
      · rw [hlive, if_neg hnim]
        exact h2
      · intro j hj1 hj2
        rw [hlive, if_neg (by intro he; exact hmgap ⟨he ▸ hj1, he ▸ hj2⟩)]
        exact h3 j hj1 hj2
  · intro i hi hi0
    have him : i ≠ m := by
      intro he
      rw [hlive, if_pos he] at hi
      exact absurd hi (by simp)
    rw [hlive, if_neg him] at hi
    by_cases hiq : i = (getKnot knots m).next
    · subst hiq
      rw [hprevq]
      refine ⟨by omega, ?_, ?_⟩
      · rw [hlive, if_neg (by omega)]
        exact hplive
      · intro j hj1 hj2
        rw [hlive]
        rcases eq_or_ne j m with hjm | hjm
        · rw [if_pos hjm]
        · rw [if_neg hjm]
          rcases lt_trichotomy j m with h | h | h
          · exact hpmdead j hj1 h
          · exact absurd h hjm
          · exact hmqdead j h hj2
    · obtain ⟨h1, h2, h3⟩ := hpc i hi hi0
      have hpim : (getKnot knots i).prev ≠ m := by
        intro he
        apply hiq
        apply chain_succ_unique knots hch m i hm hml hi (he ▸ h1)
        intro j hj1 hj2
        exact h3 j (he ▸ hj1) hj2
      have hmgap : ¬ ((getKnot knots i).prev < m ∧ m < i) := by
        rintro ⟨ha, hb⟩
        have := h3 m ha hb
        rw [this] at hm
        exact absurd hm (by simp)
      rw [hprevo i hiq]
      refine ⟨h1, ?_, ?_⟩
      · rw [hlive, if_neg hpim]
        exact h2
      · intro j hj1 hj2
        rw [hlive, if_neg (by intro he; exact hmgap ⟨he ▸ hj1, he ▸ hj2⟩)]
        exact h3 j hj1 hj2

theorem ChainOpen_revive (knots knots2 : List Knot) (p q s : Nat) (hch : ChainOpen knots)
    (hp : liveK knots p = true) (hq : liveK knots q = true)
    (hpq : (getKnot knots p).next = q) (hps : p < s) (hsq : s < q)
    (hlen : knots2.length = knots.length)
    (hlive : ∀ j, liveK knots2 j = if j = s then true else liveK knots j)
    (hnextp : (getKnot knots2 p).next = s) (hprevq : (getKnot knots2 q).prev = s)
    (hnexts : (getKnot knots2 s).next = q) (hprevs : (getKnot knots2 s).prev = p)
    (hnexto : ∀ j, j ≠ p → j ≠ s → (getKnot knots2 j).next = (getKnot knots j).next)
    (hprevo : ∀ j, j ≠ q → j ≠ s → (getKnot knots2 j).prev = (getKnot knots j).prev) :
    ChainOpen knots2 := by
  obtain ⟨hpos, hl0, hll, hp0, hnl, hnc, hpc⟩ := id hch
  have hqlt : q < knots.length := liveK_lt _ _ hq
  have hpl : p ≠ knots.length - 1 := by omega
  obtain ⟨hpq2, hq2, hgapdead⟩ := hnc p hp hpl
  rw [hpq] at hpq2 hq2 hgapdead
  have hqprev : (getKnot knots q).prev = p :=
    (chain_pred_unique knots hch q p hq (by omega) hp hpq2 hgapdead).symm
  have hsdead : liveK knots s = false := hgapdead s hps hsq
  refine ⟨by omega, ?_, ?_, ?_, ?_, ?_, ?_⟩
  · rw [hlive, if_neg (by omega)]
    exact hl0
  · rw [hlive, hlen, if_neg (by omega)]
    exact hll
  · rw [hprevo 0 (by omega) (by omega)]
    exact hp0
  · rw [hlen, hnexto _ (by omega) (by omega)]
    exact hnl
  · intro i hi hil
    rw [hlen] at hil
    by_cases his : i = s
    · subst his
      rw [hnexts]
      refine ⟨hsq, ?_, ?_⟩
      · rw [hlive, if_neg (by omega)]
        exact hq
      · intro j hj1 hj2
        rw [hlive, if_neg (by omega)]
        exact hgapdead j (by omega) hj2
    · rw [hlive, if_neg his] at hi
      by_cases hip : i = p
      · subst hip
        rw [hnextp]
        refine ⟨hps, ?_, ?_⟩
        · rw [hlive, if_pos rfl]
        · intro j hj1 hj2
          rw [hlive, if_neg (by omega)]
          exact hgapdead j hj1 (by omega)
      · obtain ⟨h1, h2, h3⟩ := hnc i hi hil
        have hns : (getKnot knots i).next ≠ s := by
          intro he
          rw [he] at h2
          rw [hsdead] at h2
          exact absurd h2 (by simp)
        have hsgap : ¬ (i < s ∧ s < (getKnot knots i).next) := by
          rintro ⟨ha, hb⟩
          apply hip
          rcases lt_trichotomy i p with h | h | h
          · have := h3 p (by omega) (by
              rcases lt_trichotomy p ((getKnot knots i).next) with hc | hc | hc
              · exact hc
              · omega
              · exfalso
                have := hgapdead ((getKnot knots i).next) (by omega) (by omega)
                rw [this] at h2
                exact absurd h2 (by simp))
            rw [this] at hp
            exact absurd hp (by simp)
          · exact h
          · exfalso
            have := hgapdead i h (by omega)
            rw [this] at hi
            exact absurd hi (by simp)
        rw [hnexto i hip his]
        refine ⟨h1, ?_, ?_⟩
        · rw [hlive, if_neg hns]
          exact h2
        · intro j hj1 hj2
          rw [hlive, if_neg (by intro he; exact hsgap ⟨he ▸ hj1, he ▸ hj2⟩)]
          exact h3 j hj1 hj2
  · intro i hi hi0
    by_cases his : i = s
    · subst his
      rw [hprevs]
      refine ⟨hps, ?_, ?_⟩
      · rw [hlive, if_neg (by omega)]
        exact hp
      · intro j hj1 hj2
        rw [hlive, if_neg (by omega)]
        exact hgapdead j hj1 (by omega)
    · rw [hlive, if_neg his] at hi
      by_cases hiq : i = q
      · subst hiq
        rw [hprevq]
        refine ⟨hsq, ?_, ?_⟩
        · rw [hlive, if_pos rfl]
        · intro j hj1 hj2
          rw [hlive, if_neg (by omega)]
          exact hgapdead j (by omega) hj2
      · obtain ⟨h1, h2, h3⟩ := hpc i hi hi0
        have hns : (getKnot knots i).prev ≠ s := by
          intro he
          rw [he] at h2
          rw [hsdead] at h2
          exact absurd h2 (by simp)
        have hsgap : ¬ ((getKnot knots i).prev < s ∧ s < i) := by
          rintro ⟨ha, hb⟩
          apply hiq
          rcases lt_trichotomy i q with h | h | h
          · exfalso
            have := hgapdead i (by omega) h
            rw [this] at hi
            exact absurd hi (by simp)
          · exact h
          · have := h3 q (by
              rcases lt_trichotomy ((getKnot knots i).prev) q with hc | hc | hc
              · exact hc
              · omega
              · exfalso
                have := hgapdead ((getKnot knots i).prev) (by omega) (by omega)
                rw [this] at h2
                exact absurd h2 (by simp)) (by omega)
            rw [this] at hq
            exact absurd hq (by simp)
        rw [hprevo i hiq his]
        refine ⟨h1, ?_, ?_⟩
        · rw [hlive, if_neg hns]
          exact h2
        · intro j hj1 hj2
          rw [hlive, if_neg (by intro he; exact hsgap ⟨he ▸ hj1, he ▸ hj2⟩)]
          exact h3 j hj1 hj2

theorem ChainOpen_kill_revive (knots knots2 : List Knot) (m s : Nat) (hch : ChainOpen knots)
    (hm : liveK knots m = true) (hm0 : m ≠ 0) (hml : m ≠ knots.length - 1)
    (hps : (getKnot knots m).prev < s) (hsq : s < (getKnot knots m).next) (hsm : s ≠ m)
    (hlen : knots2.length = knots.length)
    (hlive : ∀ j, liveK knots2 j = if j = s then true else if j = m then false else liveK knots j)
    (hnextp : (getKnot knots2 ((getKnot knots m).prev)).next = s)
    (hprevq : (getKnot knots2 ((getKnot knots m).next)).prev = s)
    (hnexts : (getKnot knots2 s).next = (getKnot knots m).next)
    (hprevs : (getKnot knots2 s).prev = (getKnot knots m).prev)
    (hnexto : ∀ j, j ≠ (getKnot knots m).prev → j ≠ s → (getKnot knots2 j).next = (getKnot knots j).next)
    (hprevo : ∀ j, j ≠ (getKnot knots m).next → j ≠ s → (getKnot knots2 j).prev = (getKnot knots j).prev) :
    ChainOpen knots2 := by
  obtain ⟨hpos, hl0, hll, hp0, hnl, hnc, hpc⟩ := id hch
  obtain ⟨hmq, hqlive, hmqdead⟩ := hnc m hm hml
  obtain ⟨hpm, hplive, hpmdead⟩ := hpc m hm hm0
  have hqlt : (getKnot knots m).next < knots.length := liveK_lt _ _ hqlive
  have hmlt : m < knots.length := liveK_lt _ _ hm
  have hgapdead : ∀ j, (getKnot knots m).prev < j → j < (getKnot knots m).next → j ≠ m →
      liveK knots j = false := by
    intro j hj1 hj2 hjm
    rcases lt_trichotomy j m with h | h | h
    · exact hpmdead j hj1 h
    · exact absurd h hjm
    · exact hmqdead j h hj2
  have hsdead : liveK knots s = false := hgapdead s hps hsq hsm
  refine ⟨by omega, ?_, ?_, ?_, ?_, ?_, ?_⟩
  · rw [hlive, if_neg (by omega), if_neg (by omega)]
    exact hl0
  · rw [hlive, hlen, if_neg (by omega), if_neg (by omega)]
    exact hll
  · rw [hprevo 0 (by omega) (by omega)]
    exact hp0
  · rw [hlen, hnexto _ (by omega) (by omega)]
    exact hnl
  · intro i hi hil
    rw [hlen] at hil
    by_cases his : i = s
    · subst his
      rw [hnexts]
      refine ⟨hsq, ?_, ?_⟩
      · rw [hlive, if_neg (by omega), if_neg (by omega)]
        exact hqlive
      · intro j hj1 hj2
        rw [hlive, if_neg (by omega)]
        rcases eq_or_ne j m with hjm | hjm
        · rw [if_pos hjm]
        · rw [if_neg hjm]
          exact hgapdead j (by omega) hj2 hjm
    · have him : i ≠ m := by
        intro he
        rw [hlive, if_neg his, if_pos he] at hi
        exact absurd hi (by simp)
      rw [hlive, if_neg his, if_neg him] at hi
      by_cases hip : i = (getKnot knots m).prev
      · subst hip
        rw [hnextp]
        refine ⟨hps, ?_, ?_⟩
        · rw [hlive, if_pos rfl]
        · intro j hj1 hj2
          rw [hlive, if_neg (by omega)]
          rcases eq_or_ne j m with hjm | hjm
          · rw [if_pos hjm]
          · rw [if_neg hjm]
            exact hgapdead j hj1 (by omega) hjm
      · obtain ⟨h1, h2, h3⟩ := hnc i hi hil
        have hnim : (getKnot knots i).next ≠ m := by
          intro he
          apply hip
          apply chain_pred_unique knots hch m i hm hm0 hi (he ▸ h1)
          intro j hj1 hj2
          exact h3 j hj1 (he ▸ hj2)
        have hnis : (getKnot knots i).next ≠ s := by
          intro he
          rw [he, hsdead] at h2
          exact absurd h2 (by simp)
        have hmgap : ¬ (i < m ∧ m < (getKnot knots i).next) := by
          rintro ⟨ha, hb⟩
          have := h3 m ha hb
          rw [this] at hm
          exact absurd hm (by simp)
        have hsgap : ¬ (i < s ∧ s < (getKnot knots i).next) := by
          rintro ⟨ha, hb⟩
          apply hip
          rcases lt_trichotomy i ((getKnot knots m).prev) with h | h | h
          · have := h3 ((getKnot knots m).prev) (by omega) (by
              rcases lt_trichotomy ((getKnot knots m).prev) ((getKnot knots i).next) with hc | hc | hc
              · exact hc
              · omega
              · exfalso
                have hnin : (getKnot knots i).next ≠ m := hnim
                have := hgapdead ((getKnot knots i).next) (by omega) (by omega) hnin
                rw [this] at h2
                exact absurd h2 (by simp))
            rw [this] at hplive
            exact absurd hplive (by simp)
          · exact h
          · exfalso
            have := hgapdead i h (by omega) him
            rw [this] at hi
            exact absurd hi (by simp)
        rw [hnexto i hip his]
        refine ⟨h1, ?_, ?_⟩
        · rw [hlive, if_neg hnis, if_neg hnim]
          exact h2
        · intro j hj1 hj2
          rw [hlive, if_neg (by intro he; exact hsgap ⟨he ▸ hj1, he ▸ hj2⟩),
            if_neg (by intro he; exact hmgap ⟨he ▸ hj1, he ▸ hj2⟩)]
          exact h3 j hj1 hj2
  · intro i hi hi0
    by_cases his : i = s
    · subst his
      rw [hprevs]
      refine ⟨hps, ?_, ?_⟩
      · rw [hlive, if_neg (by omega), if_neg (by omega)]
        exact hplive
      · intro j hj1 hj2
        rw [hlive, if_neg (by omega)]
        rcases eq_or_ne j m with hjm | hjm
        · rw [if_pos hjm]
        · rw [if_neg hjm]
          exact hgapdead j hj1 (by omega) hjm
    · have him : i ≠ m := by
        intro he
        rw [hlive, if_neg his, if_pos he] at hi
        exact absurd hi (by simp)
      rw [hlive, if_neg his, if_neg him] at hi
      by_cases hiq : i = (getKnot knots m).next
      · subst hiq
        rw [hprevq]
        refine ⟨hsq, ?_, ?_⟩
        · rw [hlive, if_pos rfl]
        · intro j hj1 hj2
          rw [hlive, if_neg (by omega)]
          rcases eq_or_ne j m with hjm | hjm
          · rw [if_pos hjm]
          · rw [if_neg hjm]
            exact hgapdead j (by omega) hj2 hjm
      · obtain ⟨h1, h2, h3⟩ := hpc i hi hi0
        have hpim : (getKnot knots i).prev ≠ m := by
          intro he
          apply hiq
          apply chain_succ_unique knots hch m i hm hml hi (he ▸ h1)
          intro j hj1 hj2
          exact h3 j (he ▸ hj1) hj2
        have hpis : (getKnot knots i).prev ≠ s := by
          intro he
          rw [he, hsdead] at h2
          exact absurd h2 (by simp)
        have hmgap : ¬ ((getKnot knots i).prev < m ∧ m < i) := by
          rintro ⟨ha, hb⟩
          have := h3 m ha hb
          rw [this] at hm
          exact absurd hm (by simp)
        have hsgap : ¬ ((getKnot knots i).prev < s ∧ s < i) := by
          rintro ⟨ha, hb⟩
          apply hiq
          rcases lt_trichotomy i ((getKnot knots m).next) with h | h | h
          · exfalso
            have := hgapdead i (by omega) h him
            rw [this] at hi
            exact absurd hi (by simp)
          · exact h
          · have := h3 ((getKnot knots m).next) (by
              rcases lt_trichotomy ((getKnot knots i).prev) ((getKnot knots m).next) with hc | hc | hc
              · exact hc
              · omega
              · exfalso
                have := hgapdead ((getKnot knots i).prev) (by omega) (by omega) hpim
                rw [this] at h2
                exact absurd h2 (by simp)) (by omega)
            rw [this] at hqlive
            exact absurd hqlive (by simp)
        rw [hprevo i hiq his]
        refine ⟨h1, ?_, ?_⟩
        · rw [hlive, if_neg hpis, if_neg hpim]
          exact h2
        · intro j hj1 hj2
          rw [hlive, if_neg (by intro he; exact hsgap ⟨he ▸ hj1, he ▸ hj2⟩),
            if_neg (by intro he; exact hmgap ⟨he ▸ hj1, he ▸ hj2⟩)]
          exact h3 j hj1 hj2

theorem range_drop_cons (n i : Nat) (hi : i < n) :
    (List.range n).drop i = i :: (List.range n).drop (i + 1) := by
  rw [List.drop_eq_getElem_cons (by simpa using hi)]
  congr 1
  simp

theorem liveCount_zero_of_ge (knots : List Knot) (i : Nat) (hi : knots.length ≤ i) :
    liveCount knots i = 0 := by
  rw [liveCount, List.drop_eq_nil_of_le (by simpa using hi)]
  simp

theorem liveCount_step (knots : List Knot) (i : Nat) (hi : i < knots.length) :
    liveCount knots i = (if liveK knots i = true then 1 else 0) + liveCount knots (i + 1) := by
  rw [liveCount, liveCount, range_drop_cons _ _ hi, List.filter_cons]
  by_cases h : liveK knots i = true
  · rw [if_pos (by simpa using h), if_pos h]
    simp [Nat.add_comm]
  · rw [if_neg (by simpa using h), if_neg h]
    simp

theorem liveCount_congr (k1 k2 : List Knot) (hlen : k2.length = k1.length)
    (h : ∀ j, liveK k2 j = liveK k1 j) (i : Nat) : liveCount k2 i = liveCount k1 i := by
  rw [liveCount, liveCount, hlen]
  congr 1
  apply List.filter_congr
  intro j _
  rw [h j]

theorem mem_range_drop (n : Nat) : ∀ d i j, i ≤ j → j < n → j - i = d →
    j ∈ (List.range n).drop i := by
  intro d
  induction d with
  | zero =>
    intro i j hij hj hd
    have : i = j := by omega
    subst this
    rw [range_drop_cons _ _ hj]
    exact List.mem_cons_self _ _
  | succ d ih =>
    intro i j hij hj hd
    rw [range_drop_cons _ _ (by omega)]
    exact List.mem_cons_of_mem _ (ih (i + 1) j (by omega) hj (by omega))

theorem liveCount_pos (knots : List Knot) (i j : Nat) (hij : i ≤ j)
    (hlive : liveK knots j = true) : 0 < liveCount knots i := by
  rw [liveCount]
  have hj : j < knots.length := liveK_lt _ _ hlive
  have hmem : j ∈ ((List.range knots.length).drop i).filter (fun t => liveK knots t) :=
    List.mem_filter.mpr ⟨mem_range_drop _ (j - i) i j hij hj rfl, by simpa using hlive⟩
  exact List.length_pos.mpr (fun he => by rw [he] at hmem; exact absurd hmem (by simp))

theorem liveCount_skip_dead (knots : List Knot) : ∀ d i q, i ≤ q → q ≤ knots.length →
    (∀ m, i ≤ m → m < q → liveK knots m = false) → q - i = d →
    liveCount knots i = liveCount knots q := by
  intro d
  induction d with
  | zero =>
    intro i q hiq hq hdead hd
    have : i = q := by omega
    rw [this]
  | succ d ih =>
    intro i q hiq hq hdead hd
    have hi : i < knots.length := by omega
    rw [liveCount_step _ _ hi, hdead i (le_refl i) (by omega)]
    simp only [Bool.false_eq_true, if_false, Nat.zero_add]
    exact ih (i + 1) q (by omega) hq (fun m hm1 hm2 => hdead m (by omega) hm2) (by omega)

theorem liveCount_adj (knots : List Knot) (i q : Nat) (hlive : liveK knots i = true)
    (hiq : i < q) (hq : q ≤ knots.length)
    (hdead : ∀ m, i < m → m < q → liveK knots m = false) :
    liveCount knots i = 1 + liveCount knots q := by
  rw [liveCount_step _ _ (liveK_lt _ _ hlive), if_pos hlive,
    liveCount_skip_dead knots (q - (i + 1)) (i + 1) q (by omega) hq
      (fun m hm1 hm2 => hdead m (by omega) hm2) rfl]

theorem liveCount_last (knots : List Knot) (hlive : liveK knots (knots.length - 1) = true) :
    liveCount knots (knots.length - 1) = 1 := by
  have hl : knots.length - 1 < knots.length := liveK_lt _ _ hlive
  rw [liveCount_step _ _ hl, if_pos hlive, liveCount_zero_of_ge _ _ (by omega)]

theorem filter_length_flip (p1 p2 : Nat → Bool) (m : Nat) :
    ∀ l : List Nat, l.Nodup → m ∈ l → p1 m = true → p2 m = false →
      (∀ j ∈ l, j ≠ m → p2 j = p1 j) →
      (l.filter p2).length + 1 = (l.filter p1).length := by
  intro l
  induction l with
  | nil => intro _ hm; exact absurd hm (by simp)
  | cons a l ih =>
    intro hnd hm h1 h2 hoth
    rcases eq_or_ne a m with ham | ham
    · subst ham
      rw [List.filter_cons, List.filter_cons, if_neg (by simp [h2]),
        if_pos (by simpa using h1)]
      have hnotin : a ∉ l := (List.nodup_cons.mp hnd).1
      have : l.filter p2 = l.filter p1 := by
        apply List.filter_congr
        intro j hj
        exact hoth j (List.mem_cons_of_mem _ hj) (fun he => hnotin (he ▸ hj))
      rw [this, List.length_cons]
    · have hm2 : m ∈ l := by
        rcases List.mem_cons.mp hm with h | h
        · exact absurd h.symm ham
        · exact h
      have hstep := ih (List.nodup_cons.mp hnd).2 hm2 h1 h2
        (fun j hj hjm => hoth j (List.mem_cons_of_mem _ hj) hjm)
      rw [List.filter_cons, List.filter_cons, hoth a (List.mem_cons_self _ _) ham]
      by_cases hpa : p1 a = true
      · rw [if_pos (by simpa using hpa), if_pos (by simpa using hpa)]
        simp only [List.length_cons]
        omega
      · rw [if_neg (by simpa using hpa), if_neg (by simpa using hpa)]
        exact hstep

theorem range_drop_nodup (n i : Nat) : ((List.range n).drop i).Nodup :=
  (List.nodup_range n).sublist (List.drop_sublist i (List.range n))

theorem liveCount_kill (k1 k2 : List Knot) (hlen : k2.length = k1.length) (m : Nat)
    (hm : liveK k1 m = true)
    (hlive : ∀ j, liveK k2 j = if j = m then false else liveK k1 j)
    (i : Nat) (him : i ≤ m) : liveCount k2 i + 1 = liveCount k1 i := by
  rw [liveCount, liveCount, hlen]
  apply filter_length_flip (fun j => liveK k1 j) (fun j => liveK k2 j) m _
    (range_drop_nodup _ _)
    (mem_range_drop _ (m - i) i m him (liveK_lt _ _ hm) rfl) hm
    (by show liveK k2 m = false
        rw [hlive, if_pos rfl])
  intro j _ hjm
  show liveK k2 j = liveK k1 j
  rw [hlive, if_neg hjm]

theorem liveCount_revive (k1 k2 : List Knot) (hlen : k2.length = k1.length) (t : Nat)
    (ht : liveK k1 t = false) (ht2 : t < k1.length)
    (hlive : ∀ j, liveK k2 j = if j = t then true else liveK k1 j)
    (i : Nat) (hit : i ≤ t) : liveCount k2 i = liveCount k1 i + 1 := by
  rw [liveCount, liveCount, hlen]
  refine (filter_length_flip (fun j => liveK k2 j) (fun j => liveK k1 j) t _
    (range_drop_nodup _ _)
    (mem_range_drop _ (t - i) i t hit ht2 rfl)
    (by show liveK k2 t = true
        rw [hlive, if_pos rfl]) ht ?_).symm
  intro j _ hjt
  show liveK k1 j = liveK k2 j
  rw [hlive, if_neg hjt]

theorem liveCount_kill_revive (k1 k2 : List Knot) (hlen : k2.length = k1.length) (m t : Nat)
    (hm : liveK k1 m = true) (ht : liveK k1 t = false) (ht2 : t < k1.length) (htm : t ≠ m)
    (hlive : ∀ j, liveK k2 j = if j = t then true else if j = m then false else liveK k1 j)
    (i : Nat) (him : i ≤ m) (hit : i ≤ t) : liveCount k2 i = liveCount k1 i := by
  rw [liveCount, liveCount, hlen]
  have hmid := filter_length_flip (fun j => liveK k1 j)
    (fun j => if j = m then false else liveK k1 j) m
    ((List.range k1.length).drop i) (range_drop_nodup _ _)
    (mem_range_drop _ (m - i) i m him (liveK_lt _ _ hm) rfl) hm
    (by show (if m = m then false else liveK k1 m) = false
        rw [if_pos rfl])
    (by intro j _ hjm
        show (if j = m then false else liveK k1 j) = liveK k1 j
        rw [if_neg hjm])
  have hfin := filter_length_flip (fun j => liveK k2 j)
    (fun j => if j = m then false else liveK k1 j) t
    ((List.range k1.length).drop i) (range_drop_nodup _ _)
    (mem_range_drop _ (t - i) i t hit ht2 rfl)
    (by show liveK k2 t = true
        rw [hlive, if_pos rfl])
    (by show (if t = m then false else liveK k1 t) = false
        rw [if_neg htm, ht])
    (by intro j _ hjt
        show (if j = m then false else liveK k1 j) = liveK k2 j
        rw [hlive, if_neg hjt])
  omega

end Retrace
